import Mathlib

/-!
# Verification of the RelooperJumpThreading pass

A shallow embedding of `src/passes/RelooperJumpThreading.cpp` (binaryen, 2016).
The expression tree is modelled as a closed inductive type covering the node
kinds the pass inspects or builds (blocks, ifs, binary comparisons, local
get/set, integer constants, named breaks, nops), plus one uninterpreted leaf
standing for any other expression kind.  Stateful walks of the C++ visitors
become explicit state passing; fallible operations (`cast<...>`, `assert`)
return `Option`, with `none` standing for an assertion/cast failure.
-/

namespace RJT

/-- Scope names (binaryen `Name`), modelled as strings. -/
abbrev BName := String

/-- The only binary operator the pass inspects is `EqInt32`; every other
operator is collapsed into `otherOp` (the pass only tests `op == EqInt32`). -/
inductive BinOp where
  | eqInt32
  | otherOp

/-- Expression nodes, following the node kinds of the C++ tree that the pass
inspects or constructs.  `block` is a (possibly unnamed) block with an ordered
child list; `iff` is `If` with condition, true branch and optional false
branch; `setLocal`'s second field is the assigned value expression; `brk` is a
named `Break` (the pass only builds breaks with neither value nor condition);
`other` is an uninterpreted leaf standing for any node kind the pass never
inspects structurally. -/
inductive Expr where
  | block : Option BName → List Expr → Expr
  | iff : Expr → Expr → Option Expr → Expr
  | binary : BinOp → Expr → Expr → Expr
  | getLocal : Nat → Expr
  | setLocal : Nat → Expr → Expr
  | const : Nat → Expr
  | brk : BName → Expr
  | nop : Expr
  | other : Expr

/-- `const Index MAX_NAME_INDEX = 1000;` (line 32). -/
def MAX_NAME_INDEX : Nat := 1000

/-- The pre-generated inner name with index `i` (`NameEnsurer`, line 44). -/
def innerNames (i : Nat) : BName := "jumpthreading$inner$" ++ toString i

/-- The pre-generated outer name with index `i` (`NameEnsurer`, line 45). -/
def outerNames (i : Nat) : BName := "jumpthreading$outer$" ++ toString i

/-- `isLabelCheckingIf` (lines 50-59): the node is an `If` whose condition is
a `Binary` with op `EqInt32` whose left child is `GetLocal` of the label
index.  The right child of the comparison is *not* inspected here. -/
def isLabelCheckingIf (curr : Expr) (labelIndex : Nat) : Bool :=
  match curr with
  | .iff (.binary .eqInt32 (.getLocal i) _) _ _ => i == labelIndex
  | _ => false

/-- `isLabelCheckingIf` applied to a nullable expression (the C++ function is
called on `iff->ifFalse`, which may be null; line 51 handles null). -/
def isLabelCheckingIfO (curr : Option Expr) (labelIndex : Nat) : Bool :=
  match curr with
  | some e => isLabelCheckingIf e labelIndex
  | none => false

/-- `getCheckedLabelValue` (lines 61-63):
`iff->condition->cast<Binary>()->right->cast<Const>()->value.geti32()`.
Both casts are hard casts; a node of any other shape is a cast failure,
modelled as `none`.  Note that the binary op is *not* re-checked here. -/
def getCheckedLabelValue (iffE : Expr) : Option Nat :=
  match iffE with
  | .iff (.binary _ _ (.const n)) _ _ => some n
  | _ => none

/-- `isLabelSettingSetLocal` (lines 65-71): a `SetLocal` whose index is the
label index.  The value's shape is *not* inspected. -/
def isLabelSettingSetLocal (curr : Expr) (labelIndex : Nat) : Bool :=
  match curr with
  | .setLocal i _ => i == labelIndex
  | _ => false

/-- `getSetLabelValue` (lines 73-75): `set->value->cast<Const>()->value.geti32()`,
a hard cast, `none` on any non-constant value. -/
def getSetLabelValue (set : Expr) : Option Nat :=
  match set with
  | .setLocal _ (.const n) => some n
  | _ => none

/-- The two use-count maps of `LabelUseFinder` (lines 79-80):
label value `→` number of checks on it / number of sets to it.
`std::map` with `operator[]` defaulting to `0` is modelled as a total
function defaulting to `0`. -/
structure Counts where
  checks : Nat → Nat
  sets : Nat → Nat

/-- A freshly constructed pair of count maps (all zero). -/
def emptyCounts : Counts := ⟨fun _ => 0, fun _ => 0⟩

/-- `checks[n]++`. -/
def bumpCheck (c : Counts) (n : Nat) : Counts :=
  { c with checks := fun v => if v = n then c.checks v + 1 else c.checks v }

/-- `sets[n]++`. -/
def bumpSet (c : Counts) (n : Nat) : Counts :=
  { c with sets := fun v => if v = n then c.sets v + 1 else c.sets v }

mutual

/-- The walk of `LabelUseFinder` (lines 77-95): a post-order traversal that
visits every node; at an `If` node, if it is a label-checking if, bump
`checks[getCheckedLabelValue(curr)]` (the extraction is a hard cast, so a
label-checking if with a non-constant right operand is a crash, `none`);
at a `SetLocal` node with the label's index, bump `sets[getSetLabelValue(curr)]`
(again a hard cast on the value).  The accumulator is the member map pair the
finder was constructed with (the C++ finder mutates maps given by reference). -/
def labelUseFinderWalk (li : Nat) : Expr → Counts → Option Counts
  | .block _ list, c => labelUseFinderWalkL li list c
  | .iff cond t none, c =>
    match labelUseFinderWalk li cond c with
    | none => none
    | some c1 =>
      match labelUseFinderWalk li t c1 with
      | none => none
      | some c2 =>
        if isLabelCheckingIf (.iff cond t none) li then
          match getCheckedLabelValue (.iff cond t none) with
          | some n => some (bumpCheck c2 n)
          | none => none
        else some c2
  | .iff cond t (some f), c =>
    match labelUseFinderWalk li cond c with
    | none => none
    | some c1 =>
      match labelUseFinderWalk li t c1 with
      | none => none
      | some c2 =>
        match labelUseFinderWalk li f c2 with
        | none => none
        | some c3 =>
          if isLabelCheckingIf (.iff cond t (some f)) li then
            match getCheckedLabelValue (.iff cond t (some f)) with
            | some n => some (bumpCheck c3 n)
            | none => none
          else some c3
  | .binary _ l r, c =>
    match labelUseFinderWalk li l c with
    | none => none
    | some c1 => labelUseFinderWalk li r c1
  | .setLocal i v, c =>
    match labelUseFinderWalk li v c with
    | none => none
    | some c1 =>
      if isLabelSettingSetLocal (.setLocal i v) li then
        match getSetLabelValue (.setLocal i v) with
        | some n => some (bumpSet c1 n)
        | none => none
      else some c1
  | .getLocal _, c => some c
  | .const _, c => some c
  | .brk _, c => some c
  | .nop, c => some c
  | .other, c => some c

/-- The finder's traversal of a block's child list, in order. -/
def labelUseFinderWalkL (li : Nat) : List Expr → Counts → Option Counts
  | [], c => some c
  | e :: es, c =>
    match labelUseFinderWalk li e c with
    | none => none
    | some c1 => labelUseFinderWalkL li es c1

end

/-- The mutable per-instance rewriting state threaded through the walk:
`newNameCounter` (line 110) and, for the diagnostic channel, the number of
"too many names" notices written to `std::cerr` (line 198). -/
structure PassState where
  counter : Nat
  notices : Nat
deriving DecidableEq

mutual

/-- The walk of the local `JumpUpdater` visitor (lines 210-228): a post-order
traversal; at every `SetLocal` whose index is the label index, the value is
hard-cast to `Const` (`none` on failure, line 217) and, if it equals the
target value, the node is replaced by `Builder.makeBreak(targetName)`.
Children are processed before the node itself (post order), so the node's
value examined here is the already-updated one. -/
def jumpUpdaterWalk (li target : Nat) (tname : BName) : Expr → Option Expr
  | .block n list =>
    match jumpUpdaterWalkL li target tname list with
    | none => none
    | some list2 => some (.block n list2)
  | .iff cond t none =>
    match jumpUpdaterWalk li target tname cond with
    | none => none
    | some cond2 =>
      match jumpUpdaterWalk li target tname t with
      | none => none
      | some t2 => some (.iff cond2 t2 none)
  | .iff cond t (some f) =>
    match jumpUpdaterWalk li target tname cond with
    | none => none
    | some cond2 =>
      match jumpUpdaterWalk li target tname t with
      | none => none
      | some t2 =>
        match jumpUpdaterWalk li target tname f with
        | none => none
        | some f2 => some (.iff cond2 t2 (some f2))
  | .binary op l r =>
    match jumpUpdaterWalk li target tname l with
    | none => none
    | some l2 =>
      match jumpUpdaterWalk li target tname r with
      | none => none
      | some r2 => some (.binary op l2 r2)
  | .setLocal i v =>
    match jumpUpdaterWalk li target tname v with
    | none => none
    | some v2 =>
      if i == li then
        match v2 with
        | .const n => if n == target then some (.brk tname) else some (.setLocal i v2)
        | _ => none
      else some (.setLocal i v2)
  | .getLocal i => some (.getLocal i)
  | .const n => some (.const n)
  | .brk b => some (.brk b)
  | .nop => some .nop
  | .other => some .other

/-- `JumpUpdater` over a block's children, in order. -/
def jumpUpdaterWalkL (li target : Nat) (tname : BName) : List Expr → Option (List Expr)
  | [] => some []
  | e :: es =>
    match jumpUpdaterWalk li target tname e with
    | none => none
    | some e2 =>
      match jumpUpdaterWalkL li target tname es with
      | none => none
      | some es2 => some (e2 :: es2)

end

/-- `optimizeJumpsToLabelCheck` (lines 195-238), recursive over the else-if
chain.  `origin` is the C++ `Expression*& origin` slot: the function returns
the new contents of that slot.  Step by step:
draw `nameCounter = newNameCounter++` (the counter increments even on the cap
branch); if the drawn index reached `MAX_NAME_INDEX`, write the diagnostic
notice and return with the origin slot unchanged (lines 197-200); otherwise
extract the checked value (hard casts, line 201), run `JumpUpdater` over the
origin (lines 210-228), build the inner block
`blockifyWithName(origin, innerName, makeBreak(outerName))` and the outer
block `makeSequence(inner, iff->ifTrue)` named `outerName` (lines 230-233),
and finally, if the if's false branch exists, recurse on
`ifFalse->cast<If>()` with the just-built outer block as the origin
(lines 235-237) — the cast is hard, so any non-`If` false branch, or one
whose condition shape defeats the value extraction, is a crash (`none`).

Modelled from the spec: the tree-builder utilities are not part of this
repository's sources.  Per the spec's builder interface (§6: "a block with a
given name wrapping an ordered list of statements, a named jump node, a
sequence of exactly two statements") and §4.5 steps 3-4,
`blockifyWithName(origin, innerName, makeBreak(outerName))` is modelled as a
block named `innerName` with child list `[origin, brk outerName]`, and
`makeSequence(inner, ifTrue)` with `outer->name = outerName` as a block named
`outerName` with child list `[inner, ifTrue]`. -/
def optimizeJumpsToLabelCheck (li : Nat) (origin iffE : Expr) (st : PassState) :
    Option (Expr × PassState) :=
  let nameCounter := st.counter
  let st1 : PassState := { st with counter := st.counter + 1 }
  if nameCounter ≥ MAX_NAME_INDEX then
    -- std::cerr << "too many names in RelooperJumpThreading :(\n"; return;
    some (origin, { st1 with notices := st1.notices + 1 })
  else
    match getCheckedLabelValue iffE with
    | none => none
    | some num =>
      match iffE with
      | .iff _cond ifTrue ifFalse =>
        let innerName := innerNames nameCounter
        let outerName := outerNames nameCounter
        match jumpUpdaterWalk li num innerName origin with
        | none => none
        | some origin2 =>
          let inner : Expr := .block (some innerName) [origin2, .brk outerName]
          let outer : Expr := .block (some outerName) [inner, ifTrue]
          match ifFalse with
          | none => some (outer, st1)
          | some f => optimizeJumpsToLabelCheck li outer f st1
      | _ => none

/-- The `while (iff)` loop of `hasIrreducibleControlFlow` (lines 178-188),
given the function-wide counts `fc` (the stale member maps `labelChecks` /
`labelSets`) and the origin-restricted counts `cIn`.  `assert` failures and
cast failures are `none`:
`num = getCheckedLabelValue(iff)` (hard casts);
`assert(labelChecks[num] > 0)`;
`if (labelChecks[num] > 1) return true;`
`assert(labelChecksInOrigin[num] == 0)`;
`if (labelSetsInOrigin[num] != labelSets[num])` then
`assert(labelSetsInOrigin[num] < labelSets[num]); return true;`
else advance to `isLabelCheckingIf(iff->ifFalse, labelIndex)`. -/
def hasIrrCheckValue (fc cIn : Counts) (num : Nat) : Option (Option Bool) :=
  if fc.checks num = 0 then none
  else if fc.checks num > 1 then some (some true)
  else if cIn.checks num ≠ 0 then none
  else if cIn.sets num ≠ fc.sets num then
    if cIn.sets num < fc.sets num then some (some true) else none
  else some none

/-- See `hasIrrCheckValue` for the per-value loop body; this function is the
loop itself, advancing down the false branches while they are label-checking
ifs. -/
def hasIrrChain (li : Nat) (fc cIn : Counts) : Expr → Option Bool
  | .iff cond t none =>
    match getCheckedLabelValue (.iff cond t none) with
    | none => none
    | some num =>
      match hasIrrCheckValue fc cIn num with
      | none => none
      | some (some b) => some b
      | some none => some false
  | .iff cond t (some f) =>
    match getCheckedLabelValue (.iff cond t (some f)) with
    | none => none
    | some num =>
      match hasIrrCheckValue fc cIn num with
      | none => none
      | some (some b) => some b
      | some none =>
        if isLabelCheckingIf f li then hasIrrChain li fc cIn f else some false
  | _ => none

/-- `hasIrreducibleControlFlow` (lines 168-190): run a fresh `LabelUseFinder`
over `origin` (lines 174-177), then walk the if chain. -/
def hasIrreducibleControlFlow (li : Nat) (fc : Counts) (iffE origin : Expr) :
    Option Bool :=
  match labelUseFinderWalk li origin emptyCounts with
  | none => none
  | some cIn => hasIrrChain li fc cIn iffE

mutual

/-- One run of `visitBlock`'s inner `j` loop (lines 118-152), starting from a
fixed origin.  The in-place list is modelled functionally: `origin` carries
the current contents of `list[origin]` (every iteration reads and writes that
same slot, since `Index origin = i` is fixed for the whole run), and `rest`
is `list[j..]`.  The result is `(final origin slot contents, the processed
list that follows the origin slot, state)`.  Consumed positions hold `nop`
when rewritten (`ExpressionManipulator::nop(iff)`, lines 125 and 143-144)
and their original contents when skipped as irreducible; in the holder case
the rewritten origin is moved inside the holder block, which then occupies
the origin slot (lines 140-141).  When an element does not extend the run
(`break`, line 151), the outer loop resumes with that element as the next
origin (`i` has been advanced past every consumed element), which is the
`visitBlockScan` call in the break branches.  Note `irreducible |= ...`
always evaluates `hasIrreducibleControlFlow` (a possible assertion failure)
even when the flag is already set, and the holder-size assertion (line 138)
is only reached on the non-irreducible path. -/
def visitBlockRun (li : Nat) (fc : Counts) (origin : Expr) (rest : List Expr)
    (irr : Bool) (st : PassState) : Option (Expr × List Expr × PassState) :=
  match rest with
  | [] => some (origin, [], st)
  | e :: rs =>
    if isLabelCheckingIf e li then
      match hasIrreducibleControlFlow li fc e origin with
      | none => none
      | some b =>
        let irr2 := irr || b
        if irr2 then
          match visitBlockRun li fc origin rs irr2 st with
          | none => none
          | some (o2, tail, st2) => some (o2, e :: tail, st2)
        else
          match optimizeJumpsToLabelCheck li origin e st with
          | none => none
          | some (origin2, st2) =>
            match visitBlockRun li fc origin2 rs irr2 st2 with
            | none => none
            | some (o2, tail, st3) => some (o2, Expr.nop :: tail, st3)
    else
      match e with
      | .block bn (h0 :: hrest) =>
        if isLabelCheckingIf h0 li then
          match hasIrreducibleControlFlow li fc h0 origin with
          | none => none
          | some b =>
            let irr2 := irr || b
            if irr2 then
              match visitBlockRun li fc origin rs irr2 st with
              | none => none
              | some (o2, tail, st2) =>
                some (o2, (Expr.block bn (h0 :: hrest)) :: tail, st2)
            else
              if hrest.isEmpty then
                match optimizeJumpsToLabelCheck li origin h0 st with
                | none => none
                | some (origin2, st2) =>
                  match visitBlockRun li fc (.block bn [origin2]) rs irr2 st2 with
                  | none => none
                  | some (o2, tail, st3) => some (o2, Expr.nop :: tail, st3)
              else none -- assert(holder->list.size() == 1)
        else
          match visitBlockScan li fc ((Expr.block bn (h0 :: hrest)) :: rs) st with
          | none => none
          | some (tail, st2) => some (origin, tail, st2)
      | _ =>
        match visitBlockScan li fc (e :: rs) st with
        | none => none
        | some (tail, st2) => some (origin, tail, st2)
termination_by (rest.length, 1)

/-- `visitBlock`'s outer `i` loop (lines 112-153) over a block's child list,
modelled functionally.  Each head element is the origin of one run; the run
consumes the maximal matching prefix after it; scanning resumes at the first
element that did not extend the run.  A final element alone starts no run
(the loop bound is `i < list.size() - 1`), and the empty list returns
immediately (line 115). -/
def visitBlockScan (li : Nat) (fc : Counts) (list : List Expr) (st : PassState) :
    Option (List Expr × PassState) :=
  match list with
  | [] => some ([], st)
  | x :: rest =>
    match visitBlockRun li fc x rest false st with
    | none => none
    | some (x2, tail, st2) => some (x2 :: tail, st2)
termination_by (list.length, 0)

end

mutual

/-- The pass's own walk (`WalkerPass<ExpressionStackWalker<...>>` with only
`visitBlock` overridden, lines 97 and 112): a post-order traversal in which
children are processed before their parent, and every `Block` node, after its
children have been processed, has `visitBlock` applied to its (already
processed) child list.  Nodes built by a rewrite are not re-visited (they are
installed in an already-visited slot). -/
def passWalk (li : Nat) (fc : Counts) : Expr → PassState → Option (Expr × PassState)
  | .block n list, st =>
    match passWalkL li fc list st with
    | none => none
    | some (list2, st2) =>
      match visitBlockScan li fc list2 st2 with
      | none => none
      | some (list3, st3) => some (.block n list3, st3)
  | .iff cond t none, st =>
    match passWalk li fc cond st with
    | none => none
    | some (cond2, st1) =>
      match passWalk li fc t st1 with
      | none => none
      | some (t2, st2) => some (.iff cond2 t2 none, st2)
  | .iff cond t (some f), st =>
    match passWalk li fc cond st with
    | none => none
    | some (cond2, st1) =>
      match passWalk li fc t st1 with
      | none => none
      | some (t2, st2) =>
        match passWalk li fc f st2 with
        | none => none
        | some (f2, st3) => some (.iff cond2 t2 (some f2), st3)
  | .binary op l r, st =>
    match passWalk li fc l st with
    | none => none
    | some (l2, st1) =>
      match passWalk li fc r st1 with
      | none => none
      | some (r2, st2) => some (.binary op l2 r2, st2)
  | .setLocal i v, st =>
    match passWalk li fc v st with
    | none => none
    | some (v2, st1) => some (.setLocal i v2, st1)
  | .getLocal i, st => some (.getLocal i, st)
  | .const n, st => some (.const n, st)
  | .brk b, st => some (.brk b, st)
  | .nop, st => some (.nop, st)
  | .other, st => some (.other, st)

/-- The walk over a block's child list, in order. -/
def passWalkL (li : Nat) (fc : Counts) : List Expr → PassState →
    Option (List Expr × PassState)
  | [], st => some ([], st)
  | e :: es, st =>
    match passWalk li fc e st with
    | none => none
    | some (e2, st1) =>
      match passWalkL li fc es st1 with
      | none => none
      | some (es2, st2) => some (e2 :: es2, st2)

end

/-- A function as this pass sees it: whether a local named `label` exists
(`func->localIndices.count(LABEL)`, line 158), that local's index
(`func->getLocalIndex(LABEL)`, line 159), and the body expression. -/
structure Func where
  hasLabel : Bool
  labelIndex : Nat
  body : Expr

/-- The mutable members of one `RelooperJumpThreading` pass instance
(lines 106-110): the two count maps, the label index, and the name counter
(plus the notice count for the diagnostic channel).  None of these are reset
between functions. -/
structure InstanceState where
  labelChecks : Nat → Nat
  labelSets : Nat → Nat
  labelIndex : Nat
  newNameCounter : Nat
  notices : Nat

/-- A freshly constructed pass instance: empty maps, `newNameCounter = 0`
(line 110; `std::map` default-constructs empty, `labelIndex` is
uninitialized and modelled as `0` — it is never read before being set). -/
def freshInstance : InstanceState :=
  { labelChecks := fun _ => 0
    labelSets := fun _ => 0
    labelIndex := 0
    newNameCounter := 0
    notices := 0 }

/-- `doWalkFunction` (lines 156-164): if the function has no `label` local,
do nothing; otherwise set the member `labelIndex`, run a `LabelUseFinder`
over the body accumulating into the member maps (which are *not* cleared
first), then run the pass walk.  Returns the rewritten body and the updated
instance state. -/
def doWalkFunction (inst : InstanceState) (func : Func) : Option (Expr × InstanceState) :=
  if func.hasLabel then
    let li := func.labelIndex
    match labelUseFinderWalk li func.body ⟨inst.labelChecks, inst.labelSets⟩ with
    | none => none
    | some fc =>
      match passWalk li fc func.body ⟨inst.newNameCounter, inst.notices⟩ with
      | none => none
      | some (body2, st) =>
        some (body2,
          { labelChecks := fc.checks
            labelSets := fc.sets
            labelIndex := li
            newNameCounter := st.counter
            notices := st.notices })
  else some (func.body, inst)

/-!
## Observation functions

These are measurement instruments used in the theorem statements; they are
not part of the pass.  They count, structurally, the nodes of the exact
shapes the specification talks about.
-/

/-- Top-level classification of an expression as a constant: `some n` for
`Const n`, `none` otherwise. -/
def valClass : Expr → Option Nat
  | .const n => some n
  | _ => none

/-- Top-level classification of an expression as a local read: `some i` for
`GetLocal i`, `none` otherwise. -/
def locClass : Expr → Option Nat
  | .getLocal i => some i
  | _ => none

/-- Top-level classification of a condition: for a binary node, its operator
together with the classifications of its operands. -/
def condClass : Expr → Option (BinOp × Option Nat × Option Nat)
  | .binary op l r => some (op, locClass l, valClass r)
  | _ => none

/-- Whether the expression is an `If` node. -/
def exprIsIf : Expr → Bool
  | .iff _ _ _ => true
  | _ => false

/-- The contribution of one `If` node with condition `cond` to the count of
checks of value `v`: `1` exactly when the condition is
`Binary(EqInt32, GetLocal li, Const v)`. -/
def checkOwn (li v : Nat) (cond : Expr) : Nat :=
  match condClass cond with
  | some (.eqInt32, some i, some n) => if i = li ∧ n = v then 1 else 0
  | _ => 0

/-- The contribution of one `SetLocal i` node with value `w` to the count of
assignments of constant `v` to local `li`. -/
def setOwn (li v i : Nat) (w : Expr) : Nat :=
  match valClass w with
  | some n => if i = li ∧ n = v then 1 else 0
  | _ => 0

mutual

/-- The number of conditional nodes in `e` whose condition is exactly
"label-variable equals constant `v`": `If` nodes with condition
`Binary(EqInt32, GetLocal li, Const v)`. -/
def checksCountIn (li v : Nat) : Expr → Nat
  | .block _ list => checksCountInL li v list
  | .iff cond t none => checkOwn li v cond + checksCountIn li v cond + checksCountIn li v t
  | .iff cond t (some f) =>
    checkOwn li v cond + checksCountIn li v cond + checksCountIn li v t +
      checksCountIn li v f
  | .binary _ l r => checksCountIn li v l + checksCountIn li v r
  | .setLocal _ w => checksCountIn li v w
  | .getLocal _ => 0
  | .const _ => 0
  | .brk _ => 0
  | .nop => 0
  | .other => 0

/-- List version of `checksCountIn`. -/
def checksCountInL (li v : Nat) : List Expr → Nat
  | [] => 0
  | e :: es => checksCountIn li v e + checksCountInL li v es

end

mutual

/-- The number of assignment nodes in `e` that assign constant `v` to the
label variable: `SetLocal li (Const v)` nodes. -/
def setsCountIn (li v : Nat) : Expr → Nat
  | .block _ list => setsCountInL li v list
  | .iff cond t none => setsCountIn li v cond + setsCountIn li v t
  | .iff cond t (some f) =>
    setsCountIn li v cond + setsCountIn li v t + setsCountIn li v f
  | .binary _ l r => setsCountIn li v l + setsCountIn li v r
  | .setLocal i w => setOwn li v i w + setsCountIn li v w
  | .getLocal _ => 0
  | .const _ => 0
  | .brk _ => 0
  | .nop => 0
  | .other => 0

/-- List version of `setsCountIn`. -/
def setsCountInL (li v : Nat) : List Expr → Nat
  | [] => 0
  | e :: es => setsCountIn li v e + setsCountInL li v es

end

mutual

/-- The number of named break nodes in `e` targeting `nm`. -/
def breakCount (nm : BName) : Expr → Nat
  | .block _ list => breakCountL nm list
  | .iff cond t none => breakCount nm cond + breakCount nm t
  | .iff cond t (some f) => breakCount nm cond + breakCount nm t + breakCount nm f
  | .binary _ l r => breakCount nm l + breakCount nm r
  | .setLocal _ w => breakCount nm w
  | .getLocal _ => 0
  | .const _ => 0
  | .brk b => if b = nm then 1 else 0
  | .nop => 0
  | .other => 0

/-- List version of `breakCount`. -/
def breakCountL (nm : BName) : List Expr → Nat
  | [] => 0
  | e :: es => breakCount nm e + breakCountL nm es

end

mutual

/-- The well-shapedness predicate for if-chains: every label-checking `If`
in the tree has a false branch that is either absent or itself a
label-checking `If`.  This is the shape the relooper emits for else-if
chains of label checks, and the shape under which the rewriter's recursion
down the false branches coincides with the analyzer's chain walk. -/
def goodShape (li : Nat) : Expr → Bool
  | .block _ list => goodShapeL li list
  | .iff cond t none => goodShape li cond && goodShape li t
  | .iff cond t (some f) =>
    (!(isLabelCheckingIf (.iff cond t (some f)) li) || isLabelCheckingIf f li) &&
      goodShape li cond && goodShape li t && goodShape li f
  | .binary _ l r => goodShape li l && goodShape li r
  | .setLocal _ w => goodShape li w
  | .getLocal _ => true
  | .const _ => true
  | .brk _ => true
  | .nop => true
  | .other => true

/-- List version of `goodShape`. -/
def goodShapeL (li : Nat) : List Expr → Bool
  | [] => true
  | e :: es => goodShape li e && goodShapeL li es

end

/-- The ordered label values checked along an else-if chain of label-checking
ifs, mirroring the chain walk of `hasIrreducibleControlFlow` (the chain
continues into the false branch exactly while it is a label-checking if). -/
def chainValues (li : Nat) : Expr → List Nat
  | .iff (.binary .eqInt32 (.getLocal i) (.const n)) _ none =>
    if i = li then [n] else []
  | .iff (.binary .eqInt32 (.getLocal i) (.const n)) _ (some f) =>
    if i = li then
      n :: (if isLabelCheckingIf f li then chainValues li f else [])
    else []
  | _ => []

mutual

/-- Every assignment to the label variable in the tree assigns a constant
(the precondition under which the constant-extraction of `getSetLabelValue`
and of the `JumpUpdater` cannot fail). -/
def setsWF (li : Nat) : Expr → Bool
  | .block _ list => setsWFL li list
  | .iff cond t none => setsWF li cond && setsWF li t
  | .iff cond t (some f) => setsWF li cond && setsWF li t && setsWF li f
  | .binary _ l r => setsWF li l && setsWF li r
  | .setLocal i w =>
    (if i = li then (match w with | .const _ => true | _ => false) else true) &&
      setsWF li w
  | .getLocal _ => true
  | .const _ => true
  | .brk _ => true
  | .nop => true
  | .other => true

/-- List version of `setsWF`. -/
def setsWFL (li : Nat) : List Expr → Bool
  | [] => true
  | e :: es => setsWF li e && setsWFL li es

end

mutual

/-- Every label-checking `If` in the tree compares against a constant (the
precondition under which `getCheckedLabelValue` cannot fail). -/
def checksWF (li : Nat) : Expr → Bool
  | .block _ list => checksWFL li list
  | .iff cond t none =>
    (!(isLabelCheckingIf (.iff cond t none) li) ||
      (match cond with | .binary _ _ (.const _) => true | _ => false)) &&
      checksWF li cond && checksWF li t
  | .iff cond t (some f) =>
    (!(isLabelCheckingIf (.iff cond t (some f)) li) ||
      (match cond with | .binary _ _ (.const _) => true | _ => false)) &&
      checksWF li cond && checksWF li t && checksWF li f
  | .binary _ l r => checksWF li l && checksWF li r
  | .setLocal _ w => checksWF li w
  | .getLocal _ => true
  | .const _ => true
  | .brk _ => true
  | .nop => true
  | .other => true

/-- List version of `checksWF`. -/
def checksWFL (li : Nat) : List Expr → Bool
  | [] => true
  | e :: es => checksWF li e && checksWFL li es

end

/-!
## Concrete input vocabulary

Shorthand constructors for the concrete programs used in witnesses and
counterexamples. -/

/-- The comparison `label == v` (with label local index `li`). -/
def labelEq (li v : Nat) : Expr := .binary .eqInt32 (.getLocal li) (.const v)

/-- A label-check conditional `if (label == v) { t } else { f }`. -/
def labelChk (li v : Nat) (t : Expr) (f : Option Expr) : Expr :=
  .iff (labelEq li v) t f

/-- The assignment `label = v`. -/
def labelSet (li v : Nat) : Expr := .setLocal li (.const v)

/-!
## Helper lemmas
-/

theorem bumpCheck_checks (c : Counts) (n v : Nat) :
    (bumpCheck c n).checks v = if v = n then c.checks v + 1 else c.checks v := rfl

theorem bumpCheck_sets (c : Counts) (n v : Nat) :
    (bumpCheck c n).sets v = c.sets v := rfl

theorem bumpSet_sets (c : Counts) (n v : Nat) :
    (bumpSet c n).sets v = if v = n then c.sets v + 1 else c.sets v := rfl

theorem bumpSet_checks (c : Counts) (n v : Nat) :
    (bumpSet c n).checks v = c.checks v := rfl

theorem isLabelCheckingIf_inv {e : Expr} {li : Nat}
    (h : isLabelCheckingIf e li = true) :
    ∃ r t f, e = .iff (.binary .eqInt32 (.getLocal li) r) t f := by
  unfold isLabelCheckingIf at h
  split at h
  · next i r t f =>
    rw [beq_iff_eq] at h
    subst h
    exact ⟨r, t, f, rfl⟩
  · exact absurd h (by simp)

theorem getCheckedLabelValue_inv {e : Expr} {n : Nat}
    (h : getCheckedLabelValue e = some n) :
    ∃ op l t f, e = .iff (.binary op l (.const n)) t f := by
  unfold getCheckedLabelValue at h
  split at h
  · next op l m t f =>
    obtain rfl : m = n := by simpa using h
    exact ⟨op, l, t, f, rfl⟩
  · exact absurd h (by simp)

/-- A label-checking if whose checked-value extraction succeeds has exactly
the fully constrained shape. -/
theorem labelCheck_shape {e : Expr} {li n : Nat}
    (h1 : isLabelCheckingIf e li = true) (h2 : getCheckedLabelValue e = some n) :
    ∃ t f, e = .iff (.binary .eqInt32 (.getLocal li) (.const n)) t f := by
  obtain ⟨r, t, f, rfl⟩ := isLabelCheckingIf_inv h1
  cases r <;> simp [getCheckedLabelValue] at h2
  subst h2
  exact ⟨t, f, rfl⟩

theorem checksCountInL_append (li v : Nat) (a b : List Expr) :
    checksCountInL li v (a ++ b) = checksCountInL li v a + checksCountInL li v b := by
  induction a with
  | nil => simp [checksCountInL]
  | cons e es ih => simp [checksCountInL, ih]; omega

theorem setsCountInL_append (li v : Nat) (a b : List Expr) :
    setsCountInL li v (a ++ b) = setsCountInL li v a + setsCountInL li v b := by
  induction a with
  | nil => simp [setsCountInL]
  | cons e es ih => simp [setsCountInL, ih]; omega

theorem goodShapeL_append (li : Nat) (a b : List Expr) :
    goodShapeL li (a ++ b) = (goodShapeL li a && goodShapeL li b) := by
  induction a with
  | nil => simp [goodShapeL]
  | cons e es ih => simp [goodShapeL, ih, Bool.and_assoc]

theorem checksCountIn_labelChk (li v n : Nat) (t : Expr) (f : Option Expr) :
    checksCountIn li v (.iff (.binary .eqInt32 (.getLocal li) (.const n)) t f) =
      (if v = n then 1 else 0) + checksCountIn li v t +
        (match f with | none => 0 | some g => checksCountIn li v g) := by
  cases f <;> by_cases hv : v = n <;>
    simp [checksCountIn, checkOwn, condClass, locClass, valClass, hv, eq_comm] <;>
      omega

/-- An `If` that is not label-checking contributes no own check count. -/
theorem checksCountIn_iff_noCheck {li : Nat} {cond t : Expr} {f : Option Expr}
    (v : Nat) (hc : isLabelCheckingIf (.iff cond t f) li = false) :
    checksCountIn li v (.iff cond t f) =
      checksCountIn li v cond + checksCountIn li v t +
        (match f with | none => 0 | some g => checksCountIn li v g) := by
  cases cond with
  | binary op l r =>
    cases op with
    | eqInt32 =>
      cases l with
      | getLocal i =>
        have hil : ¬ i = li := by
          intro hil
          subst hil
          simp [isLabelCheckingIf] at hc
        cases r <;> cases f <;>
          simp [checksCountIn, checkOwn, condClass, locClass, valClass, hil] <;> omega
      | _ => cases f <;>
          simp [checksCountIn, checkOwn, condClass, locClass, valClass] <;> omega
    | otherOp => cases f <;>
        simp [checksCountIn, checkOwn, condClass, locClass, valClass] <;> omega
  | _ => cases f <;> simp [checksCountIn, checkOwn, condClass] <;> omega

/-- Sets counted inside an `If` are exactly those of its children (an `If`
node itself is never an assignment). -/
theorem setsCountIn_iff (li v : Nat) (cond t : Expr) (f : Option Expr) :
    setsCountIn li v (.iff cond t f) =
      setsCountIn li v cond + setsCountIn li v t +
        (match f with | none => 0 | some g => setsCountIn li v g) := by
  cases f <;> simp [setsCountIn]

theorem setsCountIn_labelChk (li v n : Nat) (t : Expr) (f : Option Expr) :
    setsCountIn li v (.iff (.binary .eqInt32 (.getLocal li) (.const n)) t f) =
      setsCountIn li v t +
        (match f with | none => 0 | some g => setsCountIn li v g) := by
  cases f <;> simp [setsCountIn, setOwn, valClass]

mutual

/-- Characterization of the use counter: a successful finder walk adds, to
the accumulator it was started with, exactly the structural count of
label-check nodes (per checked constant) and of constant label-assignment
nodes (per assigned constant). -/
theorem finder_counts (li : Nat) : ∀ (e : Expr) (c d : Counts),
    labelUseFinderWalk li e c = some d →
    ∀ v, d.checks v = c.checks v + checksCountIn li v e ∧
      d.sets v = c.sets v + setsCountIn li v e
  | .block n list, c, d, h, v => by
    simp only [labelUseFinderWalk] at h
    have hl := finder_countsL li list c d h v
    simpa [checksCountIn, setsCountIn] using hl
  | .iff cond t none, c, d, h, v => by
    simp only [labelUseFinderWalk] at h
    cases h1 : labelUseFinderWalk li cond c with
    | none => simp [h1] at h
    | some c1 =>
      simp only [h1] at h
      cases h2 : labelUseFinderWalk li t c1 with
      | none => simp [h2] at h
      | some c2 =>
        simp only [h2] at h
        have hC := finder_counts li cond c c1 h1 v
        have hT := finder_counts li t c1 c2 h2 v
        by_cases hc : isLabelCheckingIf (.iff cond t none) li
        · rw [if_pos hc] at h
          cases h3 : getCheckedLabelValue (.iff cond t none) with
          | none => simp [h3] at h
          | some nn =>
            simp only [h3] at h
            obtain rfl : bumpCheck c2 nn = d := by simpa using h
            obtain ⟨t2, f2, heq⟩ := labelCheck_shape hc h3
            injection heq with e1 e2 e3
            subst e1; subst e2
            simp [checksCountIn, setsCountIn] at hC
            rw [bumpCheck_checks, bumpCheck_sets,
              checksCountIn_labelChk, setsCountIn_labelChk]
            constructor
            · by_cases hv : v = nn
              · subst hv
                simp <;> omega
              · simp [hv] <;> omega
            · simp <;> omega
        · rw [if_neg hc] at h
          obtain rfl : c2 = d := by simpa using h
          rw [checksCountIn_iff_noCheck v (Bool.eq_false_iff.mpr hc),
            setsCountIn_iff]
          simp <;> omega
  | .iff cond t (some f), c, d, h, v => by
    simp only [labelUseFinderWalk] at h
    cases h1 : labelUseFinderWalk li cond c with
    | none => simp [h1] at h
    | some c1 =>
      simp only [h1] at h
      cases h2 : labelUseFinderWalk li t c1 with
      | none => simp [h2] at h
      | some c2 =>
        simp only [h2] at h
        cases h2f : labelUseFinderWalk li f c2 with
        | none => simp [h2f] at h
        | some c3 =>
          simp only [h2f] at h
          have hC := finder_counts li cond c c1 h1 v
          have hT := finder_counts li t c1 c2 h2 v
          have hF := finder_counts li f c2 c3 h2f v
          by_cases hc : isLabelCheckingIf (.iff cond t (some f)) li
          · rw [if_pos hc] at h
            cases h3 : getCheckedLabelValue (.iff cond t (some f)) with
            | none => simp [h3] at h
            | some nn =>
              simp only [h3] at h
              obtain rfl : bumpCheck c3 nn = d := by simpa using h
              obtain ⟨t2, f2, heq⟩ := labelCheck_shape hc h3
              injection heq with e1 e2 e3
              subst e1; subst e2
              simp [checksCountIn, setsCountIn] at hC
              rw [bumpCheck_checks, bumpCheck_sets,
                checksCountIn_labelChk, setsCountIn_labelChk]
              constructor
              · by_cases hv : v = nn
                · subst hv
                  simp <;> omega
                · simp [hv] <;> omega
              · simp <;> omega
          · rw [if_neg hc] at h
            obtain rfl : c3 = d := by simpa using h
            rw [checksCountIn_iff_noCheck v (Bool.eq_false_iff.mpr hc),
              setsCountIn_iff]
            simp <;> omega
  | .binary op l r, c, d, h, v => by
    simp only [labelUseFinderWalk] at h
    cases h1 : labelUseFinderWalk li l c with
    | none => simp [h1] at h
    | some c1 =>
      simp only [h1] at h
      have hL := finder_counts li l c c1 h1 v
      have hR := finder_counts li r c1 d h v
      simp only [checksCountIn, setsCountIn]
      omega
  | .setLocal i w, c, d, h, v => by
    simp only [labelUseFinderWalk] at h
    cases h1 : labelUseFinderWalk li w c with
    | none => simp [h1] at h
    | some c1 =>
      simp only [h1] at h
      have hW := finder_counts li w c c1 h1 v
      by_cases hs : isLabelSettingSetLocal (.setLocal i w) li
      · rw [if_pos hs] at h
        cases h3 : getSetLabelValue (.setLocal i w) with
        | none => simp [h3] at h
        | some nn =>
          simp only [h3] at h
          obtain rfl : bumpSet c1 nn = d := by simpa using h
          have hil : i = li := by simpa [isLabelSettingSetLocal] using hs
          subst hil
          have hw : w = .const nn := by
            cases w <;> simp [getSetLabelValue] at h3
            rw [h3]
          subst hw
          rw [bumpSet_checks, bumpSet_sets]
          constructor
          · simp only [checksCountIn]
            simp [checksCountIn] at hW
            omega
          · simp only [setsCountIn, setOwn, valClass]
            simp [setsCountIn, setOwn, valClass] at hW
            by_cases hv : v = nn
            · subst hv
              simp <;> omega
            · simp [hv, eq_comm] <;> omega
      · rw [if_neg hs] at h
        obtain rfl : c1 = d := by simpa using h
        have hil : ¬ i = li := by
          intro hil
          subst hil
          simp [isLabelSettingSetLocal] at hs
        constructor
        · simpa [checksCountIn] using hW.1
        · simp only [setsCountIn, setOwn]
          cases w <;> simp [hil, valClass] <;> omega
  | .getLocal i, c, d, h, v => by
    simp only [labelUseFinderWalk] at h
    obtain rfl : c = d := by simpa using h
    simp [checksCountIn, setsCountIn]
  | .const n, c, d, h, v => by
    simp only [labelUseFinderWalk] at h
    obtain rfl : c = d := by simpa using h
    simp [checksCountIn, setsCountIn]
  | .brk b, c, d, h, v => by
    simp only [labelUseFinderWalk] at h
    obtain rfl : c = d := by simpa using h
    simp [checksCountIn, setsCountIn]
  | .nop, c, d, h, v => by
    simp only [labelUseFinderWalk] at h
    obtain rfl : c = d := by simpa using h
    simp [checksCountIn, setsCountIn]
  | .other, c, d, h, v => by
    simp only [labelUseFinderWalk] at h
    obtain rfl : c = d := by simpa using h
    simp [checksCountIn, setsCountIn]

/-- List version of `finder_counts`. -/
theorem finder_countsL (li : Nat) : ∀ (l : List Expr) (c d : Counts),
    labelUseFinderWalkL li l c = some d →
    ∀ v, d.checks v = c.checks v + checksCountInL li v l ∧
      d.sets v = c.sets v + setsCountInL li v l
  | [], c, d, h, v => by
    simp only [labelUseFinderWalkL] at h
    obtain rfl : c = d := by simpa using h
    simp [checksCountInL, setsCountInL]
  | e :: es, c, d, h, v => by
    simp only [labelUseFinderWalkL] at h
    cases h1 : labelUseFinderWalk li e c with
    | none => simp [h1] at h
    | some c1 =>
      simp only [h1] at h
      have hE := finder_counts li e c c1 h1 v
      have hL := finder_countsL li es c1 d h v
      simp only [checksCountInL, setsCountInL]
      omega

end

/-- A non-`If` node is never a label-checking if. -/
theorem isLabelCheckingIf_notIf {e : Expr} (h : exprIsIf e = false) (lj : Nat) :
    isLabelCheckingIf e lj = false := by
  cases e <;> simp_all [exprIsIf, isLabelCheckingIf]

/-- `isLabelCheckingIf` only depends on the top-level classification of the
condition. -/
theorem isLabelCheckingIf_via_condClass (lj : Nat) (cond t : Expr)
    (fq : Option Expr) :
    isLabelCheckingIf (.iff cond t fq) lj =
      (match condClass cond with
       | some (.eqInt32, some i, _) => i == lj
       | _ => false) := by
  cases cond with
  | binary op l r =>
    cases op <;> cases l <;>
      simp [isLabelCheckingIf, condClass, locClass]
  | _ => simp [isLabelCheckingIf, condClass]

/-- Destructuring a successful `JumpUpdater` step on an `If` node. -/
theorem ju_iff_inv {li tg : Nat} {nm : BName} {cond t : Expr} {fq : Option Expr}
    {e2 : Expr} (h : jumpUpdaterWalk li tg nm (.iff cond t fq) = some e2) :
    ∃ cond2 t2 fq2, e2 = .iff cond2 t2 fq2 ∧
      jumpUpdaterWalk li tg nm cond = some cond2 ∧
      jumpUpdaterWalk li tg nm t = some t2 ∧
      ((fq = none ∧ fq2 = none) ∨
        (∃ f f2, fq = some f ∧ fq2 = some f2 ∧
          jumpUpdaterWalk li tg nm f = some f2)) := by
  cases fq with
  | none =>
    simp only [jumpUpdaterWalk] at h
    cases h1 : jumpUpdaterWalk li tg nm cond with
    | none => simp [h1] at h
    | some cond2 =>
      simp only [h1] at h
      cases h2 : jumpUpdaterWalk li tg nm t with
      | none => simp [h2] at h
      | some t2 =>
        simp only [h2] at h
        exact ⟨cond2, t2, none, by simpa using h.symm, rfl, rfl, Or.inl ⟨rfl, rfl⟩⟩
  | some f =>
    simp only [jumpUpdaterWalk] at h
    cases h1 : jumpUpdaterWalk li tg nm cond with
    | none => simp [h1] at h
    | some cond2 =>
      simp only [h1] at h
      cases h2 : jumpUpdaterWalk li tg nm t with
      | none => simp [h2] at h
      | some t2 =>
        simp only [h2] at h
        cases h3 : jumpUpdaterWalk li tg nm f with
        | none => simp [h3] at h
        | some f2 =>
          simp only [h3] at h
          refine ⟨cond2, t2, some f2, by simpa using h.symm, rfl, rfl,
            Or.inr ⟨f, f2, rfl, rfl, h3⟩⟩

/-- The `JumpUpdater` preserves the top-level classifications that the
check/set shape tests depend on: constant-ness, local-read-ness, the
condition classification, and if-ness. -/
theorem ju_classes (li tg : Nat) (nm : BName) : ∀ (e e2 : Expr),
    jumpUpdaterWalk li tg nm e = some e2 →
    valClass e2 = valClass e ∧ locClass e2 = locClass e ∧
      condClass e2 = condClass e ∧ exprIsIf e2 = exprIsIf e
  | .block n list, e2, h => by
    simp only [jumpUpdaterWalk] at h
    cases h1 : jumpUpdaterWalkL li tg nm list with
    | none => simp [h1] at h
    | some l2 =>
      simp only [h1] at h
      obtain rfl : Expr.block n l2 = e2 := by simpa using h
      simp [valClass, locClass, condClass, exprIsIf]
  | .iff cond t fq, e2, h => by
    obtain ⟨cond2, t2, fq2, rfl, -, -, -⟩ := ju_iff_inv h
    simp [valClass, locClass, condClass, exprIsIf]
  | .binary op l r, e2, h => by
    simp only [jumpUpdaterWalk] at h
    cases h1 : jumpUpdaterWalk li tg nm l with
    | none => simp [h1] at h
    | some l2 =>
      simp only [h1] at h
      cases h2 : jumpUpdaterWalk li tg nm r with
      | none => simp [h2] at h
      | some r2 =>
        simp only [h2] at h
        obtain rfl : Expr.binary op l2 r2 = e2 := by simpa using h
        have hl := ju_classes li tg nm l l2 h1
        have hr := ju_classes li tg nm r r2 h2
        refine ⟨by simp [valClass], by simp [locClass], ?_, by simp [exprIsIf]⟩
        simp [condClass, hl.2.1, hr.1]
  | .setLocal i w, e2, h => by
    simp only [jumpUpdaterWalk] at h
    cases h1 : jumpUpdaterWalk li tg nm w with
    | none => simp [h1] at h
    | some w2 =>
      simp only [h1] at h
      by_cases hi : (i == li) = true
      · rw [if_pos hi] at h
        cases w2 with
        | const n =>
          by_cases hn : (n == tg) = true
          · obtain rfl : Expr.brk nm = e2 := by simpa [hn] using h
            simp [valClass, locClass, condClass, exprIsIf]
          · obtain rfl : Expr.setLocal i (.const n) = e2 := by simpa [hn] using h
            simp [valClass, locClass, condClass, exprIsIf]
        | block a b => simp_all
        | iff a b c => simp_all
        | binary a b c => simp_all
        | getLocal a => simp_all
        | setLocal a b => simp_all
        | brk a => simp_all
        | nop => simp_all
        | other => simp_all
      · rw [if_neg hi] at h
        obtain rfl : Expr.setLocal i w2 = e2 := by simpa using h
        simp [valClass, locClass, condClass, exprIsIf]
  | .getLocal i, e2, h => by
    simp only [jumpUpdaterWalk] at h
    obtain rfl : Expr.getLocal i = e2 := by simpa using h
    simp
  | .const n, e2, h => by
    simp only [jumpUpdaterWalk] at h
    obtain rfl : Expr.const n = e2 := by simpa using h
    simp
  | .brk b, e2, h => by
    simp only [jumpUpdaterWalk] at h
    obtain rfl : Expr.brk b = e2 := by simpa using h
    simp
  | .nop, e2, h => by
    simp only [jumpUpdaterWalk] at h
    obtain rfl : Expr.nop = e2 := by simpa using h
    simp
  | .other, e2, h => by
    simp only [jumpUpdaterWalk] at h
    obtain rfl : Expr.other = e2 := by simpa using h
    simp

/-- The `JumpUpdater` never changes whether an expression is a label-checking
if. -/
theorem ju_labelcheck (li tg : Nat) (nm : BName) {e e2 : Expr}
    (h : jumpUpdaterWalk li tg nm e = some e2) (lj : Nat) :
    isLabelCheckingIf e2 lj = isLabelCheckingIf e lj := by
  cases e with
  | iff cond t fq =>
    obtain ⟨cond2, t2, fq2, rfl, hc, -, -⟩ := ju_iff_inv h
    rw [isLabelCheckingIf_via_condClass, isLabelCheckingIf_via_condClass,
      (ju_classes li tg nm cond cond2 hc).2.2.1]
  | _ =>
    have h1 := (ju_classes li tg nm _ _ h).2.2.2
    rw [isLabelCheckingIf_notIf (e := e2) (by simp_all [exprIsIf]) lj,
      isLabelCheckingIf_notIf (by simp [exprIsIf]) lj]

/-- Only a `Const` node classifies as a constant. -/
theorem valClass_some_inv {w : Expr} {n : Nat} (h : valClass w = some n) :
    w = .const n := by
  cases w <;> simp_all [valClass]

mutual

/-- Counting effect of the `JumpUpdater`: check counts are untouched (for
every value), set counts of values other than the target are untouched, no
set of the target value survives, and every set of the target value has
become a break to the target name. -/
theorem ju_counts (li tg : Nat) (nm : BName) : ∀ (e e2 : Expr),
    jumpUpdaterWalk li tg nm e = some e2 → ∀ v,
    checksCountIn li v e2 = checksCountIn li v e ∧
    (v ≠ tg → setsCountIn li v e2 = setsCountIn li v e) ∧
    setsCountIn li tg e2 = 0 ∧
    breakCount nm e2 = breakCount nm e + setsCountIn li tg e
  | .block n list, e2, h, v => by
    simp only [jumpUpdaterWalk] at h
    cases h1 : jumpUpdaterWalkL li tg nm list with
    | none => simp [h1] at h
    | some l2 =>
      simp only [h1] at h
      obtain rfl : Expr.block n l2 = e2 := by simpa using h
      have hl := ju_countsL li tg nm list l2 h1 v
      simp only [checksCountIn, setsCountIn, breakCount]
      exact hl
  | .iff cond t fq, e2, h, v => by
    obtain ⟨cond2, t2, fq2, rfl, hc, ht, hor⟩ := ju_iff_inv h
    have hC := ju_counts li tg nm cond cond2 hc v
    have hT := ju_counts li tg nm t t2 ht v
    have hown : ∀ u, checkOwn li u cond2 = checkOwn li u cond := by
      intro u
      simp only [checkOwn, (ju_classes li tg nm cond cond2 hc).2.2.1]
    rcases hor with ⟨rfl, rfl⟩ | ⟨f, f2, rfl, rfl, hf⟩
    · simp only [checksCountIn, setsCountIn, breakCount, hown]
      refine ⟨by omega, fun hv => ?_, by omega, by omega⟩
      have := hC.2.1 hv
      have := hT.2.1 hv
      omega
    · have hF := ju_counts li tg nm f f2 hf v
      simp only [checksCountIn, setsCountIn, breakCount, hown]
      refine ⟨by omega, fun hv => ?_, by omega, by omega⟩
      have := hC.2.1 hv
      have := hT.2.1 hv
      have := hF.2.1 hv
      omega
  | .binary op l r, e2, h, v => by
    simp only [jumpUpdaterWalk] at h
    cases h1 : jumpUpdaterWalk li tg nm l with
    | none => simp [h1] at h
    | some l2 =>
      simp only [h1] at h
      cases h2 : jumpUpdaterWalk li tg nm r with
      | none => simp [h2] at h
      | some r2 =>
        simp only [h2] at h
        obtain rfl : Expr.binary op l2 r2 = e2 := by simpa using h
        have hL := ju_counts li tg nm l l2 h1 v
        have hR := ju_counts li tg nm r r2 h2 v
        simp only [checksCountIn, setsCountIn, breakCount]
        refine ⟨by omega, fun hv => ?_, by omega, by omega⟩
        have := hL.2.1 hv
        have := hR.2.1 hv
        omega
  | .setLocal i w, e2, h, v => by
    simp only [jumpUpdaterWalk] at h
    cases h1 : jumpUpdaterWalk li tg nm w with
    | none => simp [h1] at h
    | some w2 =>
      simp only [h1] at h
      have hW := ju_counts li tg nm w w2 h1 v
      have hWt := ju_counts li tg nm w w2 h1 tg
      by_cases hi : (i == li) = true
      · rw [if_pos hi] at h
        have hii : i = li := by simpa using hi
        cases w2 with
        | const n =>
          obtain rfl : w = Expr.const n :=
            valClass_some_inv ((ju_classes li tg nm w _ h1).1).symm
          by_cases hn : (n == tg) = true
          · obtain rfl : tg = n := Eq.symm (by simpa using hn)
            obtain rfl : Expr.brk nm = e2 := by simpa [hn] using h
            refine ⟨by simp [checksCountIn], fun hv => ?_, by simp [setsCountIn], ?_⟩
            · have hne : ¬ (i = li ∧ tg = v) := by
                rintro ⟨-, rfl⟩
                exact hv rfl
              simp [setsCountIn, setOwn, valClass, hne]
            · simp [breakCount, setsCountIn, setOwn, valClass, hii]
          · obtain rfl : Expr.setLocal i (.const n) = e2 := by simpa [hn] using h
            have hn2 : ¬ n = tg := by simpa using hn
            refine ⟨rfl, fun hv => rfl, ?_, ?_⟩
            · simp [setsCountIn, setOwn, valClass, hn2]
            · simp [breakCount, setsCountIn, setOwn, valClass, hn2]
        | block a b => simp_all
        | iff a b c => simp_all
        | binary a b c => simp_all
        | getLocal a => simp_all
        | setLocal a b => simp_all
        | brk a => simp_all
        | nop => simp_all
        | other => simp_all
      · rw [if_neg hi] at h
        obtain rfl : Expr.setLocal i w2 = e2 := by simpa using h
        have hi2 : ¬ i = li := by simpa using hi
        have hso : ∀ u x, setOwn li u i x = 0 := by
          intro u x
          simp only [setOwn]
          split <;> simp [hi2]
        simp only [checksCountIn, setsCountIn, breakCount, hso]
        refine ⟨by omega, fun hv => ?_, by omega, by omega⟩
        have := hW.2.1 hv
        omega
  | .getLocal i, e2, h, v => by
    simp only [jumpUpdaterWalk] at h
    obtain rfl : Expr.getLocal i = e2 := by simpa using h
    simp [checksCountIn, setsCountIn, breakCount]
  | .const n, e2, h, v => by
    simp only [jumpUpdaterWalk] at h
    obtain rfl : Expr.const n = e2 := by simpa using h
    simp [checksCountIn, setsCountIn, breakCount]
  | .brk b, e2, h, v => by
    simp only [jumpUpdaterWalk] at h
    obtain rfl : Expr.brk b = e2 := by simpa using h
    simp [checksCountIn, setsCountIn, breakCount]
  | .nop, e2, h, v => by
    simp only [jumpUpdaterWalk] at h
    obtain rfl : Expr.nop = e2 := by simpa using h
    simp [checksCountIn, setsCountIn, breakCount]
  | .other, e2, h, v => by
    simp only [jumpUpdaterWalk] at h
    obtain rfl : Expr.other = e2 := by simpa using h
    simp [checksCountIn, setsCountIn, breakCount]

/-- List version of `ju_counts`. -/
theorem ju_countsL (li tg : Nat) (nm : BName) : ∀ (l l2 : List Expr),
    jumpUpdaterWalkL li tg nm l = some l2 → ∀ v,
    checksCountInL li v l2 = checksCountInL li v l ∧
    (v ≠ tg → setsCountInL li v l2 = setsCountInL li v l) ∧
    setsCountInL li tg l2 = 0 ∧
    breakCountL nm l2 = breakCountL nm l + setsCountInL li tg l
  | [], l2, h, v => by
    simp only [jumpUpdaterWalkL] at h
    obtain rfl : [] = l2 := by simpa using h
    simp [checksCountInL, setsCountInL, breakCountL]
  | e :: es, l2, h, v => by
    simp only [jumpUpdaterWalkL] at h
    cases h1 : jumpUpdaterWalk li tg nm e with
    | none => simp [h1] at h
    | some e2 =>
      simp only [h1] at h
      cases h2 : jumpUpdaterWalkL li tg nm es with
      | none => simp [h2] at h
      | some es2 =>
        simp only [h2] at h
        obtain rfl : e2 :: es2 = l2 := by simpa using h
        have hE := ju_counts li tg nm e e2 h1 v
        have hL := ju_countsL li tg nm es es2 h2 v
        simp only [checksCountInL, setsCountInL, breakCountL]
        refine ⟨by omega, fun hv => ?_, by omega, by omega⟩
        have := hE.2.1 hv
        have := hL.2.1 hv
        omega

end

mutual

/-- The `JumpUpdater` preserves chain well-shapedness. -/
theorem ju_goodShape (li tg : Nat) (nm : BName) : ∀ (e e2 : Expr),
    jumpUpdaterWalk li tg nm e = some e2 → goodShape li e = true →
    goodShape li e2 = true
  | .block n list, e2, h, hg => by
    simp only [jumpUpdaterWalk] at h
    cases h1 : jumpUpdaterWalkL li tg nm list with
    | none => simp [h1] at h
    | some l2 =>
      simp only [h1] at h
      obtain rfl : Expr.block n l2 = e2 := by simpa using h
      simp only [goodShape] at hg ⊢
      exact ju_goodShapeL li tg nm list l2 h1 hg
  | .iff cond t fq, e2, h, hg => by
    obtain ⟨cond2, t2, fq2, rfl, hc, ht, hor⟩ := ju_iff_inv h
    rcases hor with ⟨rfl, rfl⟩ | ⟨f, f2, rfl, rfl, hf⟩
    · simp only [goodShape, Bool.and_eq_true] at hg ⊢
      exact ⟨ju_goodShape li tg nm cond cond2 hc hg.1,
        ju_goodShape li tg nm t t2 ht hg.2⟩
    · simp only [goodShape, Bool.and_eq_true] at hg ⊢
      refine ⟨⟨⟨?_, ju_goodShape li tg nm cond cond2 hc hg.1.1.2⟩,
        ju_goodShape li tg nm t t2 ht hg.1.2⟩,
        ju_goodShape li tg nm f f2 hf hg.2⟩
      have h1 := ju_labelcheck li tg nm h li
      have h2 := ju_labelcheck li tg nm hf li
      have := hg.1.1.1
      simp only [Bool.or_eq_true, Bool.not_eq_true] at this ⊢
      rw [h1, h2]
      exact this
  | .binary op l r, e2, h, hg => by
    simp only [jumpUpdaterWalk] at h
    cases h1 : jumpUpdaterWalk li tg nm l with
    | none => simp [h1] at h
    | some l2 =>
      simp only [h1] at h
      cases h2 : jumpUpdaterWalk li tg nm r with
      | none => simp [h2] at h
      | some r2 =>
        simp only [h2] at h
        obtain rfl : Expr.binary op l2 r2 = e2 := by simpa using h
        simp only [goodShape, Bool.and_eq_true] at hg ⊢
        exact ⟨ju_goodShape li tg nm l l2 h1 hg.1,
          ju_goodShape li tg nm r r2 h2 hg.2⟩
  | .setLocal i w, e2, h, hg => by
    simp only [jumpUpdaterWalk] at h
    cases h1 : jumpUpdaterWalk li tg nm w with
    | none => simp [h1] at h
    | some w2 =>
      simp only [h1] at h
      have hw2 := ju_goodShape li tg nm w w2 h1 (by simpa [goodShape] using hg)
      by_cases hi : (i == li) = true
      · rw [if_pos hi] at h
        cases w2 with
        | const n =>
          by_cases hn : (n == tg) = true
          · obtain rfl : Expr.brk nm = e2 := by simpa [hn] using h
            simp [goodShape]
          · obtain rfl : Expr.setLocal i (.const n) = e2 := by simpa [hn] using h
            simp [goodShape]
        | block a b => simp_all
        | iff a b c => simp_all
        | binary a b c => simp_all
        | getLocal a => simp_all
        | setLocal a b => simp_all
        | brk a => simp_all
        | nop => simp_all
        | other => simp_all
      · rw [if_neg hi] at h
        obtain rfl : Expr.setLocal i w2 = e2 := by simpa using h
        simpa [goodShape] using hw2
  | .getLocal i, e2, h, hg => by
    simp only [jumpUpdaterWalk] at h
    obtain rfl : Expr.getLocal i = e2 := by simpa using h
    simp [goodShape]
  | .const n, e2, h, hg => by
    simp only [jumpUpdaterWalk] at h
    obtain rfl : Expr.const n = e2 := by simpa using h
    simp [goodShape]
  | .brk b, e2, h, hg => by
    simp only [jumpUpdaterWalk] at h
    obtain rfl : Expr.brk b = e2 := by simpa using h
    simp [goodShape]
  | .nop, e2, h, hg => by
    simp only [jumpUpdaterWalk] at h
    obtain rfl : Expr.nop = e2 := by simpa using h
    simp [goodShape]
  | .other, e2, h, hg => by
    simp only [jumpUpdaterWalk] at h
    obtain rfl : Expr.other = e2 := by simpa using h
    simp [goodShape]

/-- List version of `ju_goodShape`. -/
theorem ju_goodShapeL (li tg : Nat) (nm : BName) : ∀ (l l2 : List Expr),
    jumpUpdaterWalkL li tg nm l = some l2 → goodShapeL li l = true →
    goodShapeL li l2 = true
  | [], l2, h, hg => by
    simp only [jumpUpdaterWalkL] at h
    obtain rfl : [] = l2 := by simpa using h
    simp [goodShapeL]
  | e :: es, l2, h, hg => by
    simp only [jumpUpdaterWalkL] at h
    cases h1 : jumpUpdaterWalk li tg nm e with
    | none => simp [h1] at h
    | some e2 =>
      simp only [h1] at h
      cases h2 : jumpUpdaterWalkL li tg nm es with
      | none => simp [h2] at h
      | some es2 =>
        simp only [h2] at h
        obtain rfl : e2 :: es2 = l2 := by simpa using h
        simp only [goodShapeL, Bool.and_eq_true] at hg ⊢
        exact ⟨ju_goodShape li tg nm e e2 h1 hg.1,
          ju_goodShapeL li tg nm es es2 h2 hg.2⟩

end

mutual

/-- Totality of the `JumpUpdater` under the precondition that every
assignment to the label variable assigns a constant. -/
theorem ju_total (li tg : Nat) (nm : BName) : ∀ (e : Expr),
    setsWF li e = true → ∃ e2, jumpUpdaterWalk li tg nm e = some e2
  | .block n list, hw => by
    simp only [setsWF] at hw
    obtain ⟨l2, hl⟩ := ju_totalL li tg nm list hw
    exact ⟨.block n l2, by simp [jumpUpdaterWalk, hl]⟩
  | .iff cond t none, hw => by
    simp only [setsWF, Bool.and_eq_true] at hw
    obtain ⟨c2, hc⟩ := ju_total li tg nm cond hw.1
    obtain ⟨t2, ht⟩ := ju_total li tg nm t hw.2
    exact ⟨.iff c2 t2 none, by simp [jumpUpdaterWalk, hc, ht]⟩
  | .iff cond t (some f), hw => by
    simp only [setsWF, Bool.and_eq_true] at hw
    obtain ⟨c2, hc⟩ := ju_total li tg nm cond hw.1.1
    obtain ⟨t2, ht⟩ := ju_total li tg nm t hw.1.2
    obtain ⟨f2, hf⟩ := ju_total li tg nm f hw.2
    exact ⟨.iff c2 t2 (some f2), by simp [jumpUpdaterWalk, hc, ht, hf]⟩
  | .binary op l r, hw => by
    simp only [setsWF, Bool.and_eq_true] at hw
    obtain ⟨l2, hl⟩ := ju_total li tg nm l hw.1
    obtain ⟨r2, hr⟩ := ju_total li tg nm r hw.2
    exact ⟨.binary op l2 r2, by simp [jumpUpdaterWalk, hl, hr]⟩
  | .setLocal i w, hw => by
    simp only [setsWF, Bool.and_eq_true] at hw
    obtain ⟨w2, hwalk⟩ := ju_total li tg nm w hw.2
    by_cases hi : (i == li) = true
    · have hii : i = li := by simpa using hi
      have hconst : ∃ n, w = Expr.const n := by
        rcases hw with ⟨hw1, -⟩
        rw [if_pos hii] at hw1
        cases w <;> simp_all
      obtain ⟨n, rfl⟩ := hconst
      by_cases hn : (n == tg) = true
      · exact ⟨.brk nm, by simp [jumpUpdaterWalk, hi, hn]⟩
      · exact ⟨.setLocal i (.const n), by simp [jumpUpdaterWalk, hi, hn]⟩
    · exact ⟨.setLocal i w2, by simp [jumpUpdaterWalk, hwalk, hi]⟩
  | .getLocal i, hw => ⟨.getLocal i, rfl⟩
  | .const n, hw => ⟨.const n, rfl⟩
  | .brk b, hw => ⟨.brk b, rfl⟩
  | .nop, hw => ⟨.nop, rfl⟩
  | .other, hw => ⟨.other, rfl⟩

/-- List version of `ju_total`. -/
theorem ju_totalL (li tg : Nat) (nm : BName) : ∀ (l : List Expr),
    setsWFL li l = true → ∃ l2, jumpUpdaterWalkL li tg nm l = some l2
  | [], hw => ⟨[], rfl⟩
  | e :: es, hw => by
    simp only [setsWFL, Bool.and_eq_true] at hw
    obtain ⟨e2, he⟩ := ju_total li tg nm e hw.1
    obtain ⟨es2, hes⟩ := ju_totalL li tg nm es hw.2
    exact ⟨e2 :: es2, by simp [jumpUpdaterWalkL, he, hes]⟩

end

mutual

/-- Whether the finder walk succeeds does not depend on the accumulator it
was started with (the crash sites inspect only the tree). -/
theorem finder_acc (li : Nat) : ∀ (e : Expr) (c d c2 : Counts),
    labelUseFinderWalk li e c = some d →
    ∃ d2, labelUseFinderWalk li e c2 = some d2
  | .block n list, c, d, c2, h => by
    simp only [labelUseFinderWalk] at h ⊢
    exact finder_accL li list c d c2 h
  | .iff cond t none, c, d, c2, h => by
    simp only [labelUseFinderWalk] at h
    cases h1 : labelUseFinderWalk li cond c with
    | none => simp [h1] at h
    | some c1 =>
      simp only [h1] at h
      cases h2 : labelUseFinderWalk li t c1 with
      | none => simp [h2] at h
      | some cv =>
        simp only [h2] at h
        obtain ⟨c1b, hc1b⟩ := finder_acc li cond c c1 c2 h1
        obtain ⟨cvb, hcvb⟩ := finder_acc li t c1 cv c1b h2
        by_cases hlc : isLabelCheckingIf (.iff cond t none) li
        · rw [if_pos hlc] at h
          cases h3 : getCheckedLabelValue (.iff cond t none) with
          | none => simp [h3] at h
          | some nn =>
            exact ⟨bumpCheck cvb nn,
              by simp [labelUseFinderWalk, hc1b, hcvb, hlc, h3]⟩
        · exact ⟨cvb, by simp [labelUseFinderWalk, hc1b, hcvb, hlc]⟩
  | .iff cond t (some f), c, d, c2, h => by
    simp only [labelUseFinderWalk] at h
    cases h1 : labelUseFinderWalk li cond c with
    | none => simp [h1] at h
    | some c1 =>
      simp only [h1] at h
      cases h2 : labelUseFinderWalk li t c1 with
      | none => simp [h2] at h
      | some cv =>
        simp only [h2] at h
        cases h2f : labelUseFinderWalk li f cv with
        | none => simp [h2f] at h
        | some cw =>
          simp only [h2f] at h
          obtain ⟨c1b, hc1b⟩ := finder_acc li cond c c1 c2 h1
          obtain ⟨cvb, hcvb⟩ := finder_acc li t c1 cv c1b h2
          obtain ⟨cwb, hcwb⟩ := finder_acc li f cv cw cvb h2f
          by_cases hlc : isLabelCheckingIf (.iff cond t (some f)) li
          · rw [if_pos hlc] at h
            cases h3 : getCheckedLabelValue (.iff cond t (some f)) with
            | none => simp [h3] at h
            | some nn =>
              exact ⟨bumpCheck cwb nn,
                by simp [labelUseFinderWalk, hc1b, hcvb, hcwb, hlc, h3]⟩
          · exact ⟨cwb, by simp [labelUseFinderWalk, hc1b, hcvb, hcwb, hlc]⟩
  | .binary op l r, c, d, c2, h => by
    simp only [labelUseFinderWalk] at h
    cases h1 : labelUseFinderWalk li l c with
    | none => simp [h1] at h
    | some c1 =>
      simp only [h1] at h
      obtain ⟨c1b, hc1b⟩ := finder_acc li l c c1 c2 h1
      obtain ⟨db, hdb⟩ := finder_acc li r c1 d c1b h
      exact ⟨db, by simp [labelUseFinderWalk, hc1b, hdb]⟩
  | .setLocal i w, c, d, c2, h => by
    simp only [labelUseFinderWalk] at h
    cases h1 : labelUseFinderWalk li w c with
    | none => simp [h1] at h
    | some c1 =>
      simp only [h1] at h
      obtain ⟨c1b, hc1b⟩ := finder_acc li w c c1 c2 h1
      by_cases hs : isLabelSettingSetLocal (.setLocal i w) li
      · rw [if_pos hs] at h
        cases h3 : getSetLabelValue (.setLocal i w) with
        | none => simp [h3] at h
        | some nn =>
          exact ⟨bumpSet c1b nn, by simp [labelUseFinderWalk, hc1b, hs, h3]⟩
      · exact ⟨c1b, by simp [labelUseFinderWalk, hc1b, hs]⟩
  | .getLocal i, c, d, c2, h => ⟨c2, rfl⟩
  | .const n, c, d, c2, h => ⟨c2, rfl⟩
  | .brk b, c, d, c2, h => ⟨c2, rfl⟩
  | .nop, c, d, c2, h => ⟨c2, rfl⟩
  | .other, c, d, c2, h => ⟨c2, rfl⟩

/-- List version of `finder_acc`. -/
theorem finder_accL (li : Nat) : ∀ (l : List Expr) (c d c2 : Counts),
    labelUseFinderWalkL li l c = some d →
    ∃ d2, labelUseFinderWalkL li l c2 = some d2
  | [], c, d, c2, h => ⟨c2, rfl⟩
  | e :: es, c, d, c2, h => by
    simp only [labelUseFinderWalkL] at h
    cases h1 : labelUseFinderWalk li e c with
    | none => simp [h1] at h
    | some c1 =>
      simp only [h1] at h
      obtain ⟨c1b, hc1b⟩ := finder_acc li e c c1 c2 h1
      obtain ⟨db, hdb⟩ := finder_accL li es c1 d c1b h
      exact ⟨db, by simp [labelUseFinderWalkL, hc1b, hdb]⟩

end

mutual

/-- Totality of the use counter under the preconditions that all label
checks compare against constants and all label assignments assign
constants. -/
theorem finder_total (li : Nat) : ∀ (e : Expr) (c : Counts),
    checksWF li e = true → setsWF li e = true →
    ∃ d, labelUseFinderWalk li e c = some d
  | .block n list, c, hc, hs => by
    simp only [checksWF] at hc
    simp only [setsWF] at hs
    simp only [labelUseFinderWalk]
    exact finder_totalL li list c hc hs
  | .iff cond t none, c, hc, hs => by
    simp only [checksWF, Bool.and_eq_true] at hc
    simp only [setsWF, Bool.and_eq_true] at hs
    obtain ⟨c1, h1⟩ := finder_total li cond c hc.1.2 hs.1
    obtain ⟨cv, h2⟩ := finder_total li t c1 hc.2 hs.2
    by_cases hlc : isLabelCheckingIf (.iff cond t none) li
    · obtain ⟨r, t0, f0, heq⟩ := isLabelCheckingIf_inv hlc
      injection heq with e1 e2 e3
      subst e1; subst e2
      have hor := hc.1.1
      rw [Bool.or_eq_true] at hor
      rcases hor with hor | hor
      · rw [hlc] at hor
        simp at hor
      · have hrc : ∃ m, r = Expr.const m := by
          cases r <;> simp_all
        obtain ⟨m, rfl⟩ := hrc
        obtain rfl : c1 = c := by simpa [labelUseFinderWalk] using h1.symm
        exact ⟨bumpCheck cv m,
          by simp [labelUseFinderWalk, h2, hlc, getCheckedLabelValue]⟩
    · exact ⟨cv, by simp [labelUseFinderWalk, h1, h2, hlc]⟩
  | .iff cond t (some f), c, hc, hs => by
    simp only [checksWF, Bool.and_eq_true] at hc
    simp only [setsWF, Bool.and_eq_true] at hs
    obtain ⟨c1, h1⟩ := finder_total li cond c hc.1.1.2 hs.1.1
    obtain ⟨cv, h2⟩ := finder_total li t c1 hc.1.2 hs.1.2
    obtain ⟨cw, h2f⟩ := finder_total li f cv hc.2 hs.2
    by_cases hlc : isLabelCheckingIf (.iff cond t (some f)) li
    · obtain ⟨r, t0, f0, heq⟩ := isLabelCheckingIf_inv hlc
      injection heq with e1 e2 e3
      subst e1; subst e2
      have hor := hc.1.1.1
      rw [Bool.or_eq_true] at hor
      rcases hor with hor | hor
      · rw [hlc] at hor
        simp at hor
      · have hrc : ∃ m, r = Expr.const m := by
          cases r <;> simp_all
        obtain ⟨m, rfl⟩ := hrc
        obtain rfl : c1 = c := by simpa [labelUseFinderWalk] using h1.symm
        exact ⟨bumpCheck cw m,
          by simp [labelUseFinderWalk, h2, h2f, hlc, getCheckedLabelValue]⟩
    · exact ⟨cw, by simp [labelUseFinderWalk, h1, h2, h2f, hlc]⟩
  | .binary op l r, c, hc, hs => by
    simp only [checksWF, Bool.and_eq_true] at hc
    simp only [setsWF, Bool.and_eq_true] at hs
    obtain ⟨c1, h1⟩ := finder_total li l c hc.1 hs.1
    obtain ⟨d, h2⟩ := finder_total li r c1 hc.2 hs.2
    exact ⟨d, by simp [labelUseFinderWalk, h1, h2]⟩
  | .setLocal i w, c, hc, hs => by
    simp only [checksWF] at hc
    simp only [setsWF, Bool.and_eq_true] at hs
    obtain ⟨c1, h1⟩ := finder_total li w c hc hs.2
    by_cases hset : isLabelSettingSetLocal (.setLocal i w) li
    · have hii : i = li := by simpa [isLabelSettingSetLocal] using hset
      have hwc : ∃ m, w = Expr.const m := by
        have := hs.1
        rw [if_pos hii] at this
        cases w <;> simp_all
      obtain ⟨m, rfl⟩ := hwc
      obtain rfl : c1 = c := by simpa [labelUseFinderWalk] using h1.symm
      exact ⟨bumpSet c1 m,
        by simp [labelUseFinderWalk, hset, getSetLabelValue]⟩
    · exact ⟨c1, by simp [labelUseFinderWalk, h1, hset]⟩
  | .getLocal i, c, hc, hs => ⟨c, rfl⟩
  | .const n, c, hc, hs => ⟨c, rfl⟩
  | .brk b, c, hc, hs => ⟨c, rfl⟩
  | .nop, c, hc, hs => ⟨c, rfl⟩
  | .other, c, hc, hs => ⟨c, rfl⟩

/-- List version of `finder_total`. -/
theorem finder_totalL (li : Nat) : ∀ (l : List Expr) (c : Counts),
    checksWFL li l = true → setsWFL li l = true →
    ∃ d, labelUseFinderWalkL li l c = some d
  | [], c, hc, hs => ⟨c, rfl⟩
  | e :: es, c, hc, hs => by
    simp only [checksWFL, Bool.and_eq_true] at hc
    simp only [setsWFL, Bool.and_eq_true] at hs
    obtain ⟨c1, h1⟩ := finder_total li e c hc.1 hs.1
    obtain ⟨d, h2⟩ := finder_totalL li es c1 hc.2 hs.2
    exact ⟨d, by simp [labelUseFinderWalkL, h1, h2]⟩

end

/-- A value appearing in a chain is checked at least once in the chain
expression. -/
theorem chainValues_mem_checks (li : Nat) : ∀ (e : Expr) (num : Nat),
    num ∈ chainValues li e → 1 ≤ checksCountIn li num e
  | .iff (.binary .eqInt32 (.getLocal i) (.const n)) t none, num, h => by
    by_cases hil : i = li
    · simp only [chainValues, if_pos hil] at h
      obtain rfl : num = n := by simpa using h
      have h1 : checkOwn li num (.binary .eqInt32 (.getLocal i) (.const num)) = 1 := by
        simp [checkOwn, condClass, locClass, valClass, hil]
      simp only [checksCountIn, h1]
      omega
    · simp [chainValues, hil] at h
  | .iff (.binary .eqInt32 (.getLocal i) (.const n)) t (some f), num, h => by
    by_cases hil : i = li
    · simp only [chainValues, if_pos hil] at h
      rcases List.mem_cons.mp h with rfl | h2
      · have h1 : checkOwn li num (.binary .eqInt32 (.getLocal i) (.const num)) = 1 := by
          simp [checkOwn, condClass, locClass, valClass, hil]
        simp only [checksCountIn, h1]
        omega
      · by_cases hbf : isLabelCheckingIf f li
        · rw [if_pos hbf] at h2
          have := chainValues_mem_checks li f num h2
          simp only [checksCountIn]
          omega
        · rw [if_neg hbf] at h2
          simp at h2
    · simp [chainValues, hil] at h
  | .block a b, num, h => by simp [chainValues] at h
  | .binary a b c, num, h => by simp [chainValues] at h
  | .getLocal a, num, h => by simp [chainValues] at h
  | .setLocal a b, num, h => by simp [chainValues] at h
  | .const a, num, h => by simp [chainValues] at h
  | .brk a, num, h => by simp [chainValues] at h
  | .nop, num, h => by simp [chainValues] at h
  | .other, num, h => by simp [chainValues] at h
  | .iff (.block a b) t fq, num, h => by simp [chainValues] at h
  | .iff (.iff a b c) t fq, num, h => by simp [chainValues] at h
  | .iff (.binary .otherOp a b) t fq, num, h => by simp [chainValues] at h
  | .iff (.binary .eqInt32 (.block a b) r) t fq, num, h => by simp [chainValues] at h
  | .iff (.binary .eqInt32 (.iff a b c) r) t fq, num, h => by simp [chainValues] at h
  | .iff (.binary .eqInt32 (.binary a b c) r) t fq, num, h => by simp [chainValues] at h
  | .iff (.binary .eqInt32 (.setLocal a b) r) t fq, num, h => by simp [chainValues] at h
  | .iff (.binary .eqInt32 (.const a) r) t fq, num, h => by simp [chainValues] at h
  | .iff (.binary .eqInt32 (.brk a) r) t fq, num, h => by simp [chainValues] at h
  | .iff (.binary .eqInt32 .nop r) t fq, num, h => by simp [chainValues] at h
  | .iff (.binary .eqInt32 .other r) t fq, num, h => by simp [chainValues] at h
  | .iff (.binary .eqInt32 (.getLocal i) (.block a b)) t fq, num, h => by
    simp [chainValues] at h
  | .iff (.binary .eqInt32 (.getLocal i) (.iff a b c)) t fq, num, h => by
    simp [chainValues] at h
  | .iff (.binary .eqInt32 (.getLocal i) (.binary a b c)) t fq, num, h => by
    simp [chainValues] at h
  | .iff (.binary .eqInt32 (.getLocal i) (.getLocal a)) t fq, num, h => by
    simp [chainValues] at h
  | .iff (.binary .eqInt32 (.getLocal i) (.setLocal a b)) t fq, num, h => by
    simp [chainValues] at h
  | .iff (.binary .eqInt32 (.getLocal i) (.brk a)) t fq, num, h => by
    simp [chainValues] at h
  | .iff (.binary .eqInt32 (.getLocal i) .nop) t fq, num, h => by
    simp [chainValues] at h
  | .iff (.binary .eqInt32 (.getLocal i) .other) t fq, num, h => by
    simp [chainValues] at h

/-- Possible outcomes of the analyzer's per-value step: either it reports
irreducible, or it lets the walk continue having established the invariants
(one check in the whole function, none in the origin, all sets in the
origin). -/
theorem hasIrrCheckValue_inv {fc cIn : Counts} {num : Nat}
    {r : Option Bool} (h : hasIrrCheckValue fc cIn num = some r) :
    r = some true ∨
      (r = none ∧ fc.checks num = 1 ∧ cIn.checks num = 0 ∧
        cIn.sets num = fc.sets num) := by
  unfold hasIrrCheckValue at h
  split at h
  · simp at h
  · split at h
    · left
      simpa using h.symm
    · split at h
      · simp at h
      · split at h
        · split at h
          · left
            simpa using h.symm
          · simp at h
        · right
          refine ⟨by simpa using h.symm, by omega, by omega, by omega⟩

/-- When the chain walk reports "not irreducible", every value checked along
the chain is checked exactly once function-wide, is not checked inside the
origin, and has all its function-wide sets inside the origin. -/
theorem hasIrrChain_false_vals (li : Nat) (fc cIn : Counts) : ∀ (e : Expr),
    isLabelCheckingIf e li = true → hasIrrChain li fc cIn e = some false →
    ∀ num ∈ chainValues li e,
      fc.checks num = 1 ∧ cIn.checks num = 0 ∧ cIn.sets num = fc.sets num
  | .iff cond t none, hlc, h, num, hmem => by
    cases h3 : getCheckedLabelValue (.iff cond t none) with
    | none => simp [hasIrrChain, h3] at h
    | some n0 =>
      obtain ⟨t2, f2, heq⟩ := labelCheck_shape hlc h3
      injection heq with e1 e2 e3
      subst e1; subst e2
      cases h4 : hasIrrCheckValue fc cIn n0 with
      | none => simp [hasIrrChain, h3, h4] at h
      | some r =>
        rcases hasIrrCheckValue_inv h4 with rfl | ⟨rfl, hr⟩
        · simp [hasIrrChain, h3, h4] at h
        · simp only [chainValues, if_pos rfl] at hmem
          obtain rfl : num = n0 := by simpa using hmem
          exact hr
  | .iff cond t (some f), hlc, h, num, hmem => by
    cases h3 : getCheckedLabelValue (.iff cond t (some f)) with
    | none => simp [hasIrrChain, h3] at h
    | some n0 =>
      obtain ⟨t2, f2, heq⟩ := labelCheck_shape hlc h3
      injection heq with e1 e2 e3
      subst e1; subst e2
      cases h4 : hasIrrCheckValue fc cIn n0 with
      | none => simp [hasIrrChain, h3, h4] at h
      | some r =>
        rcases hasIrrCheckValue_inv h4 with rfl | ⟨rfl, hr⟩
        · simp [hasIrrChain, h3, h4] at h
        · simp only [chainValues, if_pos rfl] at hmem
          rcases List.mem_cons.mp hmem with rfl | h5
          · exact hr
          · by_cases hbf : isLabelCheckingIf f li
            · rw [if_pos hbf] at h5
              simp only [hasIrrChain, h3, h4, hbf, if_pos] at h
              exact hasIrrChain_false_vals li fc cIn f hbf h num h5
            · rw [if_neg hbf] at h5
              simp at h5
  | .block a b, hlc, h, num, hmem => by simp [isLabelCheckingIf] at hlc
  | .binary a b c, hlc, h, num, hmem => by simp [isLabelCheckingIf] at hlc
  | .getLocal a, hlc, h, num, hmem => by simp [isLabelCheckingIf] at hlc
  | .setLocal a b, hlc, h, num, hmem => by simp [isLabelCheckingIf] at hlc
  | .const a, hlc, h, num, hmem => by simp [isLabelCheckingIf] at hlc
  | .brk a, hlc, h, num, hmem => by simp [isLabelCheckingIf] at hlc
  | .nop, hlc, h, num, hmem => by simp [isLabelCheckingIf] at hlc
  | .other, hlc, h, num, hmem => by simp [isLabelCheckingIf] at hlc

/-- The analyzer's chain walk never hits an assertion or cast failure when
its function-wide counts come from a tree in which the chain and the origin
are disjoint parts (the counts of both fit inside the function-wide counts).
-/
theorem hasIrrChain_total (li : Nat) (F cIn : Counts) : ∀ (e : Expr)
    (c0 d0 : Counts),
    isLabelCheckingIf e li = true →
    labelUseFinderWalk li e c0 = some d0 →
    (∀ v, cIn.checks v + checksCountIn li v e ≤ F.checks v) →
    (∀ v, cIn.sets v ≤ F.sets v) →
    ∃ b, hasIrrChain li F cIn e = some b
  | .iff cond t none, c0, d0, hlc, hfind, h3, h4 => by
    have hchk : ∃ n0, getCheckedLabelValue (.iff cond t none) = some n0 := by
      simp only [labelUseFinderWalk] at hfind
      cases g1 : labelUseFinderWalk li cond c0 with
      | none => simp [g1] at hfind
      | some c1 =>
        simp only [g1] at hfind
        cases g2 : labelUseFinderWalk li t c1 with
        | none => simp [g2] at hfind
        | some c2 =>
          simp only [g2, if_pos hlc] at hfind
          cases g3 : getCheckedLabelValue (.iff cond t none) with
          | none => simp [g3] at hfind
          | some n0 => exact ⟨n0, rfl⟩
    obtain ⟨n0, h3v⟩ := hchk
    obtain ⟨t2, f2, heq⟩ := labelCheck_shape hlc h3v
    injection heq with e1 e2 e3
    subst e1; subst e2
    have hown : checkOwn li n0 (.binary .eqInt32 (.getLocal li) (.const n0)) = 1 := by
      simp [checkOwn, condClass, locClass, valClass]
    have hF1 : 1 ≤ F.checks n0 := by
      have := h3 n0
      simp only [checksCountIn, hown] at this
      omega
    cases h4v : hasIrrCheckValue F cIn n0 with
    | some r =>
      rcases hasIrrCheckValue_inv h4v with rfl | ⟨rfl, -⟩
      · exact ⟨true, by simp [hasIrrChain, h3v, h4v]⟩
      · exact ⟨false, by simp [hasIrrChain, h3v, h4v]⟩
    | none =>
      exfalso
      unfold hasIrrCheckValue at h4v
      split at h4v
      · omega
      · split at h4v
        · simp at h4v
        · split at h4v
          · have hc0 : cIn.checks n0 = 0 := by
              have := h3 n0
              simp only [checksCountIn, hown] at this
              omega
            simp_all
          · split at h4v
            · split at h4v
              · simp at h4v
              · have := h4 n0
                omega
            · simp at h4v
  | .iff cond t (some f), c0, d0, hlc, hfind, h3, h4 => by
    have hchk : ∃ cf n0, getCheckedLabelValue (.iff cond t (some f)) = some n0 ∧
        ∃ df, labelUseFinderWalk li f cf = some df := by
      simp only [labelUseFinderWalk] at hfind
      cases g1 : labelUseFinderWalk li cond c0 with
      | none => simp [g1] at hfind
      | some c1 =>
        simp only [g1] at hfind
        cases g2 : labelUseFinderWalk li t c1 with
        | none => simp [g2] at hfind
        | some c2 =>
          simp only [g2] at hfind
          cases g2f : labelUseFinderWalk li f c2 with
          | none => simp [g2f] at hfind
          | some c3 =>
            simp only [g2f, if_pos hlc] at hfind
            cases g3 : getCheckedLabelValue (.iff cond t (some f)) with
            | none => simp [g3] at hfind
            | some n0 => exact ⟨c2, n0, rfl, c3, g2f⟩
    obtain ⟨cf, n0, h3v, df, hff⟩ := hchk
    obtain ⟨t2, f2, heq⟩ := labelCheck_shape hlc h3v
    injection heq with e1 e2 e3
    subst e1; subst e2
    have hown : checkOwn li n0 (.binary .eqInt32 (.getLocal li) (.const n0)) = 1 := by
      simp [checkOwn, condClass, locClass, valClass]
    have hF1 : 1 ≤ F.checks n0 := by
      have := h3 n0
      simp only [checksCountIn, hown] at this
      omega
    cases h4v : hasIrrCheckValue F cIn n0 with
    | some r =>
      rcases hasIrrCheckValue_inv h4v with rfl | ⟨rfl, -⟩
      · exact ⟨true, by simp [hasIrrChain, h3v, h4v]⟩
      · by_cases hbf : isLabelCheckingIf f li
        · have h3f : ∀ v, cIn.checks v + checksCountIn li v f ≤ F.checks v := by
            intro v
            have := h3 v
            simp only [checksCountIn] at this
            omega
          obtain ⟨b, hb⟩ := hasIrrChain_total li F cIn f cf df hbf hff h3f h4
          exact ⟨b, by simp [hasIrrChain, h3v, h4v, hbf, hb]⟩
        · exact ⟨false, by simp [hasIrrChain, h3v, h4v, hbf]⟩
    | none =>
      exfalso
      unfold hasIrrCheckValue at h4v
      split at h4v
      · omega
      · split at h4v
        · simp at h4v
        · split at h4v
          · have hc0 : cIn.checks n0 = 0 := by
              have := h3 n0
              simp only [checksCountIn, hown] at this
              omega
            simp_all
          · split at h4v
            · split at h4v
              · simp at h4v
              · have := h4 n0
                omega
            · simp at h4v
  | .block a b, c0, d0, hlc, hfind, h3, h4 => by simp [isLabelCheckingIf] at hlc
  | .binary a b c, c0, d0, hlc, hfind, h3, h4 => by
    simp [isLabelCheckingIf] at hlc
  | .getLocal a, c0, d0, hlc, hfind, h3, h4 => by simp [isLabelCheckingIf] at hlc
  | .setLocal a b, c0, d0, hlc, hfind, h3, h4 => by
    simp [isLabelCheckingIf] at hlc
  | .const a, c0, d0, hlc, hfind, h3, h4 => by simp [isLabelCheckingIf] at hlc
  | .brk a, c0, d0, hlc, hfind, h3, h4 => by simp [isLabelCheckingIf] at hlc
  | .nop, c0, d0, hlc, hfind, h3, h4 => by simp [isLabelCheckingIf] at hlc
  | .other, c0, d0, hlc, hfind, h3, h4 => by simp [isLabelCheckingIf] at hlc


/-- Splitting the well-shapedness of a label-checking if with a false
branch: the false branch is itself label-checking, and all parts are
well-shaped. -/
theorem goodShape_labelChk_some {li : Nat} {cond tb f : Expr}
    (hlc : isLabelCheckingIf (.iff cond tb (some f)) li = true)
    (hg : goodShape li (.iff cond tb (some f)) = true) :
    isLabelCheckingIf f li = true ∧ goodShape li cond = true ∧
      goodShape li tb = true ∧ goodShape li f = true := by
  simp only [goodShape, Bool.and_eq_true, Bool.or_eq_true, Bool.not_eq_true] at hg
  obtain ⟨⟨⟨hor, hc⟩, ht⟩, hf⟩ := hg
  rcases hor with hor | hor
  · rw [hlc] at hor
    simp at hor
  · exact ⟨hor, hc, ht, hf⟩

/-- Splitting the well-shapedness of an if with no false branch. -/
theorem goodShape_iff_none {li : Nat} {cond tb : Expr}
    (hg : goodShape li (.iff cond tb none) = true) :
    goodShape li cond = true ∧ goodShape li tb = true := by
  simp only [goodShape, Bool.and_eq_true] at hg
  exact hg

/-- The rewriter strictly advances the name counter and never decreases the
notice count. -/
theorem opt_state (li : Nat) : ∀ (iffE origin : Expr) (st : PassState)
    (o2 : Expr) (st2 : PassState),
    optimizeJumpsToLabelCheck li origin iffE st = some (o2, st2) →
    st.counter < st2.counter ∧ st.notices ≤ st2.notices
  | .iff cond tb fq, origin, st, o2, st2, h => by
    rw [optimizeJumpsToLabelCheck] at h
    by_cases hcap : st.counter ≥ MAX_NAME_INDEX
    · rw [if_pos hcap] at h
      have h2 : ({ counter := st.counter + 1, notices := st.notices + 1 } :
          PassState) = st2 := by
        simp only [Option.some.injEq, Prod.mk.injEq] at h
        exact h.2
      subst h2
      simp
    · rw [if_neg hcap] at h
      cases h3 : getCheckedLabelValue (.iff cond tb fq) with
      | none => simp [h3] at h
      | some num =>
        simp only [h3] at h
        cases hju : jumpUpdaterWalk li num (innerNames st.counter) origin with
        | none => simp [hju] at h
        | some origin2 =>
          simp only [hju] at h
          cases fq with
          | none =>
            have h2 : ({ st with counter := st.counter + 1 } :
                PassState) = st2 := by
              simp only [Option.some.injEq, Prod.mk.injEq] at h
              exact h.2
            subst h2
            simp
          | some f =>
            have := opt_state li f _ _ _ _ h
            simp only at this
            omega
  | .block a b, origin, st, o2, st2, h => by
    rw [optimizeJumpsToLabelCheck] at h
    by_cases hcap : st.counter ≥ MAX_NAME_INDEX
    · rw [if_pos hcap] at h
      have h2 : ({ counter := st.counter + 1, notices := st.notices + 1 } :
          PassState) = st2 := by
        simp only [Option.some.injEq, Prod.mk.injEq] at h
        exact h.2
      subst h2
      simp
    · rw [if_neg hcap] at h
      simp [getCheckedLabelValue] at h
  | .binary a b c, origin, st, o2, st2, h => by
    rw [optimizeJumpsToLabelCheck] at h
    by_cases hcap : st.counter ≥ MAX_NAME_INDEX
    · rw [if_pos hcap] at h
      have h2 : ({ counter := st.counter + 1, notices := st.notices + 1 } :
          PassState) = st2 := by
        simp only [Option.some.injEq, Prod.mk.injEq] at h
        exact h.2
      subst h2
      simp
    · rw [if_neg hcap] at h
      simp [getCheckedLabelValue] at h
  | .getLocal a, origin, st, o2, st2, h => by
    rw [optimizeJumpsToLabelCheck] at h
    by_cases hcap : st.counter ≥ MAX_NAME_INDEX
    · rw [if_pos hcap] at h
      have h2 : ({ counter := st.counter + 1, notices := st.notices + 1 } :
          PassState) = st2 := by
        simp only [Option.some.injEq, Prod.mk.injEq] at h
        exact h.2
      subst h2
      simp
    · rw [if_neg hcap] at h
      simp [getCheckedLabelValue] at h
  | .setLocal a b, origin, st, o2, st2, h => by
    rw [optimizeJumpsToLabelCheck] at h
    by_cases hcap : st.counter ≥ MAX_NAME_INDEX
    · rw [if_pos hcap] at h
      have h2 : ({ counter := st.counter + 1, notices := st.notices + 1 } :
          PassState) = st2 := by
        simp only [Option.some.injEq, Prod.mk.injEq] at h
        exact h.2
      subst h2
      simp
    · rw [if_neg hcap] at h
      simp [getCheckedLabelValue] at h
  | .const a, origin, st, o2, st2, h => by
    rw [optimizeJumpsToLabelCheck] at h
    by_cases hcap : st.counter ≥ MAX_NAME_INDEX
    · rw [if_pos hcap] at h
      have h2 : ({ counter := st.counter + 1, notices := st.notices + 1 } :
          PassState) = st2 := by
        simp only [Option.some.injEq, Prod.mk.injEq] at h
        exact h.2
      subst h2
      simp
    · rw [if_neg hcap] at h
      simp [getCheckedLabelValue] at h
  | .brk a, origin, st, o2, st2, h => by
    rw [optimizeJumpsToLabelCheck] at h
    by_cases hcap : st.counter ≥ MAX_NAME_INDEX
    · rw [if_pos hcap] at h
      have h2 : ({ counter := st.counter + 1, notices := st.notices + 1 } :
          PassState) = st2 := by
        simp only [Option.some.injEq, Prod.mk.injEq] at h
        exact h.2
      subst h2
      simp
    · rw [if_neg hcap] at h
      simp [getCheckedLabelValue] at h
  | .nop, origin, st, o2, st2, h => by
    rw [optimizeJumpsToLabelCheck] at h
    by_cases hcap : st.counter ≥ MAX_NAME_INDEX
    · rw [if_pos hcap] at h
      have h2 : ({ counter := st.counter + 1, notices := st.notices + 1 } :
          PassState) = st2 := by
        simp only [Option.some.injEq, Prod.mk.injEq] at h
        exact h.2
      subst h2
      simp
    · rw [if_neg hcap] at h
      simp [getCheckedLabelValue] at h
  | .other, origin, st, o2, st2, h => by
    rw [optimizeJumpsToLabelCheck] at h
    by_cases hcap : st.counter ≥ MAX_NAME_INDEX
    · rw [if_pos hcap] at h
      have h2 : ({ counter := st.counter + 1, notices := st.notices + 1 } :
          PassState) = st2 := by
        simp only [Option.some.injEq, Prod.mk.injEq] at h
        exact h.2
      subst h2
      simp
    · rw [if_neg hcap] at h
      simp [getCheckedLabelValue] at h

/-- Count preservation through the rewriter, for any label value that is not
one of the chain's own checked values: the rewritten origin region holds
exactly the checks and sets of the old origin plus those of the consumed
chain (whose spliced bodies are preserved), and remains well-shaped. -/
theorem opt_counts (li V : Nat) : ∀ (iffE origin : Expr) (st : PassState)
    (o2 : Expr) (st2 : PassState),
    isLabelCheckingIf iffE li = true →
    goodShape li iffE = true → goodShape li origin = true →
    V ∉ chainValues li iffE →
    optimizeJumpsToLabelCheck li origin iffE st = some (o2, st2) →
    st2.notices = st.notices →
    checksCountIn li V o2 = checksCountIn li V origin + checksCountIn li V iffE ∧
    setsCountIn li V o2 = setsCountIn li V origin + setsCountIn li V iffE ∧
    goodShape li o2 = true
  | .iff cond tb fq, origin, st, o2, st2, hlc, hgi, hgo, hnv, h, hnot => by
    rw [optimizeJumpsToLabelCheck] at h
    by_cases hcap : st.counter ≥ MAX_NAME_INDEX
    · exfalso
      rw [if_pos hcap] at h
      have h2 : ({ counter := st.counter + 1, notices := st.notices + 1 } :
          PassState) = st2 := by
        simp only [Option.some.injEq, Prod.mk.injEq] at h
        exact h.2
      subst h2
      simp at hnot
    · rw [if_neg hcap] at h
      cases h3 : getCheckedLabelValue (.iff cond tb fq) with
      | none => simp [h3] at h
      | some num =>
        simp only [h3] at h
        obtain ⟨t2, f2, heq⟩ := labelCheck_shape hlc h3
        injection heq with e1 e2 e3
        subst e1; subst e2
        cases hju : jumpUpdaterWalk li num (innerNames st.counter) origin with
        | none => simp [hju] at h
        | some origin2 =>
          simp only [hju] at h
          have hjc := ju_counts li num (innerNames st.counter) origin origin2 hju V
          have hjg := ju_goodShape li num (innerNames st.counter) origin origin2
            hju hgo
          have hcond0 : checkOwn li V
              (.binary .eqInt32 (.getLocal li) (.const num)) = 0 := by
            have hVnum : ¬ V = num := by
              intro hv
              subst hv
              apply hnv
              cases fq <;> simp [chainValues]
            simp [checkOwn, condClass, locClass, valClass]
            intro h5
            exact absurd h5.symm hVnum
          have hVne : V ≠ num := by
            intro hv
            subst hv
            apply hnv
            cases fq <;> simp [chainValues]
          have hsetsV := hjc.2.1 hVne
          cases fq with
          | none =>
            obtain ⟨rfl, -⟩ : _ = o2 ∧ _ = st2 := by
              simpa using h
            have hgt := goodShape_iff_none hgi
            refine ⟨?_, ?_, ?_⟩
            · simp only [checksCountIn, checksCountInL, hcond0]
              have := hjc.1
              omega
            · simp only [setsCountIn, setsCountInL, setOwn, valClass]
              omega
            · simp [goodShape, goodShapeL, hjg, hgt.2]
          | some f =>
            obtain ⟨hbf, hgc, hgt, hgf⟩ := goodShape_labelChk_some hlc hgi
            have hnvf : V ∉ chainValues li f := by
              intro hmm
              apply hnv
              simp [chainValues, hbf]
              right
              exact hmm
            have houter : goodShape li (Expr.block (some (outerNames st.counter))
                [Expr.block (some (innerNames st.counter))
                  [origin2, .brk (outerNames st.counter)], tb]) = true := by
              simp [goodShape, goodShapeL, hjg, hgt]
            have hst1 : st2.notices = st.notices := hnot
            have := opt_counts li V f
              (Expr.block (some (outerNames st.counter))
                [Expr.block (some (innerNames st.counter))
                  [origin2, .brk (outerNames st.counter)], tb])
              { st with counter := st.counter + 1 } o2 st2 hbf hgf houter hnvf h
              (by simpa using hst1)
            obtain ⟨hc2, hs2, hg2⟩ := this
            refine ⟨?_, ?_, hg2⟩
            · rw [hc2]
              simp only [checksCountIn, checksCountInL, hcond0]
              have := hjc.1
              omega
            · rw [hs2]
              simp only [setsCountIn, setsCountInL, setOwn, valClass]
              omega
  | .block a b, origin, st, o2, st2, hlc, hgi, hgo, hnv, h, hnot => by
    simp [isLabelCheckingIf] at hlc
  | .binary a b c, origin, st, o2, st2, hlc, hgi, hgo, hnv, h, hnot => by
    simp [isLabelCheckingIf] at hlc
  | .getLocal a, origin, st, o2, st2, hlc, hgi, hgo, hnv, h, hnot => by
    simp [isLabelCheckingIf] at hlc
  | .setLocal a b, origin, st, o2, st2, hlc, hgi, hgo, hnv, h, hnot => by
    simp [isLabelCheckingIf] at hlc
  | .const a, origin, st, o2, st2, hlc, hgi, hgo, hnv, h, hnot => by
    simp [isLabelCheckingIf] at hlc
  | .brk a, origin, st, o2, st2, hlc, hgi, hgo, hnv, h, hnot => by
    simp [isLabelCheckingIf] at hlc
  | .nop, origin, st, o2, st2, hlc, hgi, hgo, hnv, h, hnot => by
    simp [isLabelCheckingIf] at hlc
  | .other, origin, st, o2, st2, hlc, hgi, hgo, hnv, h, hnot => by
    simp [isLabelCheckingIf] at hlc

/-- Region cleanness: when an eligible chain containing value `V` is
rewritten (the origin holds no check of `V`, the chain holds exactly its own
single check of `V` and no set of `V`), the rewritten region contains no
check of `V` and no set of `V` at all. -/
theorem opt_clean (li V : Nat) : ∀ (iffE origin : Expr) (st : PassState)
    (o2 : Expr) (st2 : PassState),
    isLabelCheckingIf iffE li = true →
    goodShape li iffE = true → goodShape li origin = true →
    V ∈ chainValues li iffE →
    checksCountIn li V origin = 0 →
    checksCountIn li V iffE = 1 →
    setsCountIn li V iffE = 0 →
    optimizeJumpsToLabelCheck li origin iffE st = some (o2, st2) →
    st2.notices = st.notices →
    checksCountIn li V o2 = 0 ∧ setsCountIn li V o2 = 0
  | .iff cond tb fq, origin, st, o2, st2, hlc, hgi, hgo, hmem, hco, hc1, hs0,
      h, hnot => by
    rw [optimizeJumpsToLabelCheck] at h
    by_cases hcap : st.counter ≥ MAX_NAME_INDEX
    · exfalso
      rw [if_pos hcap] at h
      have h2 : ({ counter := st.counter + 1, notices := st.notices + 1 } :
          PassState) = st2 := by
        simp only [Option.some.injEq, Prod.mk.injEq] at h
        exact h.2
      subst h2
      simp at hnot
    · rw [if_neg hcap] at h
      cases h3 : getCheckedLabelValue (.iff cond tb fq) with
      | none => simp [h3] at h
      | some num =>
        simp only [h3] at h
        obtain ⟨t2, f2, heq⟩ := labelCheck_shape hlc h3
        injection heq with e1 e2 e3
        subst e1; subst e2
        cases hju : jumpUpdaterWalk li num (innerNames st.counter) origin with
        | none => simp [hju] at h
        | some origin2 =>
          simp only [hju] at h
          have hjc := ju_counts li num (innerNames st.counter) origin origin2 hju V
          have hjg := ju_goodShape li num (innerNames st.counter) origin origin2
            hju hgo
          have hcond0 : checksCountIn li V
              (.binary .eqInt32 (.getLocal li) (.const num)) = 0 := by
            simp [checksCountIn]
          have hconds0 : setsCountIn li V
              (.binary .eqInt32 (.getLocal li) (.const num)) = 0 := by
            simp [setsCountIn]
          by_cases hnum : num = V
          · subst hnum
            have hown1 : checkOwn li num
                (.binary .eqInt32 (.getLocal li) (.const num)) = 1 := by
              simp [checkOwn, condClass, locClass, valClass]
            have hcheck2 : checksCountIn li num origin2 = 0 := by
              rw [hjc.1]
              exact hco
            have hsets2 : setsCountIn li num origin2 = 0 := hjc.2.2.1
            cases fq with
            | none =>
              obtain ⟨rfl, -⟩ : _ = o2 ∧ _ = st2 := by
                simpa using h
              simp only [checksCountIn, checksCountInL, hcond0] at hc1 ⊢
              simp only [setsCountIn, setsCountInL, hconds0] at hs0 ⊢
              simp only [hown1] at hc1
              constructor
              · omega
              · omega
            | some f =>
              obtain ⟨hbf, hgc, hgt, hgf⟩ := goodShape_labelChk_some hlc hgi
              simp only [checksCountIn, hcond0, hown1] at hc1
              simp only [setsCountIn, hconds0] at hs0
              have hfc0 : checksCountIn li num f = 0 := by omega
              have hnvf : num ∉ chainValues li f := by
                intro hmm
                have := chainValues_mem_checks li f num hmm
                omega
              have houter : goodShape li (Expr.block (some (outerNames st.counter))
                  [Expr.block (some (innerNames st.counter))
                    [origin2, .brk (outerNames st.counter)], tb]) = true := by
                simp [goodShape, goodShapeL, hjg, hgt]
              have hrec := opt_counts li num f
                (Expr.block (some (outerNames st.counter))
                  [Expr.block (some (innerNames st.counter))
                    [origin2, .brk (outerNames st.counter)], tb])
                { st with counter := st.counter + 1 } o2 st2 hbf hgf houter hnvf h
                (by simpa using hnot)
              obtain ⟨hc2, hs2, -⟩ := hrec
              rw [hc2, hs2]
              simp only [checksCountIn, checksCountInL, setsCountIn, setsCountInL]
              constructor
              · omega
              · omega
          · have hVne : V ≠ num := fun hv => hnum hv.symm
            have hown0 : checkOwn li V
                (.binary .eqInt32 (.getLocal li) (.const num)) = 0 := by
              simp [checkOwn, condClass, locClass, valClass]
              intro h5
              exact absurd h5.symm hVne
            cases fq with
            | none =>
              exfalso
              simp only [chainValues, if_pos rfl] at hmem
              have : V = num := by simpa using hmem
              exact hVne this
            | some f =>
              obtain ⟨hbf, hgc, hgt, hgf⟩ := goodShape_labelChk_some hlc hgi
              have hmemf : V ∈ chainValues li f := by
                simp only [chainValues, if_pos rfl, if_pos hbf] at hmem
                rcases List.mem_cons.mp hmem with hvv | hmm
                · exact absurd hvv hVne
                · exact hmm
              simp only [checksCountIn, hcond0, hown0] at hc1
              simp only [setsCountIn, hconds0] at hs0
              have hf1 : 1 ≤ checksCountIn li V f := chainValues_mem_checks li f V hmemf
              have hcheck2 : checksCountIn li V origin2 = 0 := by
                rw [hjc.1]
                exact hco
              have hsets2 : setsCountIn li V origin2 = setsCountIn li V origin :=
                hjc.2.1 hVne
              have houter : goodShape li (Expr.block (some (outerNames st.counter))
                  [Expr.block (some (innerNames st.counter))
                    [origin2, .brk (outerNames st.counter)], tb]) = true := by
                simp [goodShape, goodShapeL, hjg, hgt]
              have hrec := opt_clean li V f
                (Expr.block (some (outerNames st.counter))
                  [Expr.block (some (innerNames st.counter))
                    [origin2, .brk (outerNames st.counter)], tb])
                { st with counter := st.counter + 1 } o2 st2 hbf hgf houter hmemf
                (by
                  simp only [checksCountIn, checksCountInL]
                  omega)
                (by omega)
                (by omega)
                h (by simpa using hnot)
              exact hrec
  | .block a b, origin, st, o2, st2, hlc, hgi, hgo, hmem, hco, hc1, hs0, h,
      hnot => by simp [isLabelCheckingIf] at hlc
  | .binary a b c, origin, st, o2, st2, hlc, hgi, hgo, hmem, hco, hc1, hs0, h,
      hnot => by simp [isLabelCheckingIf] at hlc
  | .getLocal a, origin, st, o2, st2, hlc, hgi, hgo, hmem, hco, hc1, hs0, h,
      hnot => by simp [isLabelCheckingIf] at hlc
  | .setLocal a b, origin, st, o2, st2, hlc, hgi, hgo, hmem, hco, hc1, hs0, h,
      hnot => by simp [isLabelCheckingIf] at hlc
  | .const a, origin, st, o2, st2, hlc, hgi, hgo, hmem, hco, hc1, hs0, h,
      hnot => by simp [isLabelCheckingIf] at hlc
  | .brk a, origin, st, o2, st2, hlc, hgi, hgo, hmem, hco, hc1, hs0, h,
      hnot => by simp [isLabelCheckingIf] at hlc
  | .nop, origin, st, o2, st2, hlc, hgi, hgo, hmem, hco, hc1, hs0, h,
      hnot => by simp [isLabelCheckingIf] at hlc
  | .other, origin, st, o2, st2, hlc, hgi, hgo, hmem, hco, hc1, hs0, h,
      hnot => by simp [isLabelCheckingIf] at hlc

/-- Unfolding the run loop at an element that cannot extend the run (not a
label-checking if, not a nonempty block): the element breaks the run and
scanning resumes from it. -/
theorem visitBlockRun_break (li : Nat) (fc : Counts) (origin : Expr)
    (irr : Bool) (st : PassState) (e : Expr) (rs : List Expr)
    (hside : ∀ bn h0 hrest, e = Expr.block bn (h0 :: hrest) → False)
    (hlc : isLabelCheckingIf e li = false) :
    visitBlockRun li fc origin (e :: rs) irr st =
      match visitBlockScan li fc (e :: rs) st with
      | none => none
      | some (tail, st2) => some (origin, tail, st2) := by
  rw [visitBlockRun.eq_3 li fc origin irr st e rs hside,
    if_neg (by simp [hlc])]

/-- Unfolding the run loop at a nonempty block whose first child is not a
label-checking if: the block breaks the run. -/
theorem visitBlockRun_breakHolder (li : Nat) (fc : Counts) (origin : Expr)
    (irr : Bool) (st : PassState) (bn : Option BName) (h0 : Expr)
    (hrest rs : List Expr) (hlc0 : isLabelCheckingIf h0 li = false) :
    visitBlockRun li fc origin (Expr.block bn (h0 :: hrest) :: rs) irr st =
      match visitBlockScan li fc (Expr.block bn (h0 :: hrest) :: rs) st with
      | none => none
      | some (tail, st2) => some (origin, tail, st2) := by
  rw [visitBlockRun.eq_2, if_neg (by simp [isLabelCheckingIf]),
    if_neg (by simp [hlc0])]

/-- Unfolding the run loop at a label-checking if element. -/
theorem visitBlockRun_chk (li : Nat) (fc : Counts) (origin : Expr)
    (irr : Bool) (st : PassState) (cond tb : Expr) (fq : Option Expr)
    (rs : List Expr)
    (hlc : isLabelCheckingIf (.iff cond tb fq) li = true) :
    visitBlockRun li fc origin (Expr.iff cond tb fq :: rs) irr st =
      (match hasIrreducibleControlFlow li fc (.iff cond tb fq) origin with
       | none => none
       | some b =>
         if (irr || b) = true then
           match visitBlockRun li fc origin rs (irr || b) st with
           | none => none
           | some (o2, tail, st2) =>
             some (o2, Expr.iff cond tb fq :: tail, st2)
         else
           match optimizeJumpsToLabelCheck li origin (.iff cond tb fq) st with
           | none => none
           | some (origin2, st2) =>
             match visitBlockRun li fc origin2 rs (irr || b) st2 with
             | none => none
             | some (o2, tail, st3) => some (o2, Expr.nop :: tail, st3)) := by
  rw [visitBlockRun.eq_3 li fc origin irr st _ rs (by intro b1 b2 b3 hh; simp at hh),
    if_pos hlc]

/-- Unfolding the run loop at a holder block whose single-or-first child is a
label-checking if. -/
theorem visitBlockRun_holder (li : Nat) (fc : Counts) (origin : Expr)
    (irr : Bool) (st : PassState) (bn : Option BName) (h0 : Expr)
    (hrest rs : List Expr) (hlc0 : isLabelCheckingIf h0 li = true) :
    visitBlockRun li fc origin (Expr.block bn (h0 :: hrest) :: rs) irr st =
      (match hasIrreducibleControlFlow li fc h0 origin with
       | none => none
       | some b =>
         if (irr || b) = true then
           match visitBlockRun li fc origin rs (irr || b) st with
           | none => none
           | some (o2, tail, st2) =>
             some (o2, Expr.block bn (h0 :: hrest) :: tail, st2)
         else
           if hrest.isEmpty then
             match optimizeJumpsToLabelCheck li origin h0 st with
             | none => none
             | some (origin2, st2) =>
               match visitBlockRun li fc (.block bn [origin2]) rs (irr || b) st2 with
               | none => none
               | some (o2, tail, st3) => some (o2, Expr.nop :: tail, st3)
           else none) := by
  rw [visitBlockRun.eq_2, if_neg (by simp [isLabelCheckingIf]), if_pos hlc0]

/-- Unfolding the scanner at a nonempty list. -/
theorem visitBlockScan_cons (li : Nat) (fc : Counts) (x : Expr)
    (rest : List Expr) (st : PassState) :
    visitBlockScan li fc (x :: rest) st =
      (match visitBlockRun li fc x rest false st with
       | none => none
       | some (x2, tail, st2) => some (x2 :: tail, st2)) := by
  rw [visitBlockScan]

mutual

/-- The scanner's run loop never decreases the notice count or the name
counter. -/
theorem run_mono (li : Nat) (fc : Counts) : ∀ (rest : List Expr)
    (origin : Expr) (irr : Bool) (st : PassState) (o2 : Expr)
    (tail : List Expr) (st2 : PassState),
    visitBlockRun li fc origin rest irr st = some (o2, tail, st2) →
    st.notices ≤ st2.notices ∧ st.counter ≤ st2.counter
  | [], origin, irr, st, o2, tail, st2, h => by
    rw [visitBlockRun.eq_1] at h
    obtain ⟨-, -, rfl⟩ : origin = o2 ∧ [] = tail ∧ st = st2 := by simpa using h
    simp
  | e :: rs, origin, irr, st, o2, tail, st2, h => by
    by_cases hlc : isLabelCheckingIf e li
    · obtain ⟨r, tb, fq, rfl⟩ := isLabelCheckingIf_inv hlc
      rw [visitBlockRun_chk li fc origin irr st _ tb fq rs hlc] at h
      cases hirr : hasIrreducibleControlFlow li fc
          (.iff (.binary .eqInt32 (.getLocal li) r) tb fq) origin with
      | none => simp [hirr] at h
      | some b =>
        simp only [hirr] at h
        by_cases hib : (irr || b) = true
        · rw [if_pos hib] at h
          cases hrun : visitBlockRun li fc origin rs (irr || b) st with
          | none => simp [hrun] at h
          | some r3 =>
            obtain ⟨o3, tail3, st3⟩ := r3
            simp only [hrun] at h
            obtain ⟨-, -, rfl⟩ : o3 = o2 ∧ _ = tail ∧ st3 = st2 := by
              simpa using h
            exact run_mono li fc rs origin (irr || b) st o3 tail3 st3 hrun
        · rw [if_neg hib] at h
          cases hopt : optimizeJumpsToLabelCheck li origin
              (.iff (.binary .eqInt32 (.getLocal li) r) tb fq) st with
          | none => simp [hopt] at h
          | some r3 =>
            obtain ⟨origin2, stx⟩ := r3
            simp only [hopt] at h
            cases hrun : visitBlockRun li fc origin2 rs (irr || b) stx with
            | none => simp [hrun] at h
            | some r4 =>
              obtain ⟨o3, tail3, st3⟩ := r4
              simp only [hrun] at h
              obtain ⟨-, -, rfl⟩ : o3 = o2 ∧ Expr.nop :: tail3 = tail ∧
                  st3 = st2 := by simpa using h
              have h1 := opt_state li _ origin st origin2 stx hopt
              have h2 := run_mono li fc rs origin2 (irr || b) stx o3 tail3
                st3 hrun
              omega
    · have hlcf : isLabelCheckingIf e li = false := by
        simpa using hlc
      cases e with
      | block bn blist =>
        cases blist with
        | nil =>
          rw [visitBlockRun_break li fc origin irr st _ rs
            (by intro b1 b2 b3 hh; simp at hh) hlcf] at h
          cases hscan : visitBlockScan li fc (Expr.block bn [] :: rs) st with
          | none => simp [hscan] at h
          | some r3 =>
            obtain ⟨tail3, st3⟩ := r3
            simp only [hscan] at h
            obtain ⟨-, -, rfl⟩ : origin = o2 ∧ tail3 = tail ∧ st3 = st2 := by
              simpa using h
            exact scan_mono li fc (Expr.block bn [] :: rs) st tail3 st3 hscan
        | cons h0 hrest =>
          by_cases hlc0 : isLabelCheckingIf h0 li
          · rw [visitBlockRun_holder li fc origin irr st bn h0 hrest rs hlc0] at h
            cases hirr : hasIrreducibleControlFlow li fc h0 origin with
            | none => simp [hirr] at h
            | some b =>
              simp only [hirr] at h
              by_cases hib : (irr || b) = true
              · rw [if_pos hib] at h
                cases hrun : visitBlockRun li fc origin rs (irr || b) st with
                | none => simp [hrun] at h
                | some r3 =>
                  obtain ⟨o3, tail3, st3⟩ := r3
                  simp only [hrun] at h
                  obtain ⟨-, -, rfl⟩ : o3 = o2 ∧ _ = tail ∧ st3 = st2 := by
                    simpa using h
                  exact run_mono li fc rs origin (irr || b) st o3 tail3 st3 hrun
              · rw [if_neg hib] at h
                by_cases hemp : hrest.isEmpty
                · rw [if_pos hemp] at h
                  cases hopt : optimizeJumpsToLabelCheck li origin h0 st with
                  | none => simp [hopt] at h
                  | some r3 =>
                    obtain ⟨origin2, stx⟩ := r3
                    simp only [hopt] at h
                    cases hrun : visitBlockRun li fc (.block bn [origin2]) rs
                        (irr || b) stx with
                    | none => simp [hrun] at h
                    | some r4 =>
                      obtain ⟨o3, tail3, st3⟩ := r4
                      simp only [hrun] at h
                      obtain ⟨-, -, rfl⟩ : o3 = o2 ∧ Expr.nop :: tail3 = tail ∧
                          st3 = st2 := by simpa using h
                      have h1 := opt_state li h0 origin st origin2 stx hopt
                      have h2 := run_mono li fc rs (.block bn [origin2])
                        (irr || b) stx o3 tail3 st3 hrun
                      omega
                · rw [if_neg hemp] at h
                  simp at h
          · rw [visitBlockRun_breakHolder li fc origin irr st bn h0 hrest rs
              (by simpa using hlc0)] at h
            cases hscan : visitBlockScan li fc
                (Expr.block bn (h0 :: hrest) :: rs) st with
            | none => simp [hscan] at h
            | some r3 =>
              obtain ⟨tail3, st3⟩ := r3
              simp only [hscan] at h
              obtain ⟨-, -, rfl⟩ : origin = o2 ∧ tail3 = tail ∧ st3 = st2 := by
                simpa using h
              exact scan_mono li fc (Expr.block bn (h0 :: hrest) :: rs) st
                tail3 st3 hscan
      | iff a b c =>
        rw [visitBlockRun_break li fc origin irr st _ rs
          (by intro b1 b2 b3 hh; simp at hh) hlcf] at h
        cases hscan : visitBlockScan li fc (Expr.iff a b c :: rs) st with
        | none => simp [hscan] at h
        | some r3 =>
          obtain ⟨tail3, st3⟩ := r3
          simp only [hscan] at h
          obtain ⟨-, -, rfl⟩ : origin = o2 ∧ tail3 = tail ∧ st3 = st2 := by
            simpa using h
          exact scan_mono li fc (Expr.iff a b c :: rs) st tail3 st3 hscan
      | binary a b c =>
        rw [visitBlockRun_break li fc origin irr st _ rs
          (by intro b1 b2 b3 hh; simp at hh) hlcf] at h
        cases hscan : visitBlockScan li fc (Expr.binary a b c :: rs) st with
        | none => simp [hscan] at h
        | some r3 =>
          obtain ⟨tail3, st3⟩ := r3
          simp only [hscan] at h
          obtain ⟨-, -, rfl⟩ : origin = o2 ∧ tail3 = tail ∧ st3 = st2 := by
            simpa using h
          exact scan_mono li fc (Expr.binary a b c :: rs) st tail3 st3 hscan
      | getLocal a =>
        rw [visitBlockRun_break li fc origin irr st _ rs
          (by intro b1 b2 b3 hh; simp at hh) hlcf] at h
        cases hscan : visitBlockScan li fc (Expr.getLocal a :: rs) st with
        | none => simp [hscan] at h
        | some r3 =>
          obtain ⟨tail3, st3⟩ := r3
          simp only [hscan] at h
          obtain ⟨-, -, rfl⟩ : origin = o2 ∧ tail3 = tail ∧ st3 = st2 := by
            simpa using h
          exact scan_mono li fc (Expr.getLocal a :: rs) st tail3 st3 hscan
      | setLocal a b =>
        rw [visitBlockRun_break li fc origin irr st _ rs
          (by intro b1 b2 b3 hh; simp at hh) hlcf] at h
        cases hscan : visitBlockScan li fc (Expr.setLocal a b :: rs) st with
        | none => simp [hscan] at h
        | some r3 =>
          obtain ⟨tail3, st3⟩ := r3
          simp only [hscan] at h
          obtain ⟨-, -, rfl⟩ : origin = o2 ∧ tail3 = tail ∧ st3 = st2 := by
            simpa using h
          exact scan_mono li fc (Expr.setLocal a b :: rs) st tail3 st3 hscan
      | const a =>
        rw [visitBlockRun_break li fc origin irr st _ rs
          (by intro b1 b2 b3 hh; simp at hh) hlcf] at h
        cases hscan : visitBlockScan li fc (Expr.const a :: rs) st with
        | none => simp [hscan] at h
        | some r3 =>
          obtain ⟨tail3, st3⟩ := r3
          simp only [hscan] at h
          obtain ⟨-, -, rfl⟩ : origin = o2 ∧ tail3 = tail ∧ st3 = st2 := by
            simpa using h
          exact scan_mono li fc (Expr.const a :: rs) st tail3 st3 hscan
      | brk a =>
        rw [visitBlockRun_break li fc origin irr st _ rs
          (by intro b1 b2 b3 hh; simp at hh) hlcf] at h
        cases hscan : visitBlockScan li fc (Expr.brk a :: rs) st with
        | none => simp [hscan] at h
        | some r3 =>
          obtain ⟨tail3, st3⟩ := r3
          simp only [hscan] at h
          obtain ⟨-, -, rfl⟩ : origin = o2 ∧ tail3 = tail ∧ st3 = st2 := by
            simpa using h
          exact scan_mono li fc (Expr.brk a :: rs) st tail3 st3 hscan
      | nop =>
        rw [visitBlockRun_break li fc origin irr st _ rs
          (by intro b1 b2 b3 hh; simp at hh) hlcf] at h
        cases hscan : visitBlockScan li fc (Expr.nop :: rs) st with
        | none => simp [hscan] at h
        | some r3 =>
          obtain ⟨tail3, st3⟩ := r3
          simp only [hscan] at h
          obtain ⟨-, -, rfl⟩ : origin = o2 ∧ tail3 = tail ∧ st3 = st2 := by
            simpa using h
          exact scan_mono li fc (Expr.nop :: rs) st tail3 st3 hscan
      | other =>
        rw [visitBlockRun_break li fc origin irr st _ rs
          (by intro b1 b2 b3 hh; simp at hh) hlcf] at h
        cases hscan : visitBlockScan li fc (Expr.other :: rs) st with
        | none => simp [hscan] at h
        | some r3 =>
          obtain ⟨tail3, st3⟩ := r3
          simp only [hscan] at h
          obtain ⟨-, -, rfl⟩ : origin = o2 ∧ tail3 = tail ∧ st3 = st2 := by
            simpa using h
          exact scan_mono li fc (Expr.other :: rs) st tail3 st3 hscan
termination_by rest => (rest.length, 1)

/-- The scanner never decreases the notice count or the name counter. -/
theorem scan_mono (li : Nat) (fc : Counts) : ∀ (list : List Expr)
    (st : PassState) (list2 : List Expr) (st2 : PassState),
    visitBlockScan li fc list st = some (list2, st2) →
    st.notices ≤ st2.notices ∧ st.counter ≤ st2.counter
  | [], st, list2, st2, h => by
    rw [visitBlockScan] at h
    obtain ⟨-, rfl⟩ : [] = list2 ∧ st = st2 := by simpa using h
    simp
  | x :: rest, st, list2, st2, h => by
    rw [visitBlockScan_cons] at h
    cases hrun : visitBlockRun li fc x rest false st with
    | none => simp [hrun] at h
    | some r3 =>
      obtain ⟨o3, tail3, st3⟩ := r3
      simp only [hrun] at h
      obtain ⟨-, rfl⟩ : o3 :: tail3 = list2 ∧ st3 = st2 := by simpa using h
      exact run_mono li fc rest x false st o3 tail3 st3 hrun
termination_by list => (list.length, 0)

end

/-- Destructuring a successful irreducibility analysis. -/
theorem hasIrr_some_inv {li : Nat} {fc : Counts} {e origin : Expr} {b : Bool}
    (h : hasIrreducibleControlFlow li fc e origin = some b) :
    ∃ cIn, labelUseFinderWalk li origin emptyCounts = some cIn ∧
      hasIrrChain li fc cIn e = some b := by
  unfold hasIrreducibleControlFlow at h
  cases hf : labelUseFinderWalk li origin emptyCounts with
  | none => simp [hf] at h
  | some cIn =>
    simp only [hf] at h
    exact ⟨cIn, rfl, h⟩

/-- A value checked more than once function-wide never appears in a chain
that the analyzer lets through. -/
theorem hasIrr_false_excl {li V : Nat} {fc : Counts} {e origin : Expr}
    (hV : 1 < fc.checks V) (hlc : isLabelCheckingIf e li = true)
    (h : hasIrreducibleControlFlow li fc e origin = some false) :
    V ∉ chainValues li e := by
  obtain ⟨cIn, -, hchain⟩ := hasIrr_some_inv h
  intro hmem
  have := (hasIrrChain_false_vals li fc cIn e hlc hchain V hmem).1
  omega

mutual

/-- Count preservation through one scanner run, for a label value checked
more than once function-wide: its checks and sets in the list segment are
exactly preserved, and well-shapedness is maintained. -/
theorem run_counts (li V : Nat) (fc : Counts) : ∀ (rest : List Expr)
    (origin : Expr) (irr : Bool) (st : PassState) (o2 : Expr)
    (tail : List Expr) (st2 : PassState),
    1 < fc.checks V →
    goodShape li origin = true → goodShapeL li rest = true →
    visitBlockRun li fc origin rest irr st = some (o2, tail, st2) →
    st2.notices = st.notices →
    (checksCountIn li V o2 + checksCountInL li V tail
      = checksCountIn li V origin + checksCountInL li V rest) ∧
    (setsCountIn li V o2 + setsCountInL li V tail
      = setsCountIn li V origin + setsCountInL li V rest) ∧
    goodShape li o2 = true ∧ goodShapeL li tail = true
  | [], origin, irr, st, o2, tail, st2, hV, hgo, hgr, h, hnot => by
    rw [visitBlockRun.eq_1] at h
    obtain ⟨rfl, hte, -⟩ : origin = o2 ∧ [] = tail ∧ st = st2 := by simpa using h
    subst hte
    simp [checksCountInL, setsCountInL, goodShapeL, hgo]
  | e :: rs, origin, irr, st, o2, tail, st2, hV, hgo, hgr, h, hnot => by
    simp only [goodShapeL, Bool.and_eq_true] at hgr
    obtain ⟨hge, hgrs⟩ := hgr
    by_cases hlc : isLabelCheckingIf e li
    · obtain ⟨r, tb, fq, heq⟩ := isLabelCheckingIf_inv hlc
      subst heq
      rw [visitBlockRun_chk li fc origin irr st _ tb fq rs hlc] at h
      cases hirr : hasIrreducibleControlFlow li fc
          (.iff (.binary .eqInt32 (.getLocal li) r) tb fq) origin with
      | none => simp [hirr] at h
      | some b =>
        simp only [hirr] at h
        by_cases hib : (irr || b) = true
        · rw [if_pos hib] at h
          cases hrun : visitBlockRun li fc origin rs (irr || b) st with
          | none => simp [hrun] at h
          | some r3 =>
            obtain ⟨o3, tail3, st3⟩ := r3
            simp only [hrun] at h
            obtain ⟨rfl, rfl, rfl⟩ : o3 = o2 ∧ _ :: tail3 = tail ∧ st3 = st2 := by
              simpa using h
            obtain ⟨hc, hs, hg1, hg2⟩ := run_counts li V fc rs origin (irr || b)
              st o3 tail3 st3 hV hgo hgrs hrun hnot
            refine ⟨?_, ?_, hg1, ?_⟩
            · simp only [checksCountInL]
              omega
            · simp only [setsCountInL]
              omega
            · simp [goodShapeL, hge, hg2]
        · rw [if_neg hib] at h
          have hb : b = false := by
            rcases b with - | -
            · rfl
            · simp at hib
          rw [hb] at hirr
          cases hopt : optimizeJumpsToLabelCheck li origin
              (.iff (.binary .eqInt32 (.getLocal li) r) tb fq) st with
          | none => simp [hopt] at h
          | some r3 =>
            obtain ⟨origin2, stx⟩ := r3
            simp only [hopt] at h
            cases hrun : visitBlockRun li fc origin2 rs (irr || b) stx with
            | none => simp [hrun] at h
            | some r4 =>
              obtain ⟨o3, tail3, st3⟩ := r4
              simp only [hrun] at h
              obtain ⟨rfl, rfl, rfl⟩ : o3 = o2 ∧ Expr.nop :: tail3 = tail ∧
                  st3 = st2 := by simpa using h
              have hmono1 := opt_state li _ origin st origin2 stx hopt
              have hmono2 := run_mono li fc rs origin2 (irr || b) stx o3
                tail3 st3 hrun
              have hnx : stx.notices = st.notices := by omega
              have hnx2 : st3.notices = stx.notices := by omega
              have hexcl := hasIrr_false_excl hV hlc hirr
              obtain ⟨hoc, hos, hog⟩ := opt_counts li V _ origin st origin2 stx
                hlc hge hgo hexcl hopt hnx
              obtain ⟨hc, hs, hg1, hg2⟩ := run_counts li V fc rs origin2
                (irr || b) stx o3 tail3 st3 hV hog hgrs hrun hnx2
              refine ⟨?_, ?_, hg1, ?_⟩
              · simp only [checksCountInL, checksCountIn] at hc ⊢
                omega
              · simp only [setsCountInL, setsCountIn] at hc hs ⊢
                omega
              · simp [goodShapeL, hg2, goodShape]
    · have hlcf : isLabelCheckingIf e li = false := by simpa using hlc
      cases e with
      | block bn blist =>
        cases blist with
        | nil =>
          rw [visitBlockRun_break li fc origin irr st _ rs
            (by intro b1 b2 b3 hh; simp at hh) hlcf] at h
          cases hscan : visitBlockScan li fc (Expr.block bn [] :: rs) st with
          | none => simp [hscan] at h
          | some r3 =>
            obtain ⟨tail3, st3⟩ := r3
            simp only [hscan] at h
            obtain ⟨rfl, rfl, rfl⟩ : origin = o2 ∧ tail3 = tail ∧ st3 = st2 := by
              simpa using h
            obtain ⟨hc, hs, hg2⟩ := scan_counts li V fc (Expr.block bn [] :: rs)
              st tail3 st3 hV (by simp [goodShapeL, hge, hgrs]) hscan hnot
            exact ⟨by omega, by omega, hgo, hg2⟩
        | cons h0 hrest =>
          by_cases hlc0 : isLabelCheckingIf h0 li
          · rw [visitBlockRun_holder li fc origin irr st bn h0 hrest rs hlc0] at h
            have hgh0 : goodShape li h0 = true ∧ goodShapeL li hrest = true := by
              simp only [goodShape, goodShapeL, Bool.and_eq_true] at hge
              exact hge
            cases hirr : hasIrreducibleControlFlow li fc h0 origin with
            | none => simp [hirr] at h
            | some b =>
              simp only [hirr] at h
              by_cases hib : (irr || b) = true
              · rw [if_pos hib] at h
                cases hrun : visitBlockRun li fc origin rs (irr || b) st with
                | none => simp [hrun] at h
                | some r3 =>
                  obtain ⟨o3, tail3, st3⟩ := r3
                  simp only [hrun] at h
                  obtain ⟨rfl, rfl, rfl⟩ : o3 = o2 ∧ _ :: tail3 = tail ∧
                      st3 = st2 := by simpa using h
                  obtain ⟨hc, hs, hg1, hg2⟩ := run_counts li V fc rs origin
                    (irr || b) st o3 tail3 st3 hV hgo hgrs hrun hnot
                  refine ⟨?_, ?_, hg1, ?_⟩
                  · simp only [checksCountInL]
                    omega
                  · simp only [setsCountInL]
                    omega
                  · simp [goodShapeL, hge, hg2]
              · rw [if_neg hib] at h
                have hb : b = false := by
                  rcases b with - | -
                  · rfl
                  · simp at hib
                rw [hb] at hirr
                by_cases hemp : hrest.isEmpty
                · rw [if_pos hemp] at h
                  have hrestnil : hrest = [] := by
                    simpa [List.isEmpty_iff] using hemp
                  subst hrestnil
                  cases hopt : optimizeJumpsToLabelCheck li origin h0 st with
                  | none => simp [hopt] at h
                  | some r3 =>
                    obtain ⟨origin2, stx⟩ := r3
                    simp only [hopt] at h
                    cases hrun : visitBlockRun li fc (.block bn [origin2]) rs
                        (irr || b) stx with
                    | none => simp [hrun] at h
                    | some r4 =>
                      obtain ⟨o3, tail3, st3⟩ := r4
                      simp only [hrun] at h
                      obtain ⟨rfl, rfl, rfl⟩ : o3 = o2 ∧
                          Expr.nop :: tail3 = tail ∧ st3 = st2 := by
                        simpa using h
                      have hmono1 := opt_state li h0 origin st origin2 stx hopt
                      have hmono2 := run_mono li fc rs (.block bn [origin2])
                        (irr || b) stx o3 tail3 st3 hrun
                      have hnx : stx.notices = st.notices := by omega
                      have hnx2 : st3.notices = stx.notices := by omega
                      have hexcl := hasIrr_false_excl hV hlc0 hirr
                      obtain ⟨hoc, hos, hog⟩ := opt_counts li V h0 origin st
                        origin2 stx hlc0 hgh0.1 hgo hexcl hopt hnx
                      obtain ⟨hc, hs, hg1, hg2⟩ := run_counts li V fc rs
                        (.block bn [origin2]) (irr || b) stx o3 tail3 st3 hV
                        (by simp [goodShape, goodShapeL, hog]) hgrs hrun hnx2
                      refine ⟨?_, ?_, hg1, ?_⟩
                      · simp only [checksCountInL, checksCountIn,
                          checksCountInL] at hc ⊢
                        omega
                      · simp only [setsCountInL, setsCountIn,
                          setsCountInL] at hc hs ⊢
                        omega
                      · simp [goodShapeL, hg2, goodShape]
                · rw [if_neg hemp] at h
                  simp at h
          · rw [visitBlockRun_breakHolder li fc origin irr st bn h0 hrest rs
              (by simpa using hlc0)] at h
            cases hscan : visitBlockScan li fc
                (Expr.block bn (h0 :: hrest) :: rs) st with
            | none => simp [hscan] at h
            | some r3 =>
              obtain ⟨tail3, st3⟩ := r3
              simp only [hscan] at h
              obtain ⟨rfl, rfl, rfl⟩ : origin = o2 ∧ tail3 = tail ∧
                  st3 = st2 := by simpa using h
              obtain ⟨hc, hs, hg2⟩ := scan_counts li V fc
                (Expr.block bn (h0 :: hrest) :: rs) st tail3 st3 hV
                (by simp [goodShapeL, hge, hgrs]) hscan hnot
              exact ⟨by omega, by omega, hgo, hg2⟩
      | iff a b c =>
        rw [visitBlockRun_break li fc origin irr st _ rs
          (by intro b1 b2 b3 hh; simp at hh) hlcf] at h
        cases hscan : visitBlockScan li fc (Expr.iff a b c :: rs) st with
        | none => simp [hscan] at h
        | some r3 =>
          obtain ⟨tail3, st3⟩ := r3
          simp only [hscan] at h
          obtain ⟨rfl, rfl, rfl⟩ : origin = o2 ∧ tail3 = tail ∧ st3 = st2 := by
            simpa using h
          obtain ⟨hc, hs, hg2⟩ := scan_counts li V fc (Expr.iff a b c :: rs)
            st tail3 st3 hV (by simp [goodShapeL, hge, hgrs]) hscan hnot
          exact ⟨by omega, by omega, hgo, hg2⟩
      | binary a b c =>
        rw [visitBlockRun_break li fc origin irr st _ rs
          (by intro b1 b2 b3 hh; simp at hh) hlcf] at h
        cases hscan : visitBlockScan li fc (Expr.binary a b c :: rs) st with
        | none => simp [hscan] at h
        | some r3 =>
          obtain ⟨tail3, st3⟩ := r3
          simp only [hscan] at h
          obtain ⟨rfl, rfl, rfl⟩ : origin = o2 ∧ tail3 = tail ∧ st3 = st2 := by
            simpa using h
          obtain ⟨hc, hs, hg2⟩ := scan_counts li V fc (Expr.binary a b c :: rs)
            st tail3 st3 hV (by simp [goodShapeL, hge, hgrs]) hscan hnot
          exact ⟨by omega, by omega, hgo, hg2⟩
      | getLocal a =>
        rw [visitBlockRun_break li fc origin irr st _ rs
          (by intro b1 b2 b3 hh; simp at hh) hlcf] at h
        cases hscan : visitBlockScan li fc (Expr.getLocal a :: rs) st with
        | none => simp [hscan] at h
        | some r3 =>
          obtain ⟨tail3, st3⟩ := r3
          simp only [hscan] at h
          obtain ⟨rfl, rfl, rfl⟩ : origin = o2 ∧ tail3 = tail ∧ st3 = st2 := by
            simpa using h
          obtain ⟨hc, hs, hg2⟩ := scan_counts li V fc (Expr.getLocal a :: rs)
            st tail3 st3 hV (by simp [goodShapeL, hge, hgrs]) hscan hnot
          exact ⟨by omega, by omega, hgo, hg2⟩
      | setLocal a b =>
        rw [visitBlockRun_break li fc origin irr st _ rs
          (by intro b1 b2 b3 hh; simp at hh) hlcf] at h
        cases hscan : visitBlockScan li fc (Expr.setLocal a b :: rs) st with
        | none => simp [hscan] at h
        | some r3 =>
          obtain ⟨tail3, st3⟩ := r3
          simp only [hscan] at h
          obtain ⟨rfl, rfl, rfl⟩ : origin = o2 ∧ tail3 = tail ∧ st3 = st2 := by
            simpa using h
          obtain ⟨hc, hs, hg2⟩ := scan_counts li V fc (Expr.setLocal a b :: rs)
            st tail3 st3 hV (by simp [goodShapeL, hge, hgrs]) hscan hnot
          exact ⟨by omega, by omega, hgo, hg2⟩
      | const a =>
        rw [visitBlockRun_break li fc origin irr st _ rs
          (by intro b1 b2 b3 hh; simp at hh) hlcf] at h
        cases hscan : visitBlockScan li fc (Expr.const a :: rs) st with
        | none => simp [hscan] at h
        | some r3 =>
          obtain ⟨tail3, st3⟩ := r3
          simp only [hscan] at h
          obtain ⟨rfl, rfl, rfl⟩ : origin = o2 ∧ tail3 = tail ∧ st3 = st2 := by
            simpa using h
          obtain ⟨hc, hs, hg2⟩ := scan_counts li V fc (Expr.const a :: rs)
            st tail3 st3 hV (by simp [goodShapeL, hge, hgrs]) hscan hnot
          exact ⟨by omega, by omega, hgo, hg2⟩
      | brk a =>
        rw [visitBlockRun_break li fc origin irr st _ rs
          (by intro b1 b2 b3 hh; simp at hh) hlcf] at h
        cases hscan : visitBlockScan li fc (Expr.brk a :: rs) st with
        | none => simp [hscan] at h
        | some r3 =>
          obtain ⟨tail3, st3⟩ := r3
          simp only [hscan] at h
          obtain ⟨rfl, rfl, rfl⟩ : origin = o2 ∧ tail3 = tail ∧ st3 = st2 := by
            simpa using h
          obtain ⟨hc, hs, hg2⟩ := scan_counts li V fc (Expr.brk a :: rs)
            st tail3 st3 hV (by simp [goodShapeL, hge, hgrs]) hscan hnot
          exact ⟨by omega, by omega, hgo, hg2⟩
      | nop =>
        rw [visitBlockRun_break li fc origin irr st _ rs
          (by intro b1 b2 b3 hh; simp at hh) hlcf] at h
        cases hscan : visitBlockScan li fc (Expr.nop :: rs) st with
        | none => simp [hscan] at h
        | some r3 =>
          obtain ⟨tail3, st3⟩ := r3
          simp only [hscan] at h
          obtain ⟨rfl, rfl, rfl⟩ : origin = o2 ∧ tail3 = tail ∧ st3 = st2 := by
            simpa using h
          obtain ⟨hc, hs, hg2⟩ := scan_counts li V fc (Expr.nop :: rs)
            st tail3 st3 hV (by simp [goodShapeL, hge, hgrs]) hscan hnot
          exact ⟨by omega, by omega, hgo, hg2⟩
      | other =>
        rw [visitBlockRun_break li fc origin irr st _ rs
          (by intro b1 b2 b3 hh; simp at hh) hlcf] at h
        cases hscan : visitBlockScan li fc (Expr.other :: rs) st with
        | none => simp [hscan] at h
        | some r3 =>
          obtain ⟨tail3, st3⟩ := r3
          simp only [hscan] at h
          obtain ⟨rfl, rfl, rfl⟩ : origin = o2 ∧ tail3 = tail ∧ st3 = st2 := by
            simpa using h
          obtain ⟨hc, hs, hg2⟩ := scan_counts li V fc (Expr.other :: rs)
            st tail3 st3 hV (by simp [goodShapeL, hge, hgrs]) hscan hnot
          exact ⟨by omega, by omega, hgo, hg2⟩
termination_by rest => (rest.length, 1)

/-- Count preservation through the block scanner, for a label value checked
more than once function-wide. -/
theorem scan_counts (li V : Nat) (fc : Counts) : ∀ (list : List Expr)
    (st : PassState) (list2 : List Expr) (st2 : PassState),
    1 < fc.checks V →
    goodShapeL li list = true →
    visitBlockScan li fc list st = some (list2, st2) →
    st2.notices = st.notices →
    checksCountInL li V list2 = checksCountInL li V list ∧
    setsCountInL li V list2 = setsCountInL li V list ∧
    goodShapeL li list2 = true
  | [], st, list2, st2, hV, hgl, h, hnot => by
    rw [visitBlockScan] at h
    obtain ⟨hte, -⟩ : [] = list2 ∧ st = st2 := by simpa using h
    subst hte
    simp [checksCountInL, setsCountInL, goodShapeL]
  | x :: rest, st, list2, st2, hV, hgl, h, hnot => by
    simp only [goodShapeL, Bool.and_eq_true] at hgl
    rw [visitBlockScan_cons] at h
    cases hrun : visitBlockRun li fc x rest false st with
    | none => simp [hrun] at h
    | some r3 =>
      obtain ⟨o3, tail3, st3⟩ := r3
      simp only [hrun] at h
      obtain ⟨rfl, rfl⟩ : o3 :: tail3 = list2 ∧ st3 = st2 := by simpa using h
      obtain ⟨hc, hs, hg1, hg2⟩ := run_counts li V fc rest x false st o3 tail3
        st3 hV hgl.1 hgl.2 hrun hnot
      refine ⟨?_, ?_, ?_⟩
      · simp only [checksCountInL]
        omega
      · simp only [setsCountInL]
        omega
      · simp [goodShapeL, hg1, hg2]
termination_by list => (list.length, 0)

end


/-- Destructuring a successful pass walk over an `If` node. -/
theorem pw_iff_inv {li : Nat} {fc : Counts} {cond t : Expr} {fq : Option Expr}
    {st : PassState} {e2 : Expr} {st2 : PassState}
    (h : passWalk li fc (.iff cond t fq) st = some (e2, st2)) :
    ∃ cond2 t2 fq2 st1 stt, e2 = .iff cond2 t2 fq2 ∧
      passWalk li fc cond st = some (cond2, st1) ∧
      passWalk li fc t st1 = some (t2, stt) ∧
      ((fq = none ∧ fq2 = none ∧ stt = st2) ∨
        (∃ f f2, fq = some f ∧ fq2 = some f2 ∧
          passWalk li fc f stt = some (f2, st2))) := by
  cases fq with
  | none =>
    simp only [passWalk] at h
    cases h1 : passWalk li fc cond st with
    | none => simp [h1] at h
    | some r1 =>
      obtain ⟨cond2, st1⟩ := r1
      simp only [h1] at h
      cases h2 : passWalk li fc t st1 with
      | none => simp [h2] at h
      | some r2 =>
        obtain ⟨t2, stt⟩ := r2
        simp only [h2] at h
        obtain ⟨rfl, rfl⟩ : Expr.iff cond2 t2 none = e2 ∧ stt = st2 := by
          simpa using h
        exact ⟨cond2, t2, none, st1, stt, rfl, rfl, h2, Or.inl ⟨rfl, rfl, rfl⟩⟩
  | some f =>
    simp only [passWalk] at h
    cases h1 : passWalk li fc cond st with
    | none => simp [h1] at h
    | some r1 =>
      obtain ⟨cond2, st1⟩ := r1
      simp only [h1] at h
      cases h2 : passWalk li fc t st1 with
      | none => simp [h2] at h
      | some r2 =>
        obtain ⟨t2, stt⟩ := r2
        simp only [h2] at h
        cases h3 : passWalk li fc f stt with
        | none => simp [h3] at h
        | some r3 =>
          obtain ⟨f2, st3⟩ := r3
          simp only [h3] at h
          obtain ⟨rfl, rfl⟩ : Expr.iff cond2 t2 (some f2) = e2 ∧ st3 = st2 := by
            simpa using h
          exact ⟨cond2, t2, some f2, st1, stt, rfl, rfl, h2,
            Or.inr ⟨f, f2, rfl, rfl, h3⟩⟩

mutual

/-- The pass walk never decreases the notice count or the name counter. -/
theorem passWalk_mono (li : Nat) (fc : Counts) : ∀ (e : Expr) (st : PassState)
    (e2 : Expr) (st2 : PassState),
    passWalk li fc e st = some (e2, st2) →
    st.notices ≤ st2.notices ∧ st.counter ≤ st2.counter
  | .block n list, st, e2, st2, h => by
    simp only [passWalk] at h
    cases h1 : passWalkL li fc list st with
    | none => simp [h1] at h
    | some r1 =>
      obtain ⟨list2, stx⟩ := r1
      simp only [h1] at h
      cases h2 : visitBlockScan li fc list2 stx with
      | none => simp [h2] at h
      | some r2 =>
        obtain ⟨list3, sty⟩ := r2
        simp only [h2] at h
        obtain ⟨-, rfl⟩ : Expr.block n list3 = e2 ∧ sty = st2 := by simpa using h
        have ha := passWalkL_mono li fc list st list2 stx h1
        have hb := scan_mono li fc list2 stx list3 sty h2
        omega
  | .iff cond t fq, st, e2, st2, h => by
    obtain ⟨cond2, t2, fq2, st1, stt, rfl, h1, h2, hor⟩ := pw_iff_inv h
    have ha := passWalk_mono li fc cond st cond2 st1 h1
    have hb := passWalk_mono li fc t st1 t2 stt h2
    rcases hor with ⟨rfl, rfl, rfl⟩ | ⟨f, f2, rfl, rfl, h3⟩
    · omega
    · have hcℓ := passWalk_mono li fc f stt f2 st2 h3
      omega
  | .binary op l r, st, e2, st2, h => by
    simp only [passWalk] at h
    cases h1 : passWalk li fc l st with
    | none => simp [h1] at h
    | some r1 =>
      obtain ⟨l2, st1⟩ := r1
      simp only [h1] at h
      cases h2 : passWalk li fc r st1 with
      | none => simp [h2] at h
      | some r2 =>
        obtain ⟨r2e, stt⟩ := r2
        simp only [h2] at h
        obtain ⟨-, rfl⟩ : Expr.binary op l2 r2e = e2 ∧ stt = st2 := by
          simpa using h
        have ha := passWalk_mono li fc l st l2 st1 h1
        have hb := passWalk_mono li fc r st1 r2e stt h2
        omega
  | .setLocal i w, st, e2, st2, h => by
    simp only [passWalk] at h
    cases h1 : passWalk li fc w st with
    | none => simp [h1] at h
    | some r1 =>
      obtain ⟨w2, st1⟩ := r1
      simp only [h1] at h
      obtain ⟨-, rfl⟩ : Expr.setLocal i w2 = e2 ∧ st1 = st2 := by simpa using h
      exact passWalk_mono li fc w st w2 st1 h1
  | .getLocal i, st, e2, st2, h => by
    simp only [passWalk] at h
    obtain ⟨-, rfl⟩ : Expr.getLocal i = e2 ∧ st = st2 := by simpa using h
    simp
  | .const n, st, e2, st2, h => by
    simp only [passWalk] at h
    obtain ⟨-, rfl⟩ : Expr.const n = e2 ∧ st = st2 := by simpa using h
    simp
  | .brk b, st, e2, st2, h => by
    simp only [passWalk] at h
    obtain ⟨-, rfl⟩ : Expr.brk b = e2 ∧ st = st2 := by simpa using h
    simp
  | .nop, st, e2, st2, h => by
    simp only [passWalk] at h
    obtain ⟨-, rfl⟩ : Expr.nop = e2 ∧ st = st2 := by simpa using h
    simp
  | .other, st, e2, st2, h => by
    simp only [passWalk] at h
    obtain ⟨-, rfl⟩ : Expr.other = e2 ∧ st = st2 := by simpa using h
    simp

/-- List version of `passWalk_mono`. -/
theorem passWalkL_mono (li : Nat) (fc : Counts) : ∀ (l : List Expr)
    (st : PassState) (l2 : List Expr) (st2 : PassState),
    passWalkL li fc l st = some (l2, st2) →
    st.notices ≤ st2.notices ∧ st.counter ≤ st2.counter
  | [], st, l2, st2, h => by
    simp only [passWalkL] at h
    obtain ⟨-, rfl⟩ : [] = l2 ∧ st = st2 := by simpa using h
    simp
  | e :: es, st, l2, st2, h => by
    simp only [passWalkL] at h
    cases h1 : passWalk li fc e st with
    | none => simp [h1] at h
    | some r1 =>
      obtain ⟨e2, st1⟩ := r1
      simp only [h1] at h
      cases h2 : passWalkL li fc es st1 with
      | none => simp [h2] at h
      | some r2 =>
        obtain ⟨es2, stt⟩ := r2
        simp only [h2] at h
        obtain ⟨-, rfl⟩ : e2 :: es2 = l2 ∧ stt = st2 := by simpa using h
        have ha := passWalk_mono li fc e st e2 st1 h1
        have hb := passWalkL_mono li fc es st1 es2 stt h2
        omega

end


/-- The pass walk preserves the top-level classifications the check/set
shape tests depend on. -/
theorem passWalk_classes (li : Nat) (fc : Counts) : ∀ (e : Expr)
    (st : PassState) (e2 : Expr) (st2 : PassState),
    passWalk li fc e st = some (e2, st2) →
    valClass e2 = valClass e ∧ locClass e2 = locClass e ∧
      condClass e2 = condClass e ∧ exprIsIf e2 = exprIsIf e
  | .block n list, st, e2, st2, h => by
    simp only [passWalk] at h
    cases h1 : passWalkL li fc list st with
    | none => simp [h1] at h
    | some r1 =>
      obtain ⟨list2, stx⟩ := r1
      simp only [h1] at h
      cases h2 : visitBlockScan li fc list2 stx with
      | none => simp [h2] at h
      | some r2 =>
        obtain ⟨list3, sty⟩ := r2
        simp only [h2] at h
        obtain ⟨rfl, -⟩ : Expr.block n list3 = e2 ∧ sty = st2 := by simpa using h
        simp [valClass, locClass, condClass, exprIsIf]
  | .iff cond t fq, st, e2, st2, h => by
    obtain ⟨cond2, t2, fq2, st1, stt, rfl, -, -, -⟩ := pw_iff_inv h
    simp [valClass, locClass, condClass, exprIsIf]
  | .binary op l r, st, e2, st2, h => by
    simp only [passWalk] at h
    cases h1 : passWalk li fc l st with
    | none => simp [h1] at h
    | some r1 =>
      obtain ⟨l2, st1⟩ := r1
      simp only [h1] at h
      cases h2 : passWalk li fc r st1 with
      | none => simp [h2] at h
      | some r2 =>
        obtain ⟨r2e, stt⟩ := r2
        simp only [h2] at h
        obtain ⟨rfl, -⟩ : Expr.binary op l2 r2e = e2 ∧ stt = st2 := by
          simpa using h
        have ha := passWalk_classes li fc l st l2 st1 h1
        have hb := passWalk_classes li fc r st1 r2e stt h2
        refine ⟨by simp [valClass], by simp [locClass], ?_, by simp [exprIsIf]⟩
        simp only [condClass]
        rw [ha.2.1, hb.1]
  | .setLocal i w, st, e2, st2, h => by
    simp only [passWalk] at h
    cases h1 : passWalk li fc w st with
    | none => simp [h1] at h
    | some r1 =>
      obtain ⟨w2, st1⟩ := r1
      simp only [h1] at h
      obtain ⟨rfl, -⟩ : Expr.setLocal i w2 = e2 ∧ st1 = st2 := by simpa using h
      simp [valClass, locClass, condClass, exprIsIf]
  | .getLocal i, st, e2, st2, h => by
    simp only [passWalk] at h
    obtain ⟨rfl, -⟩ : Expr.getLocal i = e2 ∧ st = st2 := by simpa using h
    simp [valClass, locClass, condClass, exprIsIf]
  | .const n, st, e2, st2, h => by
    simp only [passWalk] at h
    obtain ⟨rfl, -⟩ : Expr.const n = e2 ∧ st = st2 := by simpa using h
    simp [valClass, locClass, condClass, exprIsIf]
  | .brk b, st, e2, st2, h => by
    simp only [passWalk] at h
    obtain ⟨rfl, -⟩ : Expr.brk b = e2 ∧ st = st2 := by simpa using h
    simp [valClass, locClass, condClass, exprIsIf]
  | .nop, st, e2, st2, h => by
    simp only [passWalk] at h
    obtain ⟨rfl, -⟩ : Expr.nop = e2 ∧ st = st2 := by simpa using h
    simp [valClass, locClass, condClass, exprIsIf]
  | .other, st, e2, st2, h => by
    simp only [passWalk] at h
    obtain ⟨rfl, -⟩ : Expr.other = e2 ∧ st = st2 := by simpa using h
    simp [valClass, locClass, condClass, exprIsIf]

/-- The pass walk preserves whether a node is a label-checking if. -/
theorem pw_labelcheck {li : Nat} {fc : Counts} {e : Expr} {st : PassState}
    {e2 : Expr} {st2 : PassState}
    (h : passWalk li fc e st = some (e2, st2)) (lj : Nat) :
    isLabelCheckingIf e2 lj = isLabelCheckingIf e lj := by
  cases e with
  | iff cond t fq =>
    obtain ⟨cond2, t2, fq2, st1, stt, rfl, h1, -, -⟩ := pw_iff_inv h
    rw [isLabelCheckingIf_via_condClass, isLabelCheckingIf_via_condClass,
      (passWalk_classes li fc cond st cond2 st1 h1).2.2.1]
  | _ =>
    have h1 := (passWalk_classes li fc _ _ _ _ h).2.2.2
    rw [isLabelCheckingIf_notIf (e := e2) (by simp_all [exprIsIf]) lj,
      isLabelCheckingIf_notIf (by simp [exprIsIf]) lj]


mutual

/-- Count preservation through the whole pass walk, for a label value
checked more than once function-wide: no check of it and no set of it is
created or destroyed anywhere in the tree. -/
theorem passWalk_counts (li V : Nat) (fc : Counts) : ∀ (e : Expr)
    (st : PassState) (e2 : Expr) (st2 : PassState),
    1 < fc.checks V → goodShape li e = true →
    passWalk li fc e st = some (e2, st2) → st2.notices = st.notices →
    checksCountIn li V e2 = checksCountIn li V e ∧
    setsCountIn li V e2 = setsCountIn li V e ∧
    goodShape li e2 = true
  | .block n list, st, e2, st2, hV, hg, h, hnot => by
    simp only [passWalk] at h
    cases h1 : passWalkL li fc list st with
    | none => simp [h1] at h
    | some r1 =>
      obtain ⟨list2, stx⟩ := r1
      simp only [h1] at h
      cases h2 : visitBlockScan li fc list2 stx with
      | none => simp [h2] at h
      | some r2 =>
        obtain ⟨list3, sty⟩ := r2
        simp only [h2] at h
        obtain ⟨rfl, rfl⟩ : Expr.block n list3 = e2 ∧ sty = st2 := by
          simpa using h
        have ha := passWalkL_mono li fc list st list2 stx h1
        have hb := scan_mono li fc list2 stx list3 sty h2
        have hn1 : stx.notices = st.notices := by omega
        have hn2 : sty.notices = stx.notices := by omega
        obtain ⟨hc1, hs1, hg1⟩ := passWalkL_counts li V fc list st list2 stx
          hV (by simpa [goodShape] using hg) h1 hn1
        obtain ⟨hc2, hs2, hg2⟩ := scan_counts li V fc list2 stx list3 sty
          hV hg1 h2 hn2
        simp only [checksCountIn, setsCountIn, goodShape]
        exact ⟨by omega, by omega, hg2⟩
  | .iff cond t fq, st, e2, st2, hV, hg, h, hnot => by
    obtain ⟨cond2, t2, fq2, st1, stt, rfl, h1, h2, hor⟩ := pw_iff_inv h
    have hcc := (passWalk_classes li fc cond st cond2 st1 h1).2.2.1
    have hown : checkOwn li V cond2 = checkOwn li V cond := by
      unfold checkOwn
      rw [hcc]
    rcases hor with ⟨rfl, rfl, rfl⟩ | ⟨f, f2, rfl, rfl, h3⟩
    · simp only [goodShape, Bool.and_eq_true] at hg
      have ha := passWalk_mono li fc cond st cond2 st1 h1
      have hb := passWalk_mono li fc t st1 t2 stt h2
      have hn1 : st1.notices = st.notices := by omega
      have hn2 : stt.notices = st1.notices := by omega
      obtain ⟨hcA, hsA, hgA⟩ := passWalk_counts li V fc cond st cond2 st1
        hV hg.1 h1 hn1
      obtain ⟨hcB, hsB, hgB⟩ := passWalk_counts li V fc t st1 t2 stt
        hV hg.2 h2 hn2
      refine ⟨?_, ?_, by simp [goodShape, hgA, hgB]⟩
      · simp only [checksCountIn]
        omega
      · simp only [setsCountIn]
        omega
    · simp only [goodShape, Bool.and_eq_true] at hg
      have ha := passWalk_mono li fc cond st cond2 st1 h1
      have hb := passWalk_mono li fc t st1 t2 stt h2
      have hcℓ := passWalk_mono li fc f stt f2 st2 h3
      have hn1 : st1.notices = st.notices := by omega
      have hn2 : stt.notices = st1.notices := by omega
      have hn3 : st2.notices = stt.notices := by omega
      obtain ⟨hcA, hsA, hgA⟩ := passWalk_counts li V fc cond st cond2 st1
        hV hg.1.1.2 h1 hn1
      obtain ⟨hcB, hsB, hgB⟩ := passWalk_counts li V fc t st1 t2 stt
        hV hg.1.2 h2 hn2
      obtain ⟨hcC, hsC, hgC⟩ := passWalk_counts li V fc f stt f2 st2
        hV hg.2 h3 hn3
      refine ⟨?_, ?_, ?_⟩
      · simp only [checksCountIn]
        omega
      · simp only [setsCountIn]
        omega
      · simp only [goodShape, Bool.and_eq_true]
        refine ⟨⟨⟨?_, hgA⟩, hgB⟩, hgC⟩
        have hL1 := pw_labelcheck h li
        have hL2 := pw_labelcheck h3 li
        have := hg.1.1.1
        simp only [Bool.or_eq_true, Bool.not_eq_true] at this ⊢
        rw [hL1, hL2]
        exact this
  | .binary op l r, st, e2, st2, hV, hg, h, hnot => by
    simp only [passWalk] at h
    cases h1 : passWalk li fc l st with
    | none => simp [h1] at h
    | some r1 =>
      obtain ⟨l2, st1⟩ := r1
      simp only [h1] at h
      cases h2 : passWalk li fc r st1 with
      | none => simp [h2] at h
      | some r2 =>
        obtain ⟨r2e, stt⟩ := r2
        simp only [h2] at h
        obtain ⟨rfl, rfl⟩ : Expr.binary op l2 r2e = e2 ∧ stt = st2 := by
          simpa using h
        simp only [goodShape, Bool.and_eq_true] at hg
        have ha := passWalk_mono li fc l st l2 st1 h1
        have hb := passWalk_mono li fc r st1 r2e stt h2
        have hn1 : st1.notices = st.notices := by omega
        have hn2 : stt.notices = st1.notices := by omega
        obtain ⟨hcA, hsA, hgA⟩ := passWalk_counts li V fc l st l2 st1
          hV hg.1 h1 hn1
        obtain ⟨hcB, hsB, hgB⟩ := passWalk_counts li V fc r st1 r2e stt
          hV hg.2 h2 hn2
        refine ⟨?_, ?_, by simp [goodShape, hgA, hgB]⟩
        · simp only [checksCountIn]
          omega
        · simp only [setsCountIn]
          omega
  | .setLocal i w, st, e2, st2, hV, hg, h, hnot => by
    simp only [passWalk] at h
    cases h1 : passWalk li fc w st with
    | none => simp [h1] at h
    | some r1 =>
      obtain ⟨w2, st1⟩ := r1
      simp only [h1] at h
      obtain ⟨rfl, rfl⟩ : Expr.setLocal i w2 = e2 ∧ st1 = st2 := by simpa using h
      have hvc := (passWalk_classes li fc w st w2 st1 h1).1
      have hown : setOwn li V i w2 = setOwn li V i w := by
        unfold setOwn
        rw [hvc]
      obtain ⟨hcA, hsA, hgA⟩ := passWalk_counts li V fc w st w2 st1
        hV (by simpa [goodShape] using hg) h1 hnot
      refine ⟨?_, ?_, by simpa [goodShape] using hgA⟩
      · simp only [checksCountIn]
        omega
      · simp only [setsCountIn]
        omega
  | .getLocal i, st, e2, st2, hV, hg, h, hnot => by
    simp only [passWalk] at h
    obtain ⟨rfl, -⟩ : Expr.getLocal i = e2 ∧ st = st2 := by simpa using h
    simp [goodShape]
  | .const n, st, e2, st2, hV, hg, h, hnot => by
    simp only [passWalk] at h
    obtain ⟨rfl, -⟩ : Expr.const n = e2 ∧ st = st2 := by simpa using h
    simp [goodShape]
  | .brk b, st, e2, st2, hV, hg, h, hnot => by
    simp only [passWalk] at h
    obtain ⟨rfl, -⟩ : Expr.brk b = e2 ∧ st = st2 := by simpa using h
    simp [goodShape]
  | .nop, st, e2, st2, hV, hg, h, hnot => by
    simp only [passWalk] at h
    obtain ⟨rfl, -⟩ : Expr.nop = e2 ∧ st = st2 := by simpa using h
    simp [goodShape]
  | .other, st, e2, st2, hV, hg, h, hnot => by
    simp only [passWalk] at h
    obtain ⟨rfl, -⟩ : Expr.other = e2 ∧ st = st2 := by simpa using h
    simp [goodShape]

/-- List version of `passWalk_counts`. -/
theorem passWalkL_counts (li V : Nat) (fc : Counts) : ∀ (l : List Expr)
    (st : PassState) (l2 : List Expr) (st2 : PassState),
    1 < fc.checks V → goodShapeL li l = true →
    passWalkL li fc l st = some (l2, st2) → st2.notices = st.notices →
    checksCountInL li V l2 = checksCountInL li V l ∧
    setsCountInL li V l2 = setsCountInL li V l ∧
    goodShapeL li l2 = true
  | [], st, l2, st2, hV, hg, h, hnot => by
    simp only [passWalkL] at h
    obtain ⟨rfl, -⟩ : [] = l2 ∧ st = st2 := by simpa using h
    simp [checksCountInL, setsCountInL, goodShapeL]
  | e :: es, st, l2, st2, hV, hg, h, hnot => by
    simp only [passWalkL] at h
    cases h1 : passWalk li fc e st with
    | none => simp [h1] at h
    | some r1 =>
      obtain ⟨e2, st1⟩ := r1
      simp only [h1] at h
      cases h2 : passWalkL li fc es st1 with
      | none => simp [h2] at h
      | some r2 =>
        obtain ⟨es2, stt⟩ := r2
        simp only [h2] at h
        obtain ⟨rfl, rfl⟩ : e2 :: es2 = l2 ∧ stt = st2 := by simpa using h
        simp only [goodShapeL, Bool.and_eq_true] at hg
        have ha := passWalk_mono li fc e st e2 st1 h1
        have hb := passWalkL_mono li fc es st1 es2 stt h2
        have hn1 : st1.notices = st.notices := by omega
        have hn2 : stt.notices = st1.notices := by omega
        obtain ⟨hcA, hsA, hgA⟩ := passWalk_counts li V fc e st e2 st1
          hV hg.1 h1 hn1
        obtain ⟨hcB, hsB, hgB⟩ := passWalkL_counts li V fc es st1 es2 stt
          hV hg.2 h2 hn2
        refine ⟨?_, ?_, by simp [goodShapeL, hgA, hgB]⟩
        · simp only [checksCountInL]
          omega
        · simp only [setsCountInL]
          omega

end


/-!
## Claim theorems
-/

/-- C1: for an eligible rewrite of `if (label == V) {B}` with predecessor S
(and a name-pool index still available), the rewriter produces exactly the
structure the specification describes: every `label = V` assignment inside S
is replaced by a break to the drawn inner name; an inner block named with
the drawn inner name contains S followed by a break to the drawn outer
name; an outer block named with the drawn outer name contains the inner
block followed by B; the outer block replaces S (it is the returned origin
slot contents), and when an else-if chain follows, the recursive rewrite
continues with the outer block as the predecessor. -/
theorem C1_rewrite_structure (li V : Nat) (origin t origin2 : Expr)
    (st : PassState)
    (hcap : st.counter < MAX_NAME_INDEX)
    (hju : jumpUpdaterWalk li V (innerNames st.counter) origin = some origin2) :
    optimizeJumpsToLabelCheck li origin (labelChk li V t none) st =
      some (.block (some (outerNames st.counter))
        [.block (some (innerNames st.counter)) [origin2, .brk (outerNames st.counter)], t],
        ⟨st.counter + 1, st.notices⟩) ∧
    (∀ g, optimizeJumpsToLabelCheck li origin (labelChk li V t (some g)) st =
      optimizeJumpsToLabelCheck li
        (.block (some (outerNames st.counter))
          [.block (some (innerNames st.counter)) [origin2, .brk (outerNames st.counter)], t])
        g ⟨st.counter + 1, st.notices⟩) ∧
    (∀ v, checksCountIn li v origin2 = checksCountIn li v origin) ∧
    (∀ v, v ≠ V → setsCountIn li v origin2 = setsCountIn li v origin) ∧
    setsCountIn li V origin2 = 0 ∧
    breakCount (innerNames st.counter) origin2 =
      breakCount (innerNames st.counter) origin + setsCountIn li V origin := by
  have hne : ¬ (st.counter ≥ MAX_NAME_INDEX) := by omega
  refine ⟨?_, ?_,
    fun v => (ju_counts li V (innerNames st.counter) origin origin2 hju v).1,
    fun v hv => (ju_counts li V (innerNames st.counter) origin origin2 hju v).2.1 hv,
    (ju_counts li V (innerNames st.counter) origin origin2 hju V).2.2.1,
    (ju_counts li V (innerNames st.counter) origin origin2 hju V).2.2.2⟩
  · rw [optimizeJumpsToLabelCheck]
    simp only [labelChk, labelEq, getCheckedLabelValue, if_neg hne, hju]
  · intro g
    rw [optimizeJumpsToLabelCheck]
    simp only [labelChk, labelEq, getCheckedLabelValue, if_neg hne, hju]

/-- C1 witness: the rewrite of `if (label == 5) {}` with predecessor
`label = 5`, from a fresh state. -/
theorem C1_rewrite_structure_witness :
    optimizeJumpsToLabelCheck 0 (labelSet 0 5) (labelChk 0 5 .nop none) ⟨0, 0⟩ =
      some (.block (some (outerNames 0))
        [.block (some (innerNames 0)) [.brk (innerNames 0), .brk (outerNames 0)], .nop],
        ⟨1, 0⟩) ∧
    setsCountIn 0 5 (.brk (innerNames 0)) = 0 :=
  ⟨(C1_rewrite_structure 0 5 (labelSet 0 5) .nop (.brk (innerNames 0)) ⟨0, 0⟩
      (by decide) rfl).1,
    (C1_rewrite_structure 0 5 (labelSet 0 5) .nop (.brk (innerNames 0)) ⟨0, 0⟩
      (by decide) rfl).2.2.2.2.1⟩

/-- C2 counterexample: label value 5 is checked twice function-wide, yet the
pass (run on a fresh instance, with no cap notices) turns the function's one
`label = 5` assignment into a break.  The first conditional's false branch
is an `If` on a *different* local whose right operand happens to be the
constant 5; the rewriter processes it as a chain element and rewrites the
sets of 5 — the multiply-checked-value guard never sees value 5 because the
guard only inspects values checked along the chain. -/
theorem C2_counterexample :
    (labelUseFinderWalk 0 (.block none [labelSet 0 5,
        labelChk 0 1 .nop (some (.iff (.binary .eqInt32 (.getLocal 1) (.const 5)) .nop none)),
        labelChk 0 5 .nop none, labelChk 0 5 .nop none]) emptyCounts).map
      (fun fc => (fc.checks 5, fc.sets 5)) = some (2, 1) ∧
    setsCountIn 0 5 (.block none [labelSet 0 5,
        labelChk 0 1 .nop (some (.iff (.binary .eqInt32 (.getLocal 1) (.const 5)) .nop none)),
        labelChk 0 5 .nop none, labelChk 0 5 .nop none]) = 1 ∧
    (doWalkFunction freshInstance ⟨true, 0, .block none [labelSet 0 5,
        labelChk 0 1 .nop (some (.iff (.binary .eqInt32 (.getLocal 1) (.const 5)) .nop none)),
        labelChk 0 5 .nop none, labelChk 0 5 .nop none]⟩).map
      (fun r => (setsCountIn 0 5 r.1, r.2.notices)) = some (0, 0) := by
  refine ⟨rfl, rfl, ?_⟩
  simp [labelChk, labelEq, labelSet, visitBlockRun_chk, visitBlockRun_break,
    visitBlockRun_holder, visitBlockRun_breakHolder, visitBlockRun.eq_1,
    visitBlockScan_cons, visitBlockScan, isLabelCheckingIf,
    hasIrreducibleControlFlow, labelUseFinderWalk, labelUseFinderWalkL,
    hasIrrChain, hasIrrCheckValue, getCheckedLabelValue, emptyCounts,
    bumpCheck, bumpSet, MAX_NAME_INDEX, optimizeJumpsToLabelCheck,
    isLabelSettingSetLocal, getSetLabelValue, jumpUpdaterWalk,
    jumpUpdaterWalkL, valClass, innerNames, outerNames, doWalkFunction,
    passWalk, passWalkL, freshInstance, checksCountIn, checksCountInL,
    checkOwn, setOwn, setsCountIn, setsCountInL, condClass, locClass,
    exprIsIf]

/-- C2 (amended): for a function whose body's label-check chains are well
shaped (every label-checking if's false branch is absent or itself a
label-checking if) and whose pass run emits no name-cap notices, every label
value V checked more than once function-wide keeps all its checks and all
its assignments: the pass preserves both counts exactly. -/
theorem C2_multicheck_preserved (V : Nat) (func : Func) (fc : Counts)
    (body2 : Expr) (inst2 : InstanceState)
    (hl : func.hasLabel = true)
    (hg : goodShape func.labelIndex func.body = true)
    (hfc : labelUseFinderWalk func.labelIndex func.body emptyCounts = some fc)
    (hV : 1 < fc.checks V)
    (h : doWalkFunction freshInstance func = some (body2, inst2))
    (hnot : inst2.notices = 0) :
    checksCountIn func.labelIndex V body2 = checksCountIn func.labelIndex V func.body ∧
    setsCountIn func.labelIndex V body2 = setsCountIn func.labelIndex V func.body := by
  unfold doWalkFunction at h
  rw [if_pos hl] at h
  have hfc2 : labelUseFinderWalk func.labelIndex func.body
      ⟨freshInstance.labelChecks, freshInstance.labelSets⟩ = some fc := hfc
  simp only [hfc2] at h
  cases hpw : passWalk func.labelIndex fc func.body
      ⟨freshInstance.newNameCounter, freshInstance.notices⟩ with
  | none => simp [hpw] at h
  | some r =>
    obtain ⟨b2, stf⟩ := r
    simp only [hpw] at h
    obtain ⟨rfl, rfl⟩ : b2 = body2 ∧ _ = inst2 := by simpa using h
    have hn : stf.notices = 0 := hnot
    have hres := passWalk_counts func.labelIndex V fc func.body
      ⟨freshInstance.newNameCounter, freshInstance.notices⟩ b2 stf hV hg hpw hn
    exact ⟨hres.1, hres.2.1⟩

/-- C2 witness: a function checking value 9 twice (in a block-free body, so
the scanner never fires) passes through unchanged. -/
theorem C2_multicheck_preserved_witness :
    checksCountIn 0 9 (.binary .otherOp (labelChk 0 9 .nop none) (labelChk 0 9 .nop none)) =
      checksCountIn 0 9 (.binary .otherOp (labelChk 0 9 .nop none) (labelChk 0 9 .nop none)) ∧
    setsCountIn 0 9 (.binary .otherOp (labelChk 0 9 .nop none) (labelChk 0 9 .nop none)) =
      setsCountIn 0 9 (.binary .otherOp (labelChk 0 9 .nop none) (labelChk 0 9 .nop none)) :=
  C2_multicheck_preserved 9
    ⟨true, 0, .binary .otherOp (labelChk 0 9 .nop none) (labelChk 0 9 .nop none)⟩
    (bumpCheck (bumpCheck emptyCounts 9) 9)
    (.binary .otherOp (labelChk 0 9 .nop none) (labelChk 0 9 .nop none))
    { labelChecks := (bumpCheck (bumpCheck emptyCounts 9) 9).checks
      labelSets := (bumpCheck (bumpCheck emptyCounts 9) 9).sets
      labelIndex := 0
      newNameCounter := 0
      notices := 0 }
    rfl rfl rfl (by simp [bumpCheck_checks, emptyCounts]) rfl rfl

/-- C3 counterexample: label value 2 is checked exactly once, and its only
assignment lives in the run's first element, not in the statement
immediately preceding its check (that statement is the check of value 1,
which contains no assignment of 2) — yet the pass rewrites the check of 2
away (both the check and the assignment of 2 are gone from the output),
because the analyzer compares against the run's origin element, which stays
fixed while consecutive checks are consumed. -/
theorem C3_counterexample :
    (labelUseFinderWalk 0 (.block none [.block none [labelSet 0 1, labelSet 0 2],
        labelChk 0 1 .nop none, labelChk 0 2 .nop none]) emptyCounts).map
      (fun fc => (fc.checks 2, fc.sets 2)) = some (1, 1) ∧
    setsCountIn 0 2 (labelChk 0 1 .nop none) = 0 ∧
    (doWalkFunction freshInstance ⟨true, 0, .block none
        [.block none [labelSet 0 1, labelSet 0 2],
         labelChk 0 1 .nop none, labelChk 0 2 .nop none]⟩).map
      (fun r => (checksCountIn 0 2 r.1, setsCountIn 0 2 r.1)) = some (0, 0) := by
  refine ⟨rfl, rfl, ?_⟩
  simp [labelChk, labelEq, labelSet, visitBlockRun_chk, visitBlockRun_break,
    visitBlockRun_holder, visitBlockRun_breakHolder, visitBlockRun.eq_1,
    visitBlockScan_cons, visitBlockScan, isLabelCheckingIf,
    hasIrreducibleControlFlow, labelUseFinderWalk, labelUseFinderWalkL,
    hasIrrChain, hasIrrCheckValue, getCheckedLabelValue, emptyCounts,
    bumpCheck, bumpSet, MAX_NAME_INDEX, optimizeJumpsToLabelCheck,
    isLabelSettingSetLocal, getSetLabelValue, jumpUpdaterWalk,
    jumpUpdaterWalkL, valClass, innerNames, outerNames, doWalkFunction,
    passWalk, passWalkL, freshInstance, checksCountIn, checksCountInL,
    checkOwn, setOwn, setsCountIn, setsCountInL, condClass, locClass,
    exprIsIf]

/-- C3 (amended): when a label value V is checked exactly once, is not
checked inside the run's origin element, and has an assignment outside that
origin element (the origin-restricted set count is strictly below the
function-wide one), the analyzer reports irreducible control flow, the
scanner leaves that check intact in place, and irreducibility latches: the
rest of the run proceeds with the flag set, so no later chain element of
this run is rewritten either.  (The claim's "statement immediately
preceding" is in truth the run's origin element, fixed when the run
started.) -/
theorem C3_outside_set_latches (li V : Nat) (fc cIn : Counts)
    (origin t : Expr) (rs : List Expr) (irr : Bool) (st : PassState)
    (hfc : labelUseFinderWalk li origin emptyCounts = some cIn)
    (hchk : fc.checks V = 1) (hloc : cIn.checks V = 0)
    (hout : cIn.sets V < fc.sets V) :
    hasIrreducibleControlFlow li fc (labelChk li V t none) origin = some true ∧
    visitBlockRun li fc origin (labelChk li V t none :: rs) irr st =
      (match visitBlockRun li fc origin rs true st with
       | none => none
       | some (o2, tail, st2) => some (o2, labelChk li V t none :: tail, st2)) := by
  have hlc : isLabelCheckingIf (.iff (labelEq li V) t none) li = true := by
    simp [labelEq, isLabelCheckingIf]
  have hirr : hasIrreducibleControlFlow li fc (labelChk li V t none) origin
      = some true := by
    unfold hasIrreducibleControlFlow
    rw [hfc]
    simp only [labelChk, labelEq, hasIrrChain, getCheckedLabelValue]
    have hv : hasIrrCheckValue fc cIn V = some (some true) := by
      unfold hasIrrCheckValue
      rw [if_neg (by omega), if_neg (by omega), if_neg (by omega),
        if_pos (by omega), if_pos hout]
    rw [hv]
  refine ⟨hirr, ?_⟩
  simp only [labelChk] at hirr ⊢
  rw [visitBlockRun_chk li fc origin irr st (labelEq li V) t none rs hlc]
  rw [hirr]
  simp [Bool.or_true]

/-- C3 witness: value 2 checked once function-wide, assigned once but
outside the origin `label = 1`; the analyzer flags it and the check survives
the run unchanged. -/
theorem C3_outside_set_latches_witness :
    hasIrreducibleControlFlow 0 (bumpSet (bumpCheck emptyCounts 2) 2)
      (labelChk 0 2 .nop none) (labelSet 0 1) = some true ∧
    visitBlockRun 0 (bumpSet (bumpCheck emptyCounts 2) 2) (labelSet 0 1)
      (labelChk 0 2 .nop none :: []) false ⟨0, 0⟩ =
      (match visitBlockRun 0 (bumpSet (bumpCheck emptyCounts 2) 2)
          (labelSet 0 1) [] true ⟨0, 0⟩ with
       | none => none
       | some (o2, tail, st2) => some (o2, labelChk 0 2 .nop none :: tail, st2)) :=
  C3_outside_set_latches 0 2 (bumpSet (bumpCheck emptyCounts 2) 2)
    (bumpSet emptyCounts 1) (labelSet 0 1) .nop [] false ⟨0, 0⟩ rfl
    (by simp [bumpSet_checks, bumpCheck_checks, emptyCounts])
    (by simp [bumpSet_checks, emptyCounts])
    (by simp [bumpSet_sets, bumpCheck_sets, emptyCounts])

/-- C4 counterexample: a false branch that exists but is not a label-check
conditional is not "left untouched and attached as-is".  If it is an `If`
whose condition compares a *different* local against a constant, the
rewriter still processes it as a chain element: it extracts the constant 5
from it and replaces the predecessor's `label = 5` assignment with a break
(no assignment of 5 survives in the output).  If it is not an `If` at all,
the hard cast fails and the rewrite is not even well-defined. -/
theorem C4_counterexample :
    isLabelCheckingIf (.iff (.binary .eqInt32 (.getLocal 9) (.const 5)) .nop none) 0
      = false ∧
    (optimizeJumpsToLabelCheck 0 (labelSet 0 5)
        (labelChk 0 1 .nop (some (.iff (.binary .eqInt32 (.getLocal 9) (.const 5)) .nop none)))
        ⟨0, 0⟩).map (fun r => setsCountIn 0 5 r.1) = some 0 ∧
    setsCountIn 0 5 (labelSet 0 5) = 1 ∧
    optimizeJumpsToLabelCheck 0 (labelSet 0 1)
      (labelChk 0 1 .nop (some (.setLocal 0 (.const 3)))) ⟨0, 0⟩ = none :=
  ⟨rfl, rfl, rfl, rfl⟩

/-- C4 (amended): the rewriter's recursion hard-casts the false branch to
`If`; whenever the false branch exists and is not an `If` node (and the
name pool is not at its cap, so the cap bail-out does not mask the cast),
the rewrite of the conditional is not well-defined at all (it crashes),
rather than attaching the branch untouched. -/
theorem C4_nonif_false_branch (li : Nat) (origin cond t f : Expr)
    (st : PassState)
    (hf : exprIsIf f = false)
    (hcap : st.counter + 1 < MAX_NAME_INDEX) :
    optimizeJumpsToLabelCheck li origin (.iff cond t (some f)) st = none := by
  rw [optimizeJumpsToLabelCheck]
  rw [if_neg (by omega)]
  cases hg : getCheckedLabelValue (.iff cond t (some f)) with
  | none => rfl
  | some num =>
    simp only [hg]
    cases hj : jumpUpdaterWalk li num (innerNames st.counter) origin with
    | none => rfl
    | some o2 =>
      simp only [hj]
      rw [optimizeJumpsToLabelCheck]
      rw [if_neg (show ¬ st.counter + 1 ≥ MAX_NAME_INDEX by omega)]
      cases f <;> simp_all [exprIsIf, getCheckedLabelValue]

/-- C4 witness: the rewrite crashes on a false branch that is a plain
assignment node. -/
theorem C4_nonif_false_branch_witness :
    optimizeJumpsToLabelCheck 0 (labelSet 0 1)
      (.iff (labelEq 0 1) .nop (some (.setLocal 0 (.const 3)))) ⟨0, 0⟩ = none :=
  C4_nonif_false_branch 0 (labelSet 0 1) (labelEq 0 1) .nop
    (.setLocal 0 (.const 3)) ⟨0, 0⟩ rfl (by decide)

/-- C5: what the code actually does when the name-pool cursor has reached
`MAX_NAME_INDEX`, contradicting the specified behavior in two ways.  First
conjunct: the rewrite site's conditional is *not* retained — the cap branch
returns the origin unchanged, but the caller still replaces the conditional
with a no-op, destroying its true-branch body (`brk "body"` is gone from
the output).  Second conjunct: the diagnostic is emitted once per affected
site, not once per function — two capped sites yield a notice count of 2
(and the cursor still advances past the cap at each site). -/
theorem C5_cap_divergence :
    visitBlockRun 0 (bumpSet (bumpCheck emptyCounts 1) 1) (labelSet 0 1)
      [labelChk 0 1 (.brk "body") none] false ⟨MAX_NAME_INDEX, 0⟩ =
      some (labelSet 0 1, [.nop], ⟨MAX_NAME_INDEX + 1, 1⟩) ∧
    visitBlockRun 0
      (bumpSet (bumpCheck (bumpSet (bumpCheck emptyCounts 1) 1) 2) 2)
      (.block none [labelSet 0 1, labelSet 0 2])
      [labelChk 0 1 .nop none, labelChk 0 2 .nop none] false ⟨MAX_NAME_INDEX, 0⟩ =
      some (.block none [labelSet 0 1, labelSet 0 2], [.nop, .nop],
        ⟨MAX_NAME_INDEX + 2, 2⟩) := by
  constructor <;>
  simp [labelChk, labelEq, labelSet, visitBlockRun_chk, visitBlockRun.eq_1,
    isLabelCheckingIf, hasIrreducibleControlFlow, labelUseFinderWalk,
    labelUseFinderWalkL, hasIrrChain, hasIrrCheckValue, getCheckedLabelValue,
    emptyCounts, bumpCheck, bumpSet, MAX_NAME_INDEX,
    optimizeJumpsToLabelCheck, isLabelSettingSetLocal, getSetLabelValue]

/-- C6: whenever the analyzer examines a chain value V that is not checked
more than once function-wide — with the function-wide counts taken over a
block body containing the origin and the chain conditional, as in the pass —
the asserted invariants hold: V is checked at least once function-wide (the
chain's own check was counted), V is not checked inside the origin (the
origin-restricted check count is 0, consistent with the single chain
check), the origin-restricted set count never exceeds the function-wide set
count, and the per-value loop body reaches no assertion failure. -/
theorem C6_analyzer_invariants (li V : Nat) (bn : Option BName)
    (pre mid post : List Expr) (origin iffE : Expr) (fc cIn : Counts)
    (hbody : labelUseFinderWalk li
      (.block bn (pre ++ origin :: mid ++ iffE :: post)) emptyCounts = some fc)
    (horig : labelUseFinderWalk li origin emptyCounts = some cIn)
    (hmem : V ∈ chainValues li iffE)
    (hle : fc.checks V ≤ 1) :
    1 ≤ fc.checks V ∧ cIn.checks V = 0 ∧ cIn.sets V ≤ fc.sets V ∧
    hasIrrCheckValue fc cIn V ≠ none := by
  have h1 := finder_counts li _ _ _ hbody V
  have h2 := finder_counts li _ _ _ horig V
  have h3 := chainValues_mem_checks li iffE V hmem
  simp only [checksCountIn, setsCountIn, checksCountInL_append,
    setsCountInL_append, checksCountInL, setsCountInL, emptyCounts] at h1 h2
  have hc1 : 1 ≤ fc.checks V := by omega
  have hc2 : cIn.checks V = 0 := by omega
  have hc3 : cIn.sets V ≤ fc.sets V := by omega
  refine ⟨hc1, hc2, hc3, ?_⟩
  unfold hasIrrCheckValue
  rw [if_neg (by omega), if_neg (by omega), if_neg (by omega)]
  by_cases hs : cIn.sets V = fc.sets V
  · rw [if_neg (by omega)]
    simp
  · rw [if_pos (by omega), if_pos (by omega)]
    simp

/-- C6 witness: origin `label = 3` followed by its sole check. -/
theorem C6_analyzer_invariants_witness :
    1 ≤ (bumpCheck (bumpSet emptyCounts 3) 3).checks 3 ∧
    (bumpSet emptyCounts 3).checks 3 = 0 ∧
    (bumpSet emptyCounts 3).sets 3 ≤ (bumpCheck (bumpSet emptyCounts 3) 3).sets 3 ∧
    hasIrrCheckValue (bumpCheck (bumpSet emptyCounts 3) 3)
      (bumpSet emptyCounts 3) 3 ≠ none :=
  C6_analyzer_invariants 0 3 none [] [] [] (labelSet 0 3)
    (labelChk 0 3 .nop none) (bumpCheck (bumpSet emptyCounts 3) 3)
    (bumpSet emptyCounts 3) rfl rfl
    (by simp [chainValues, labelChk, labelEq])
    (by simp [bumpCheck_checks, bumpSet_checks, emptyCounts])

/-- C7 counterexample: an equality comparison of the label variable against
a non-constant is recognized as a label check by the shape test (the right
operand's shape is not checked), and the counter is then *not* well-defined
on it: the hard cast in the value extraction fails, instead of the node
counting as nothing. -/
theorem C7_counterexample :
    isLabelCheckingIf (.iff (.binary .eqInt32 (.getLocal 0) (.getLocal 2)) .nop none) 0
      = true ∧
    labelUseFinderWalk 0 (.iff (.binary .eqInt32 (.getLocal 0) (.getLocal 2)) .nop none)
      emptyCounts = none :=
  ⟨rfl, rfl⟩

/-- C7 (amended): on any subtree on which it succeeds, the use counter adds
to its accumulator exactly the structural number of conditionals
`if (label == C)` per constant C and of assignments `label = C` per
constant C (so unrelated equality comparisons and assignments to other
variables count as nothing, and no tree is returned, hence none mutated);
it is total when every label check compares against a constant and every
label assignment assigns a constant. -/
theorem C7_counter_characterization (li : Nat) (e : Expr) :
    (∀ c d, labelUseFinderWalk li e c = some d → ∀ v,
      d.checks v = c.checks v + checksCountIn li v e ∧
      d.sets v = c.sets v + setsCountIn li v e) ∧
    (∀ c, checksWF li e = true → setsWF li e = true →
      ∃ d, labelUseFinderWalk li e c = some d) :=
  ⟨fun c d h v => finder_counts li e c d h v,
   fun c hc hs => finder_total li e c hc hs⟩

/-- C7 witness: one check of 4 and one assignment of 4, counted from the
empty accumulator. -/
theorem C7_counter_characterization_witness :
    ((bumpSet (bumpCheck emptyCounts 4) 4).checks 4 =
        emptyCounts.checks 4 + checksCountIn 0 4
          (.binary .otherOp (labelChk 0 4 .nop none) (labelSet 0 4)) ∧
      (bumpSet (bumpCheck emptyCounts 4) 4).sets 4 =
        emptyCounts.sets 4 + setsCountIn 0 4
          (.binary .otherOp (labelChk 0 4 .nop none) (labelSet 0 4))) ∧
    ∃ d, labelUseFinderWalk 0
      (.binary .otherOp (labelChk 0 4 .nop none) (labelSet 0 4)) emptyCounts = some d :=
  ⟨(C7_counter_characterization 0
      (.binary .otherOp (labelChk 0 4 .nop none) (labelSet 0 4))).1
      emptyCounts (bumpSet (bumpCheck emptyCounts 4) 4) rfl 4,
   (C7_counter_characterization 0
      (.binary .otherOp (labelChk 0 4 .nop none) (labelSet 0 4))).2
      emptyCounts rfl rfl⟩

/-- C8 counterexample: the member maps are not per-function state.  Running
one instance on function F (label 1 set once and checked once: the check is
rewritten away, count 0 in the output) and then running the *same* instance
on F again yields a different result for the identical input: the finder
accumulates into the old maps, value 1 now appears checked twice, the guard
fires, and the check survives (count 1) — unlike what a fresh instance
computes for F. -/
theorem C8_counterexample :
    (doWalkFunction freshInstance
        ⟨true, 0, .block none [labelSet 0 1, labelChk 0 1 .nop none]⟩).map
      (fun r => checksCountIn 0 1 r.1) = some 0 ∧
    (match doWalkFunction freshInstance
        ⟨true, 0, .block none [labelSet 0 1, labelChk 0 1 .nop none]⟩ with
     | some (_, inst) =>
       (doWalkFunction inst
           ⟨true, 0, .block none [labelSet 0 1, labelChk 0 1 .nop none]⟩).map
         (fun (r : Expr × InstanceState) => checksCountIn 0 1 r.1)
     | none => none) = some 1 := by
  constructor <;>
  simp [labelChk, labelEq, labelSet, visitBlockRun_chk, visitBlockRun_break,
    visitBlockRun_holder, visitBlockRun_breakHolder, visitBlockRun.eq_1,
    visitBlockScan_cons, visitBlockScan, isLabelCheckingIf,
    hasIrreducibleControlFlow, labelUseFinderWalk, labelUseFinderWalkL,
    hasIrrChain, hasIrrCheckValue, getCheckedLabelValue, emptyCounts,
    bumpCheck, bumpSet, MAX_NAME_INDEX, optimizeJumpsToLabelCheck,
    isLabelSettingSetLocal, getSetLabelValue, jumpUpdaterWalk,
    jumpUpdaterWalkL, valClass, innerNames, outerNames, doWalkFunction,
    passWalk, passWalkL, freshInstance, checksCountIn, checksCountInL,
    checkOwn, setOwn, setsCountIn, setsCountInL, condClass, locClass,
    exprIsIf]

/-- C8 (amended): use counts and the name counter are carried across
functions rather than computed fresh: a successful run on a function with a
label writes back, as the instance's new maps, the old maps *plus* the
current function's structural counts, and the name counter never resets
(it only grows). -/
theorem C8_state_carries_over (inst : InstanceState) (func : Func)
    (body2 : Expr) (inst2 : InstanceState)
    (hl : func.hasLabel = true)
    (h : doWalkFunction inst func = some (body2, inst2)) :
    ∃ fc, labelUseFinderWalk func.labelIndex func.body
        ⟨inst.labelChecks, inst.labelSets⟩ = some fc ∧
      inst2.labelChecks = fc.checks ∧ inst2.labelSets = fc.sets ∧
      (∀ v, fc.checks v = inst.labelChecks v + checksCountIn func.labelIndex v func.body ∧
            fc.sets v = inst.labelSets v + setsCountIn func.labelIndex v func.body) ∧
      inst.newNameCounter ≤ inst2.newNameCounter := by
  unfold doWalkFunction at h
  rw [if_pos hl] at h
  cases hfc : labelUseFinderWalk func.labelIndex func.body
      ⟨inst.labelChecks, inst.labelSets⟩ with
  | none => simp [hfc] at h
  | some fc =>
    simp only [hfc] at h
    cases hpw : passWalk func.labelIndex fc func.body
        ⟨inst.newNameCounter, inst.notices⟩ with
    | none => simp [hpw] at h
    | some r =>
      obtain ⟨b2, stf⟩ := r
      simp only [hpw] at h
      obtain ⟨-, rfl⟩ : b2 = body2 ∧ _ = inst2 := by simpa using h
      have hm := passWalk_mono func.labelIndex fc func.body
        ⟨inst.newNameCounter, inst.notices⟩ b2 stf hpw
      refine ⟨fc, rfl, rfl, rfl, fun v => ?_, ?_⟩
      · exact finder_counts func.labelIndex func.body
          ⟨inst.labelChecks, inst.labelSets⟩ fc hfc v
      · exact hm.2

/-- C8 witness: a fresh instance on a trivial labelled function. -/
theorem C8_state_carries_over_witness :
    ∃ fc, labelUseFinderWalk 0 .nop
        ⟨freshInstance.labelChecks, freshInstance.labelSets⟩ = some fc ∧
      (fun (_ : Nat) => 0) = fc.checks ∧ (fun (_ : Nat) => 0) = fc.sets ∧
      (∀ v, fc.checks v = freshInstance.labelChecks v + checksCountIn 0 v .nop ∧
            fc.sets v = freshInstance.labelSets v + setsCountIn 0 v .nop) ∧
      freshInstance.newNameCounter ≤ 0 :=
  C8_state_carries_over freshInstance ⟨true, 0, .nop⟩ .nop
    { labelChecks := fun _ => 0
      labelSets := fun _ => 0
      labelIndex := 0
      newNameCounter := 0
      notices := 0 } rfl rfl

/-- C9 counterexample: the pass is not idempotent on rewritten sites.  One
run rewrites the site for value 5; the conditional's true-branch (the check
of 7) is carried into the rewritten region together with the origin that
still assigns 7, so a second run over the already-rewritten output performs
a further rewrite inside that region (the check of 7, present after run
one, is gone after run two). -/
theorem C9_counterexample :
    (doWalkFunction freshInstance ⟨true, 0, .block none
        [.block none [labelSet 0 5, labelSet 0 7],
         labelChk 0 5 (labelChk 0 7 .nop none) none]⟩).map
      (fun r => checksCountIn 0 7 r.1) = some 1 ∧
    (match doWalkFunction freshInstance ⟨true, 0, .block none
        [.block none [labelSet 0 5, labelSet 0 7],
         labelChk 0 5 (labelChk 0 7 .nop none) none]⟩ with
     | some (out1, _) =>
       (doWalkFunction freshInstance ⟨true, 0, out1⟩).map
         (fun (r : Expr × InstanceState) => checksCountIn 0 7 r.1)
     | none => none) = some 0 := by
  constructor <;>
  simp [labelChk, labelEq, labelSet, visitBlockRun_chk, visitBlockRun_break,
    visitBlockRun_holder, visitBlockRun_breakHolder, visitBlockRun.eq_1,
    visitBlockScan_cons, visitBlockScan, isLabelCheckingIf,
    hasIrreducibleControlFlow, labelUseFinderWalk, labelUseFinderWalkL,
    hasIrrChain, hasIrrCheckValue, getCheckedLabelValue, emptyCounts,
    bumpCheck, bumpSet, MAX_NAME_INDEX, optimizeJumpsToLabelCheck,
    isLabelSettingSetLocal, getSetLabelValue, jumpUpdaterWalk,
    jumpUpdaterWalkL, valClass, innerNames, outerNames, doWalkFunction,
    passWalk, passWalkL, freshInstance, checksCountIn, checksCountInL,
    checkOwn, setOwn, setsCountIn, setsCountInL, condClass, locClass,
    exprIsIf]

/-- C9 (amended): what is true of a rewritten site is that the rewritten
chain *values* are gone: after a successful rewrite of a well-shaped chain
whose value V is checked exactly once (at the chain), not checked in the
predecessor, and never assigned inside the chain conditional, the rewritten
region contains no check of V and no assignment of V.  (Other label values
carried into the region can still be rewritten by a later run, so
idempotence at the site does not follow.) -/
theorem C9_rewritten_values_gone (li V : Nat) (iffE origin : Expr)
    (st : PassState) (o2 : Expr) (st2 : PassState)
    (hlc : isLabelCheckingIf iffE li = true)
    (hgi : goodShape li iffE = true) (hgo : goodShape li origin = true)
    (hmem : V ∈ chainValues li iffE)
    (hco : checksCountIn li V origin = 0)
    (hc1 : checksCountIn li V iffE = 1)
    (hs0 : setsCountIn li V iffE = 0)
    (h : optimizeJumpsToLabelCheck li origin iffE st = some (o2, st2))
    (hnot : st2.notices = st.notices) :
    checksCountIn li V o2 = 0 ∧ setsCountIn li V o2 = 0 :=
  opt_clean li V iffE origin st o2 st2 hlc hgi hgo hmem hco hc1 hs0 h hnot

/-- C9 witness: the rewrite of `if (label == 5) {}` over `label = 5` leaves
no check and no assignment of 5. -/
theorem C9_rewritten_values_gone_witness :
    checksCountIn 0 5 (.block (some (outerNames 0))
      [.block (some (innerNames 0)) [.brk (innerNames 0), .brk (outerNames 0)], .nop]) = 0 ∧
    setsCountIn 0 5 (.block (some (outerNames 0))
      [.block (some (innerNames 0)) [.brk (innerNames 0), .brk (outerNames 0)], .nop]) = 0 :=
  C9_rewritten_values_gone 0 5 (labelChk 0 5 .nop none) (labelSet 0 5) ⟨0, 0⟩
    (.block (some (outerNames 0))
      [.block (some (innerNames 0)) [.brk (innerNames 0), .brk (outerNames 0)], .nop])
    ⟨1, 0⟩ rfl rfl rfl (by simp [chainValues, labelChk, labelEq]) rfl rfl rfl
    rfl rfl

/-- C10: the use counter and the jump updater match label assignments on the
target index alone and hard-cast the assigned value to a constant, so both
are total under the precondition that every assignment to the label
variable assigns an integer constant (first two conjuncts); for an input
assigning a non-constant to the label variable, each reaches its
extraction-failure branch (last three conjuncts: that input violates the
precondition, and both walks crash on it). -/
theorem C10_constant_assignment_precondition :
    (∀ li tg nm e, setsWF li e = true → ∃ e2, jumpUpdaterWalk li tg nm e = some e2) ∧
    (∀ li e c, checksWF li e = true → setsWF li e = true →
      ∃ d, labelUseFinderWalk li e c = some d) ∧
    setsWF 0 (.setLocal 0 (.getLocal 1)) = false ∧
    jumpUpdaterWalk 0 5 "t" (.setLocal 0 (.getLocal 1)) = none ∧
    labelUseFinderWalk 0 (.setLocal 0 (.getLocal 1)) emptyCounts = none :=
  ⟨fun li tg nm e hw => ju_total li tg nm e hw,
   fun li e c hc hs => finder_total li e c hc hs,
   rfl, rfl, rfl⟩

/-- C10 witness: both walks succeed on a constant label assignment. -/
theorem C10_constant_assignment_precondition_witness :
    (∃ e2, jumpUpdaterWalk 0 5 "t" (labelSet 0 5) = some e2) ∧
    (∃ d, labelUseFinderWalk 0 (labelSet 0 5) emptyCounts = some d) :=
  ⟨C10_constant_assignment_precondition.1 0 5 "t" (labelSet 0 5) rfl,
   C10_constant_assignment_precondition.2.1 0 (labelSet 0 5) emptyCounts rfl rfl⟩

end RJT
